import Mathlib

/-!
SSVM: interpreter run loop, host function manager and VM stage machine.

A shallow embedding of

* `lib/interpreter/engine/engine.cpp` (run loop, function entry and exit),
* `include/executor/hostfuncmgr.h` (host function manager),
* `lib/expvm/vm.cpp` (VM facade with its stage machine),

followed by theorems about them.  Mutable C++ objects become explicit state:
every member function takes the state and returns its result together with
the new state.  Classes whose headers are not among the sources are either
parameters of the definitions (stack manager, instruction evaluation, store,
loader, validator) or are modelled from the specification and marked so.
-/

namespace SSVM

/-! ## Error codes and values -/

/-- Error codes.  The enumerators are those of `include/executor/common.h`,
in the order declared there, followed by the two further enumerators that
`lib/expvm/vm.cpp` names (`WrongVMWorkflow`, `ValidationFailed`). -/
inductive ErrCode where
  | Success
  | WrongExecutorFlow
  | WrongWorkerFlow
  | InstantiateFailed
  | WrongInstanceAddress
  | ExecutionFailed
  | TypeNotMatch
  | StackWrongEntry
  | StackEmpty
  | WrongLocalAddress
  | InstructionTypeMismatch
  | DivideByZero
  | FloatPointException
  | CastingError
  | Unimplemented
  | AccessForbidMemory
  | SliceDataFailed
  | Unreachable
  | WrongInstructionCounter
  | TableSizeExceeded
  | MemorySizeExceeded
  | FunctionInvalid
  | CallFunctionError
  | Revert
  | CostLimitExceeded
  | Terminated
  | WrongVMWorkflow
  | ValidationFailed
  deriving DecidableEq, Repr

/-- The result type `Expect<T>`: a value or an error code. -/
abbrev Expect (α : Type) := Except ErrCode α

/-- The conversion `Unexpect(Status)` followed by `return {}` that ends the
host branch of `enterFunction`: a status other than `Success` is an error. -/
def statusToExpect (Status : ErrCode) : Expect Unit :=
  if Status = ErrCode.Success then Except.ok () else Except.error Status

/-- Value types of WebAssembly. -/
inductive ValType where
  | I32
  | I64
  | F32
  | F64
  deriving DecidableEq, Repr

/-- A value: a tagged union over i32, i64, f32 and f64, each carried as its
bit pattern. -/
inductive ValVariant where
  | I32 (Bits : Nat)
  | I64 (Bits : Nat)
  | F32 (Bits : Nat)
  | F64 (Bits : Nat)
  deriving DecidableEq, Repr

/-- The zero value of a value type (`ValueFromType`). -/
def ValueFromType : ValType → ValVariant
  | ValType.I32 => ValVariant.I32 0
  | ValType.I64 => ValVariant.I64 0
  | ValType.F32 => ValVariant.F32 0
  | ValType.F64 => ValVariant.F64 0

/-- A function type: parameter types and result types. -/
structure FType where
  Params : List ValType
  Returns : List ValType
  deriving DecidableEq, Repr

/-- The opcodes that `engine.cpp` dispatches on. -/
inductive OpCode where
  | Unreachable | Nop | Return | Block | Loop | If | Br | Br_if | Br_table
  | Call | Call_indirect | Drop | Select
  | Local__get | Local__set | Local__tee | Global__get | Global__set
  | I32__load | I64__load | F32__load | F64__load
  | I32__load8_s | I32__load8_u | I32__load16_s | I32__load16_u
  | I64__load8_s | I64__load8_u | I64__load16_s | I64__load16_u
  | I64__load32_s | I64__load32_u
  | I32__store | I64__store | F32__store | F64__store
  | I32__store8 | I32__store16 | I64__store8 | I64__store16 | I64__store32
  | Memory__grow | Memory__size
  | I32__eqz | I64__eqz | I32__clz | I32__ctz | I32__popcnt
  | I64__clz | I64__ctz | I64__popcnt
  | F32__abs | F32__neg | F32__ceil | F32__floor | F32__nearest | F32__sqrt
  | F64__abs | F64__neg | F64__ceil | F64__floor | F64__nearest | F64__sqrt
  | I32__wrap_i64
  | I32__trunc_f32_s | I32__trunc_f32_u | I32__trunc_f64_s | I32__trunc_f64_u
  | I64__extend_i32_s | I64__extend_i32_u
  | I64__trunc_f32_s | I64__trunc_f32_u | I64__trunc_f64_s | I64__trunc_f64_u
  | F32__convert_i32_s | F32__convert_i32_u | F32__convert_i64_s
  | F32__convert_i64_u | F32__demote_f64
  | F64__convert_i32_s | F64__convert_i32_u | F64__convert_i64_s
  | F64__convert_i64_u | F64__promote_f32
  | I32__reinterpret_f32 | I64__reinterpret_f64
  | F32__reinterpret_i32 | F64__reinterpret_i64
  | I32__eq | I32__ne | I32__lt_s | I32__lt_u | I32__gt_s | I32__gt_u
  | I32__le_s | I32__le_u | I32__ge_s | I32__ge_u
  | I64__eq | I64__ne | I64__lt_s | I64__lt_u | I64__gt_s | I64__gt_u
  | I64__le_s | I64__le_u | I64__ge_s | I64__ge_u
  | F32__eq | F32__ne | F32__lt | F32__gt | F32__le | F32__ge
  | F64__eq | F64__ne | F64__lt | F64__gt | F64__le | F64__ge
  | I32__add | I32__sub | I32__mul | I32__div_s | I32__div_u
  | I32__rem_s | I32__rem_u | I32__and | I32__or | I32__xor
  | I32__shl | I32__shr_s | I32__shr_u | I32__rotl | I32__rotr
  | I64__add | I64__sub | I64__mul | I64__div_s | I64__div_u
  | I64__rem_s | I64__rem_u | I64__and | I64__or | I64__xor
  | I64__shl | I64__shr_s | I64__shr_u | I64__rotl | I64__rotr
  | F32__add | F32__sub | F32__mul | F32__div | F32__min | F32__max
  | F32__copysign
  | F64__add | F64__sub | F64__mul | F64__div | F64__min | F64__max
  | F64__copysign
  deriving DecidableEq, Repr

/-! ## Cost measure -/

/-- Modelled from the spec: the cost measure (`support/measure.h` is not
among the sources).  The spec gives it a cost limit, a cost sum, a per-opcode
cost table and an instruction counter; its timers are observers of real time
and are left out.  Costs are natural numbers, so sums are exact. -/
structure Measure where
  CostLimit : Nat
  CostSum : Nat
  CostTab : OpCode → Nat
  InstrCnt : Nat

namespace Measure

/-- Modelled from the spec: `incInstrCnt` increments the instruction
counter. -/
def incInstrCnt (M : Measure) : Measure :=
  { M with InstrCnt := M.InstrCnt + 1 }

/-- Modelled from the spec: `addCost` adds a cost to `CostSum`; if the sum
would exceed `CostLimit` the charge is rejected (result `false`) and the sum
is left as it was, which keeps `CostSum ≤ CostLimit`. -/
def addCost (M : Measure) (Cost : Nat) : Bool × Measure :=
  if M.CostLimit < M.CostSum + Cost then (false, M)
  else (true, { M with CostSum := M.CostSum + Cost })

/-- Modelled from the spec: `addInstrCost` charges the cost that the cost
table gives the opcode. -/
def addInstrCost (M : Measure) (Code : OpCode) : Bool × Measure :=
  M.addCost (M.CostTab Code)

end Measure

/-! ## Instruction provider -/

/-- The tag of an instruction scope (`InstrProvider::SeqType`). -/
inductive SeqType where
  | Expression
  | Block
  | FunctionCall
  deriving DecidableEq, Repr

/-- Modelled from the spec: one scope of the instruction provider, a tagged
instruction sequence of which `Instrs` is the part not yet fetched. -/
structure InstrScope (Instr : Type) where
  Tag : SeqType
  Instrs : List Instr

/-- Modelled from the spec: the instruction provider (its header is not among
the sources), a stack of scopes, each tagged Expression, Block or
FunctionCall.  The head of `Iters` is the current scope. -/
structure InstrProvider (Instr : Type) where
  Iters : List (InstrScope Instr)

namespace InstrProvider

variable {Instr : Type}

/-- Number of scopes (`getScopeSize`). -/
def getScopeSize (P : InstrProvider Instr) : Nat :=
  P.Iters.length

/-- Tag of the current scope (`getTopScopeType`); `none` without a scope. -/
def getTopScopeType (P : InstrProvider Instr) : Option SeqType :=
  P.Iters.head?.map InstrScope.Tag

/-- The tags of all scopes, current scope first. -/
def scopeTags (P : InstrProvider Instr) : List SeqType :=
  P.Iters.map InstrScope.Tag

/-- Modelled from the spec: `getNextInstr` fetches the next instruction of
the current scope and advances past it; the result is `none` (the null
pointer) when the current scope has no next instruction. -/
def getNextInstr (P : InstrProvider Instr) : Option Instr × InstrProvider Instr :=
  match P.Iters with
  | [] => (none, P)
  | S :: Rest =>
    match S.Instrs with
    | [] => (none, P)
    | I :: Is => (some I, { Iters := { S with Instrs := Is } :: Rest })

/-- Modelled from the spec: `pushInstrs(Type, Instrs)` enters a new scope;
`pushInstrs(Type)` is the call with an empty sequence. -/
def pushInstrs (P : InstrProvider Instr) (Tag : SeqType) (Instrs : List Instr) :
    InstrProvider Instr :=
  { Iters := { Tag := Tag, Instrs := Instrs } :: P.Iters }

/-- Modelled from the spec: `popInstrs` removes the current scope.  It
returns `Expect<void>`; the only failure the model has is the absence of a
scope, reported as `WrongInstructionCounter`. -/
def popInstrs (P : InstrProvider Instr) : Expect Unit × InstrProvider Instr :=
  match P.Iters with
  | [] => (Except.error ErrCode.WrongInstructionCounter, P)
  | _ :: Rest => (Except.ok (), { Iters := Rest })

end InstrProvider

/-! ## Interpreter state -/

/-- The member functions of the stack manager that `engine.cpp` calls in the
functions embedded below.  The class is not among the sources; it is a
parameter: `Stack` is its state and every theorem holds for every stack
manager. -/
structure StackManagerOps (Stack Instr : Type) where
  push : ValVariant → Stack → Stack
  pushLabel : Nat → Option Instr → Stack → Stack
  popLabel : Nat → Stack → Stack
  pushFrame : Nat → Nat → Nat → Stack → Stack
  popFrame : Stack → Nat × Stack

/-- A host function as `enterFunction` sees it: its declared cost
(`getCost()`) and its callable (`run(StackMgr, MemInst)`).  The callable
reads and writes the operand stack and the memory instance it is handed;
that memory instance lives in the store, so the model hands it the store.
A host module can also hold references into the measure (`vm.cpp` builds the
EEI module from `Measure.getCostLimit()` and `Measure.getCostSum()`), so the
callable is handed the measure of the engine too and returns it. -/
structure HostFunctionBase (Stack Store : Type) where
  Cost : Nat
  run : Stack → Store → Option Measure → ErrCode × Stack × Store × Option Measure

/-- A function instance: a host function or a native function with its
module address, local declarations (count and type) and body. -/
inductive FunctionInstance (Stack Store Instr : Type) where
  | Host (FuncType : FType) (HostFunc : HostFunctionBase Stack Store)
  | Native (FuncType : FType) (ModuleAddr : Nat) (Locals : List (Nat × ValType))
      (Instrs : List Instr)

/-- The state the engine works on: the members `StackMgr`, `InstrPdr` and
`Measure` (a pointer that may be null) of `Interpreter`, and the store that
every member function receives by reference. -/
structure Interpreter (Stack Store Instr : Type) where
  StackMgr : Stack
  InstrPdr : InstrProvider Instr
  Measure : Option Measure
  StoreMgr : Store

namespace Interpreter

variable {Stack Store Instr : Type}

/-- The evaluation of one fetched instruction, `dispatchInstruction(Code, ...)`
with the `execute` overload it selects.  Most helpers those overloads call
are not among the sources, so the run loop takes the evaluation as a
parameter. -/
abbrev Dispatch (Stack Store Instr : Type) :=
  OpCode → Instr → Interpreter Stack Store Instr →
    Expect Unit × Interpreter Stack Store Instr

/-- `Interpreter::enterBlock`: push the label, enter the block body. -/
def enterBlock (SM : StackManagerOps Stack Instr) (Arity : Nat)
    (Target : Option Instr) (Seq : List Instr) (E : Interpreter Stack Store Instr) :
    Expect Unit × Interpreter Stack Store Instr :=
  (Except.ok (),
    { E with
      StackMgr := SM.pushLabel Arity Target E.StackMgr
      InstrPdr := E.InstrPdr.pushInstrs SeqType.Block Seq })

/-- `Interpreter::leaveBlock`: pop one label, then pop the scope. -/
def leaveBlock (SM : StackManagerOps Stack Instr) (E : Interpreter Stack Store Instr) :
    Expect Unit × Interpreter Stack Store Instr :=
  let R := E.InstrPdr.popInstrs
  (R.1, { E with StackMgr := SM.popLabel 1 E.StackMgr, InstrPdr := R.2 })

/-- The loop of `enterFunction` that pushes the locals: for each declaration
`(count, type)` in order, `count` zero values of that type. -/
def pushLocals (SM : StackManagerOps Stack Instr) (Locals : List (Nat × ValType))
    (S : Stack) : Stack :=
  Locals.foldl
    (fun St Def => Nat.iterate (SM.push (ValueFromType Def.2)) Def.1 St) S

/-- Lines 610-623 of `enterFunction`: run the host callable and turn its
status into the result. -/
def runHostFunc (HostFunc : HostFunctionBase Stack Store)
    (E : Interpreter Stack Store Instr) :
    Expect Unit × Interpreter Stack Store Instr :=
  let R := HostFunc.run E.StackMgr E.StoreMgr E.Measure
  (statusToExpect R.1,
    { E with StackMgr := R.2.1, StoreMgr := R.2.2.1, Measure := R.2.2.2 })

/-- `Interpreter::enterFunction`.  Host function: with a measure attached
charge the declared cost, return `CostLimitExceeded` when the charge is
rejected, otherwise run the callable.  (The lookup of memory 0 of the current
module that comes first is not checked in the source and changes no state; the
callable is handed the store.)  Native function: push the frame and
the locals, push an empty `FunctionCall` scope and enter the body as a block
whose label has no target. -/
def enterFunction (SM : StackManagerOps Stack Instr)
    (Func : FunctionInstance Stack Store Instr) (E : Interpreter Stack Store Instr) :
    Expect Unit × Interpreter Stack Store Instr :=
  match Func with
  | FunctionInstance.Host _ HostFunc =>
    match E.Measure with
    | some M =>
      let R := M.addCost HostFunc.Cost
      if R.1 then runHostFunc HostFunc { E with Measure := some R.2 }
      else (Except.error ErrCode.CostLimitExceeded, { E with Measure := some R.2 })
    | none => runHostFunc HostFunc E
  | FunctionInstance.Native FuncType ModuleAddr Locals Instrs =>
    let S1 := SM.pushFrame ModuleAddr FuncType.Params.length FuncType.Returns.length
      E.StackMgr
    let S2 := pushLocals SM Locals S1
    let P1 := E.InstrPdr.pushInstrs SeqType.FunctionCall []
    enterBlock SM FuncType.Returns.length none Instrs
      { E with StackMgr := S2, InstrPdr := P1 }

/-- `Interpreter::leaveFunction`: pop the frame, pop one scope per label the
frame pop unwound (results ignored), pop the function scope. -/
def leaveFunction (SM : StackManagerOps Stack Instr) (E : Interpreter Stack Store Instr) :
    Expect Unit × Interpreter Stack Store Instr :=
  let R := SM.popFrame E.StackMgr
  let P1 := Nat.iterate (fun P => (InstrProvider.popInstrs P).2) R.1 E.InstrPdr
  (Except.ok (), { E with StackMgr := R.2, InstrPdr := P1.popInstrs.2 })

/-- One pass through the body of the `while` loop of
`Interpreter::execute(StoreMgr)`.  The first component is the error that makes
`execute` return, or `ok` when the loop goes on. -/
def executeStep (SM : StackManagerOps Stack Instr) (getOpCode : Instr → OpCode)
    (dispatchInstruction : Dispatch Stack Store Instr)
    (E : Interpreter Stack Store Instr) :
    Expect Unit × Interpreter Stack Store Instr :=
  match E.InstrPdr.getNextInstr with
  | (none, P) =>
    let E1 := { E with InstrPdr := P }
    if P.getTopScopeType = some SeqType.FunctionCall then leaveFunction SM E1
    else if P.getTopScopeType = some SeqType.Block then leaveBlock SM E1
    else
      let R := P.popInstrs
      (R.1, { E1 with InstrPdr := R.2 })
  | (some I, P) =>
    let E1 := { E with InstrPdr := P }
    let Code := getOpCode I
    match E.Measure with
    | some M =>
      let R := M.incInstrCnt.addInstrCost Code
      if R.1 then dispatchInstruction Code I { E1 with Measure := some R.2 }
      else (Except.error ErrCode.CostLimitExceeded, { E1 with Measure := some R.2 })
    | none => dispatchInstruction Code I E1

/-- `Interpreter::execute(StoreMgr)`, the run loop.  The loop need not end, so
it runs on fuel: one unit per pass, `none` when the fuel is used up. -/
def execute (SM : StackManagerOps Stack Instr) (getOpCode : Instr → OpCode)
    (dispatchInstruction : Dispatch Stack Store Instr) :
    Nat → Interpreter Stack Store Instr →
      Option (Expect Unit × Interpreter Stack Store Instr)
  | 0, _ => none
  | Fuel + 1, E =>
    if 0 < E.InstrPdr.getScopeSize then
      match executeStep SM getOpCode dispatchInstruction E with
      | (Except.ok _, E1) => execute SM getOpCode dispatchInstruction Fuel E1
      | (Except.error Code, E1) => some (Except.error Code, E1)
    else some (Except.ok (), E)

/-- `Interpreter::runFunction`: enter the function (an error there is
returned at once), run the loop, and return success when the loop succeeded or
ended with `Terminated`, its error otherwise.  Logging and timing are left
out. -/
def runFunction (SM : StackManagerOps Stack Instr) (getOpCode : Instr → OpCode)
    (dispatchInstruction : Dispatch Stack Store Instr) (Fuel : Nat)
    (Func : FunctionInstance Stack Store Instr) (E : Interpreter Stack Store Instr) :
    Option (Expect Unit × Interpreter Stack Store Instr) :=
  match enterFunction SM Func E with
  | (Except.error Code, E1) => some (Except.error Code, E1)
  | (Except.ok _, E1) =>
    match execute SM getOpCode dispatchInstruction Fuel E1 with
    | none => none
    | some (Except.ok _, E2) => some (Except.ok (), E2)
    | some (Except.error Code, E2) =>
      if Code = ErrCode.Terminated then some (Except.ok (), E2)
      else some (Except.error Code, E2)

end Interpreter

/-! ## Host function manager -/

namespace Executor

/-- `HostFunctionManager`: the vector `HostFuncs`.  `F` is the type of what
the vector holds (the owning pointers to host functions); the last element of
the list is the last one pushed. -/
structure HostFunctionManager (F : Type) where
  HostFuncs : List F

namespace HostFunctionManager

variable {F : Type}

/-- The default-constructed manager: an empty vector. -/
def init : HostFunctionManager F :=
  { HostFuncs := [] }

/-- `insertHostFunction`: `NewAddr = HostFuncs.size()`, then `push_back`.  The
out-parameter `NewAddr` is an `unsigned int`, 32 bits wide, so the size is
narrowed modulo `2 ^ 32`.  The result is the status, `NewAddr` and the new
manager. -/
def insertHostFunction (M : HostFunctionManager F) (Func : F) :
    ErrCode × Nat × HostFunctionManager F :=
  (ErrCode.Success, M.HostFuncs.length % 2 ^ 32, { HostFuncs := M.HostFuncs ++ [Func] })

/-- `getHostFunction`: `WrongInstanceAddress` when `Addr >= HostFuncs.size()`,
otherwise `Success` with `HostFuncs[Addr]`.  The second component is the
out-parameter `Func`, `none` when it is not written. -/
def getHostFunction (M : HostFunctionManager F) (Addr : Nat) : ErrCode × Option F :=
  if h : M.HostFuncs.length ≤ Addr then (ErrCode.WrongInstanceAddress, none)
  else (ErrCode.Success, some (M.HostFuncs.get ⟨Addr, Nat.lt_of_not_le h⟩))

/-- `reset`: clear the vector. -/
def reset (_M : HostFunctionManager F) : ErrCode × HostFunctionManager F :=
  (ErrCode.Success, { HostFuncs := [] })

/-- A state-changing call on the manager. -/
inductive Call (F : Type) where
  | insert (Func : F)
  | reset

/-- The manager after one call. -/
def afterCall (M : HostFunctionManager F) : Call F → HostFunctionManager F
  | Call.insert Func => (M.insertHostFunction Func).2.2
  | Call.reset => M.reset.2

/-- The manager after a sequence of calls, first call first. -/
def afterCalls (M : HostFunctionManager F) (Calls : List (Call F)) :
    HostFunctionManager F :=
  Calls.foldl afterCall M

/-- The number of insertions since the last reset, for a manager that had `N`
of them before the sequence of calls. -/
def insertedSinceReset : Nat → List (Call F) → Nat
  | N, [] => N
  | N, Call.insert _ :: Calls => insertedSinceReset (N + 1) Calls
  | _, Call.reset :: Calls => insertedSinceReset 0 Calls

/-- Insert the functions one after the other, without a reset: the addresses
returned, in the order of the calls, and the manager at the end. -/
def insertAll (M : HostFunctionManager F) : List F → List Nat × HostFunctionManager F
  | [] => ([], M)
  | Func :: Funcs =>
    let R := M.insertHostFunction Func
    let Rs := insertAll R.2.2 Funcs
    (R.2.1 :: Rs.1, Rs.2)

end HostFunctionManager

end Executor

/-! ## VM facade -/

namespace ExpVM

/-- Modelled from the spec: the stages of the VM (the enumeration is declared
in `expvm/vm.h`, which is not among the sources), in the order of the stage
machine Inited, Loaded, Validated, Instantiated. -/
inductive VMStage where
  | Inited
  | Loaded
  | Validated
  | Instantiated
  deriving DecidableEq, Repr

/-- The position of a stage in the enumeration. -/
def VMStage.toNat : VMStage → Nat
  | VMStage.Inited => 0
  | VMStage.Loaded => 1
  | VMStage.Validated => 2
  | VMStage.Instantiated => 3

instance : LT VMStage := ⟨fun A B => A.toNat < B.toNat⟩

instance (A B : VMStage) : Decidable (A < B) :=
  inferInstanceAs (Decidable (A.toNat < B.toNat))

/-- The members of `VM` that `validate`, `instantiate` and `execute` use: the
stage, the loaded module (a pointer that may be null), the store, the measure
and the interpreter engine. -/
structure VM (Module Store Interp : Type) where
  Stage : VMStage
  Mod : Option Module
  StoreRef : Store
  Measure : Measure
  InterpreterEngine : Interp

/-- `Interpreter::instantiateModule(StoreRef, Module, Name)`, which is not
among the sources and is a parameter.  It works on the store it is handed, on
the engine and on the measure the engine points to. -/
abbrev InstantiateModule (Module Store Interp : Type) :=
  Module → String → Store → Measure → Interp → Expect Unit × Store × Measure × Interp

/-- `Interpreter::invoke(StoreRef, Func, Params)`, which is not among the
sources and is a parameter.  It works on the store it is handed, on the engine
and on the measure the engine points to; the stage is not passed to it. -/
abbrev Invoke (Store Interp : Type) :=
  String → List ValVariant → Store → Measure → Interp →
    Expect (List ValVariant) × Store × Measure × Interp

/-- `Interpreter::registerModule(StoreRef, Module, Name)`, which is not among
the sources and is a parameter, of the same shape as `instantiateModule`. -/
abbrev RegisterModule (Module Store Interp : Type) :=
  Module → String → Store → Measure → Interp → Expect Unit × Store × Measure × Interp

/-- `Interpreter::registerModule(StoreRef, Obj)` for an import object, which
is not among the sources and is a parameter. -/
abbrev RegisterImport (ImportObject Store Interp : Type) :=
  ImportObject → Store → Measure → Interp → Expect Unit × Store × Measure × Interp

namespace VM

variable {Module Store Interp : Type}

/-- `VM::validate`.  `validator` is `ValidatorEngine.validate`, a parameter.
The result is `none` when `*Mod.get()` dereferences a null pointer. -/
def validate (validator : Module → Expect Unit) (V : VM Module Store Interp) :
    Option (Expect Unit × VM Module Store Interp) :=
  if V.Stage < VMStage.Loaded then some (Except.error ErrCode.WrongVMWorkflow, V)
  else
    match V.Mod with
    | none => none
    | some M =>
      match validator M with
      | Except.ok _ => some (Except.ok (), { V with Stage := VMStage.Validated })
      | Except.error Code => some (Except.error Code, V)

/-- `VM::instantiate`.  The result is `none` when `*Mod.get()` dereferences a
null pointer. -/
def instantiate (instantiateModule : InstantiateModule Module Store Interp)
    (V : VM Module Store Interp) : Option (Expect Unit × VM Module Store Interp) :=
  if V.Stage < VMStage.Validated then some (Except.error ErrCode.ValidationFailed, V)
  else
    match V.Mod with
    | none => none
    | some M =>
      let R := instantiateModule M "" V.StoreRef V.Measure V.InterpreterEngine
      let V1 := { V with StoreRef := R.2.1, Measure := R.2.2.1, InterpreterEngine := R.2.2.2 }
      match R.1 with
      | Except.ok _ => some (Except.ok (), { V1 with Stage := VMStage.Instantiated })
      | Except.error Code => some (Except.error Code, V1)

/-- `VM::execute(Func, Params)`: the call is handed to the interpreter. -/
def execute (invoke : Invoke Store Interp) (V : VM Module Store Interp)
    (Func : String) (Params : List ValVariant) :
    Expect (List ValVariant) × VM Module Store Interp :=
  let R := invoke Func Params V.StoreRef V.Measure V.InterpreterEngine
  (R.1, { V with StoreRef := R.2.1, Measure := R.2.2.1, InterpreterEngine := R.2.2.2 })

/-- `VM::loadWasm(Path)` and `VM::loadWasm(Code)`, which differ only in the
kind of source.  `parseModule` is `LoaderEngine.parseModule`, a parameter. -/
def loadWasm {Src : Type} (parseModule : Src → Expect Module)
    (V : VM Module Store Interp) (Source : Src) : Expect Unit × VM Module Store Interp :=
  match parseModule Source with
  | Except.ok M => (Except.ok (), { V with Mod := some M, Stage := VMStage.Loaded })
  | Except.error Code => (Except.error Code, V)

/-- `VM::registerModule(Name, Module)`: validate the module, then register
it with the interpreter. -/
def registerModuleAST (validator : Module → Expect Unit)
    (registerModule : RegisterModule Module Store Interp)
    (V : VM Module Store Interp) (Name : String) (M : Module) :
    Expect Unit × VM Module Store Interp :=
  match validator M with
  | Except.error Code => (Except.error Code, V)
  | Except.ok _ =>
    let R := registerModule M Name V.StoreRef V.Measure V.InterpreterEngine
    (R.1, { V with StoreRef := R.2.1, Measure := R.2.2.1, InterpreterEngine := R.2.2.2 })

/-- `VM::registerModule(Name, Path)` and `VM::registerModule(Name, Code)`,
which differ only in the kind of source: drop the stage from Instantiated to
Validated, load the module, and register it with the overload above. -/
def registerModule {Src : Type} (parseModule : Src → Expect Module)
    (validator : Module → Expect Unit)
    (registerModule : RegisterModule Module Store Interp)
    (V : VM Module Store Interp) (Name : String) (Source : Src) :
    Expect Unit × VM Module Store Interp :=
  let V1 := if V.Stage = VMStage.Instantiated then { V with Stage := VMStage.Validated } else V
  match parseModule Source with
  | Except.ok M => registerModuleAST validator registerModule V1 Name M
  | Except.error Code => (Except.error Code, V1)

/-- `VM::registerModule(Obj)` for an import object: drop the stage from
Instantiated to Validated and register the object with the interpreter. -/
def registerModuleObj {ImportObject : Type}
    (registerImport : RegisterImport ImportObject Store Interp)
    (V : VM Module Store Interp) (Obj : ImportObject) :
    Expect Unit × VM Module Store Interp :=
  let V1 := if V.Stage = VMStage.Instantiated then { V with Stage := VMStage.Validated } else V
  let R := registerImport Obj V1.StoreRef V1.Measure V1.InterpreterEngine
  (R.1, { V1 with StoreRef := R.2.1, Measure := R.2.2.1, InterpreterEngine := R.2.2.2 })

/-- `VM::cleanup`.  `storeReset` is `StoreManager::reset` and `measureClear`
is `Measure::clear`; neither is among the sources, both are parameters. -/
def cleanup (storeReset : Store → Store) (measureClear : SSVM.Measure → SSVM.Measure)
    (V : VM Module Store Interp) : VM Module Store Interp :=
  { V with
    Mod := none
    StoreRef := storeReset V.StoreRef
    Measure := measureClear V.Measure
    Stage := VMStage.Inited }

end VM

end ExpVM

/-! ## Stack manager, branches and control instructions -/

/-- A label as the engine reads it: its arity and `L.Target`, the
continuation instruction (a pointer that may be null: `enterFunction` pushes
the label of a function body with a null target). -/
structure Label (Instr : Type) where
  Arity : Nat
  Target : Option Instr

/-- Modelled from the spec: an element of the stack, one of an operand value,
a label and a frame.  A frame records the module address, the parameter arity
and the return arity; its stack height at entry is the number of entries below
it. -/
inductive StackEntry (Instr : Type) where
  | Value (Val : ValVariant)
  | Label (L : Label Instr)
  | Frame (ModuleAddr Arity Coarity : Nat)

namespace StackEntry

variable {Instr : Type}

/-- Whether the entry is an operand value. -/
def isValue : StackEntry Instr → Bool
  | StackEntry.Value _ => true
  | _ => false

/-- Whether the entry is a label. -/
def isLabel : StackEntry Instr → Bool
  | StackEntry.Label _ => true
  | _ => false

/-- Whether the entry is a frame. -/
def isFrame : StackEntry Instr → Bool
  | StackEntry.Frame _ _ _ => true
  | _ => false

/-- Number of labels among the entries. -/
def countLabels (Es : List (StackEntry Instr)) : Nat :=
  (Es.filter isLabel).length

/-- The entries above the label that has `N` labels above it, that label, and
the entries below it; `none` when there are not that many labels. -/
def splitAtLabel : Nat → List (StackEntry Instr) →
    Option (List (StackEntry Instr) × SSVM.Label Instr × List (StackEntry Instr))
  | _, [] => none
  | 0, StackEntry.Label L :: Rest => some ([], L, Rest)
  | N + 1, StackEntry.Label L :: Rest =>
    (splitAtLabel N Rest).map (fun R => (StackEntry.Label L :: R.1, R.2.1, R.2.2))
  | N, StackEntry.Value Val :: Rest =>
    (splitAtLabel N Rest).map (fun R => (StackEntry.Value Val :: R.1, R.2.1, R.2.2))
  | N, StackEntry.Frame M A C :: Rest =>
    (splitAtLabel N Rest).map (fun R => (StackEntry.Frame M A C :: R.1, R.2.1, R.2.2))

/-- The entries above the topmost frame, the return arity of that frame, and
the entries below it; `none` when there is no frame. -/
def splitAtFrame : List (StackEntry Instr) →
    Option (List (StackEntry Instr) × Nat × List (StackEntry Instr))
  | [] => none
  | StackEntry.Frame _ _ C :: Rest => some ([], C, Rest)
  | StackEntry.Value Val :: Rest =>
    (splitAtFrame Rest).map (fun R => (StackEntry.Value Val :: R.1, R.2.1, R.2.2))
  | StackEntry.Label L :: Rest =>
    (splitAtFrame Rest).map (fun R => (StackEntry.Label L :: R.1, R.2.1, R.2.2))

end StackEntry

/-- Modelled from the spec: the stack manager (its header is not among the
sources), a single ordered sequence of stack entries.  The head of `Entries`
is the top of the stack. -/
structure StackManager (Instr : Type) where
  Entries : List (StackEntry Instr)

namespace StackManager

variable {Instr : Type}

/-- Number of labels on the stack. -/
def labelCount (S : StackManager Instr) : Nat :=
  StackEntry.countLabels S.Entries

/-- Number of labels in the current frame: those above the topmost frame. -/
def labelsInFrame (S : StackManager Instr) : Nat :=
  StackEntry.countLabels (S.Entries.takeWhile (fun X => !X.isFrame))

/-- Modelled from the spec: `push(Value)`. -/
def push (Val : ValVariant) (S : StackManager Instr) : StackManager Instr :=
  { Entries := StackEntry.Value Val :: S.Entries }

/-- Modelled from the spec: `pushLabel(arity, originInstr)`. -/
def pushLabel (Arity : Nat) (Target : Option Instr) (S : StackManager Instr) :
    StackManager Instr :=
  { Entries := StackEntry.Label { Arity := Arity, Target := Target } :: S.Entries }

/-- Modelled from the spec: `pushFrame(moduleAddr, paramArity, resultArity)`. -/
def pushFrame (ModuleAddr Arity Coarity : Nat) (S : StackManager Instr) :
    StackManager Instr :=
  { Entries := StackEntry.Frame ModuleAddr Arity Coarity :: S.Entries }

/-- Modelled from the spec: `getLabelWithCount(n)` peeks the n-th label from
the top, counting from 0.  The source receives a reference and has no result
when there is no such label; the model then gives a label of arity 0 without
target, and the theorems use it only where the label exists. -/
def getLabelWithCount (N : Nat) (S : StackManager Instr) : Label Instr :=
  match StackEntry.splitAtLabel N S.Entries with
  | some R => R.2.1
  | none => { Arity := 0, Target := none }

/-- Modelled from the spec: `popLabel(n)` drops the `n` topmost labels with
everything above the lowest of them, except that it preserves the top
`arity` entries, where `arity` is that of the lowest dropped label (the spec:
branching to label depth `n` preserves the top `arity(L_n)` values and drops
`n+1` labels).  Without that many labels the stack is left as it is. -/
def popLabel (Cnt : Nat) (S : StackManager Instr) : StackManager Instr :=
  match Cnt with
  | 0 => S
  | N + 1 =>
    match StackEntry.splitAtLabel N S.Entries with
    | some R => { Entries := R.1.take R.2.1.Arity ++ R.2.2 }
    | none => S

/-- Modelled from the spec: `popFrame` unwinds all labels above the current
frame, copies the top `resultArity` values, removes the frame and everything
above, then re-pushes those results; it returns the count of labels unwound.
Without a frame the stack is left as it is and the count is 0. -/
def popFrame (S : StackManager Instr) : Nat × StackManager Instr :=
  match StackEntry.splitAtFrame S.Entries with
  | some R => (StackEntry.countLabels R.1, { Entries := R.1.take R.2.1 ++ R.2.2 })
  | none => (0, S)

/-- The modelled stack manager as the operations the engine calls. -/
def ops : StackManagerOps (StackManager Instr) Instr where
  push := push
  pushLabel := pushLabel
  popLabel := popLabel
  pushFrame := pushFrame
  popFrame := popFrame

end StackManager

namespace Interpreter

variable {Stack Store Instr : Type}

/-- An operation of the engine on one instruction, such as `runLoopOp`. -/
abbrev InstrOp (Stack Store Instr : Type) :=
  Instr → Interpreter Stack Store Instr → Expect Unit × Interpreter Stack Store Instr

/-- `Interpreter::branchToLabel`.  `getLabelWithCount` is the stack manager's
and `runLoopOp` the engine's, neither among the sources, both parameters.
The sum `Cnt + 1` is a `uint32_t`; it is exact for every label index below
`2 ^ 32 - 1`, and a larger index needs `2 ^ 32` labels on the stack. -/
def branchToLabel (SM : StackManagerOps Stack Instr)
    (getLabelWithCount : Nat → Stack → Label Instr)
    (runLoopOp : InstrOp Stack Store Instr) (Cnt : Nat)
    (E : Interpreter Stack Store Instr) :
    Expect Unit × Interpreter Stack Store Instr :=
  let L := getLabelWithCount Cnt E.StackMgr
  let S1 := SM.popLabel (Cnt + 1) E.StackMgr
  let P1 := Nat.iterate (fun P => (InstrProvider.popInstrs P).2) (Cnt + 1) E.InstrPdr
  let E1 := { E with StackMgr := S1, InstrPdr := P1 }
  match L.Target with
  | some ContInstr => runLoopOp ContInstr E1
  | none => (Except.ok (), E1)

/-- Modelled from the spec: `runLoopOp` (its source file is not among the
sources).  A loop is entered like a block, with a label of arity
len(bt.results) and a new Block scope containing the body, and the label's
origin is the loop instruction, which marks it as a loop.  `getResultArity`
and `getBody` read the block type and the body of the instruction. -/
def runLoopOp (SM : StackManagerOps Stack Instr) (getResultArity : Instr → Nat)
    (getBody : Instr → List Instr) : InstrOp Stack Store Instr :=
  fun I E => enterBlock SM (getResultArity I) (some I) (getBody I) E

/-- Modelled from the spec: `runBrOp` (its source file is not among the
sources): `br n` branches to the n-th enclosing label.  `getLabelIndex` reads
`n` from the instruction. -/
def runBrOp (SM : StackManagerOps Stack Instr)
    (getLabelWithCount : Nat → Stack → Label Instr)
    (runLoopOp : InstrOp Stack Store Instr) (getLabelIndex : Instr → Nat) :
    InstrOp Stack Store Instr :=
  fun I E => branchToLabel SM getLabelWithCount runLoopOp (getLabelIndex I) E

/-- `Interpreter::execute(StoreMgr, ControlInstruction)`.  `runReturnOp` is not
among the sources and is a parameter. -/
def executeControl
    (runReturnOp : Interpreter Stack Store Instr → Expect Unit × Interpreter Stack Store Instr)
    (Code : OpCode) (E : Interpreter Stack Store Instr) :
    Expect Unit × Interpreter Stack Store Instr :=
  match Code with
  | OpCode.Unreachable => (Except.error ErrCode.Unreachable, E)
  | OpCode.Nop => (Except.ok (), E)
  | OpCode.Return => runReturnOp E
  | _ => (Except.error ErrCode.ExecutionFailed, E)

/-- `Interpreter::execute(StoreMgr, BlockControlInstruction)`. -/
def executeBlockControl (runBlockOp runLoopOp : InstrOp Stack Store Instr)
    (Code : OpCode) (I : Instr) (E : Interpreter Stack Store Instr) :
    Expect Unit × Interpreter Stack Store Instr :=
  match Code with
  | OpCode.Block => runBlockOp I E
  | OpCode.Loop => runLoopOp I E
  | _ => (Except.error ErrCode.ExecutionFailed, E)

/-- `Interpreter::execute(StoreMgr, BrControlInstruction)`. -/
def executeBrControl (runBrOp runBrIfOp : InstrOp Stack Store Instr)
    (Code : OpCode) (I : Instr) (E : Interpreter Stack Store Instr) :
    Expect Unit × Interpreter Stack Store Instr :=
  match Code with
  | OpCode.Br => runBrOp I E
  | OpCode.Br_if => runBrIfOp I E
  | _ => (Except.error ErrCode.ExecutionFailed, E)

/-- The engine state after `N` passes through the body of the run loop, or
at the end of the loop if it ends earlier (no scope left, or an error). -/
def afterPasses (SM : StackManagerOps Stack Instr) (getOpCode : Instr → OpCode)
    (dispatchInstruction : Dispatch Stack Store Instr) :
    Nat → Interpreter Stack Store Instr → Interpreter Stack Store Instr
  | 0, E => E
  | N + 1, E =>
    if 0 < E.InstrPdr.getScopeSize then
      match executeStep SM getOpCode dispatchInstruction E with
      | (Except.ok _, E1) => afterPasses SM getOpCode dispatchInstruction N E1
      | (Except.error _, E1) => E1
    else E

end Interpreter

/-- The zero values of the declared locals, in declaration order: for each
declaration `(count, type)`, `count` times the zero value of `type`. -/
def zeroLocals (Locals : List (Nat × ValType)) : List ValVariant :=
  Locals.flatMap (fun Def => List.replicate Def.1 (ValueFromType Def.2))

/-! ## EEI helper -/

namespace Executor

namespace EEI

/-- The local `TakeGas` of `EEI::addCopyCost`, `3 * ((Length + 31) / 32)`
computed in `uint64_t`: the sum and the product are taken modulo `2 ^ 64`. -/
def copyTakeGas (Length : Nat) : Nat :=
  (3 * (((Length + 31) % 2 ^ 64) / 32)) % 2 ^ 64

/-- `EEI::addCopyCost`.  `addCost` is `EnvironmentManager::addCost`, which is
not among the sources and is a parameter; `EnvMgr` is the state of the
environment manager. -/
def addCopyCost {EnvMgr : Type} (addCost : Nat → EnvMgr → Bool × EnvMgr)
    (EM : EnvMgr) (Length : Nat) : ErrCode × EnvMgr :=
  let R := addCost (copyTakeGas Length) EM
  (if R.1 then ErrCode.Success else ErrCode.Revert, R.2)

/-- The number of 32-byte words needed for `Length` bytes, ceil(Length / 32),
in exact arithmetic. -/
def ceilDiv32 (Length : Nat) : Nat :=
  (Length + 31) / 32

end EEI

end Executor

namespace Interpreter

variable {Store Instr : Type}

/-- The setting of a loop whose body is the unconditional `br 0`, on the
modelled stack manager: `LoopI` is a `loop` whose body is the single
instruction `BrI`, `BrI` is a `br` with label index 0, and the evaluation of
instructions hands `loop` to the overload for block control instructions and
`br` to the overload for branch instructions, with `runLoopOp` and `runBrOp`
as modelled above. -/
structure LoopBr0 (getOpCode : Instr → OpCode) (getResultArity : Instr → Nat)
    (getBody : Instr → List Instr) (getLabelIndex : Instr → Nat)
    (dispatchInstruction : Dispatch (StackManager Instr) Store Instr)
    (runBlockOp runBrIfOp : InstrOp (StackManager Instr) Store Instr)
    (LoopI BrI : Instr) : Prop where
  loop_code : getOpCode LoopI = OpCode.Loop
  loop_body : getBody LoopI = [BrI]
  br_code : getOpCode BrI = OpCode.Br
  br_index : getLabelIndex BrI = 0
  dispatch_loop : ∀ E : Interpreter (StackManager Instr) Store Instr,
    dispatchInstruction OpCode.Loop LoopI E =
      executeBlockControl runBlockOp
        (runLoopOp StackManager.ops getResultArity getBody) OpCode.Loop LoopI E
  dispatch_br : ∀ E : Interpreter (StackManager Instr) Store Instr,
    dispatchInstruction OpCode.Br BrI E =
      executeBrControl
        (runBrOp StackManager.ops StackManager.getLabelWithCount
          (runLoopOp StackManager.ops getResultArity getBody) getLabelIndex)
        runBrIfOp OpCode.Br BrI E

end Interpreter

/-! ## Cost accounting -/

namespace Interpreter

variable {Stack Store Instr : Type}

/-- Modelled from the spec: the evaluation of one instruction as far as
function entry goes.  `call` and `call_indirect` resolve a function and then
enter it (with `enterFunction`), `call_indirect` after it has popped and
checked its index; every other instruction works on stack, store and
instruction provider only.  An evaluation is therefore a preparation
followed, for the call instructions, by the entry of the callee. -/
structure Evaluation (Stack Store Instr : Type) where
  Prepare : Interpreter Stack Store Instr → Expect Unit × Interpreter Stack Store Instr
  Callee : Option (FunctionInstance Stack Store Instr)

/-- Run an evaluation: the preparation, and if it succeeds the entry of the
callee, if there is one. -/
def Evaluation.run (SM : StackManagerOps Stack Instr) (Ev : Evaluation Stack Store Instr)
    (E : Interpreter Stack Store Instr) : Expect Unit × Interpreter Stack Store Instr :=
  match Ev.Prepare E with
  | (Except.error Code, E1) => (Except.error Code, E1)
  | (Except.ok _, E1) =>
    match Ev.Callee with
    | none => (Except.ok (), E1)
    | some Func => enterFunction SM Func E1

/-- The evaluation of instructions built from what each instruction does. -/
def dispatchWith (SM : StackManagerOps Stack Instr)
    (evaluation : OpCode → Instr → Interpreter Stack Store Instr →
      Evaluation Stack Store Instr) : Dispatch Stack Store Instr :=
  fun Code I E => (evaluation Code I E).run SM E

/-- The declared cost of the host function that `enterFunction` enters for
`Func` in state `E`: `none` for a native function and for a host function
whose charge is rejected (its callable is not run). -/
def hostEntered (Func : FunctionInstance Stack Store Instr)
    (E : Interpreter Stack Store Instr) : Option Nat :=
  match Func with
  | FunctionInstance.Host _ HostFunc =>
    match E.Measure with
    | some M => if M.CostLimit < M.CostSum + HostFunc.Cost then none else some HostFunc.Cost
    | none => some HostFunc.Cost
  | FunctionInstance.Native _ _ _ _ => none

/-- What is metered in one step: the opcode that is dispatched, if any, and
the declared cost of the host function that is entered, if any. -/
structure PassLog where
  Dispatched : Option OpCode
  EnteredHost : Option Nat

/-- The log of one pass through the body of the run loop.  An instruction is
dispatched when it is fetched and its charge is accepted (or no measure is
attached); a host function is entered when the preparation of the
instruction succeeds, the callee is a host function and its charge is
accepted. -/
def passLog (getOpCode : Instr → OpCode)
    (evaluation : OpCode → Instr → Interpreter Stack Store Instr →
      Evaluation Stack Store Instr)
    (E : Interpreter Stack Store Instr) : PassLog :=
  match E.InstrPdr.getNextInstr with
  | (none, _) => { Dispatched := none, EnteredHost := none }
  | (some I, P) =>
    let Charged : Option (Option SSVM.Measure) :=
      match E.Measure with
      | some M =>
        if (M.incInstrCnt.addInstrCost (getOpCode I)).1 then
          some (some (M.incInstrCnt.addInstrCost (getOpCode I)).2)
        else none
      | none => some none
    match Charged with
    | none => { Dispatched := none, EnteredHost := none }
    | some Me =>
      let E1 := { E with InstrPdr := P, Measure := Me }
      let Ev := evaluation (getOpCode I) I E1
      match Ev.Prepare E1, Ev.Callee with
      | (Except.ok _, E2), some Func =>
        { Dispatched := some (getOpCode I), EnteredHost := hostEntered Func E2 }
      | _, _ => { Dispatched := some (getOpCode I), EnteredHost := none }

/-- The log of the run loop: one entry per pass, first pass first. -/
def runLog (SM : StackManagerOps Stack Instr) (getOpCode : Instr → OpCode)
    (evaluation : OpCode → Instr → Interpreter Stack Store Instr →
      Evaluation Stack Store Instr) :
    Nat → Interpreter Stack Store Instr → List PassLog
  | 0, _ => []
  | Fuel + 1, E =>
    if 0 < E.InstrPdr.getScopeSize then
      passLog getOpCode evaluation E ::
        (match executeStep SM getOpCode (dispatchWith SM evaluation) E with
          | (Except.ok _, E1) => runLog SM getOpCode evaluation Fuel E1
          | (Except.error _, _) => [])
    else []

/-- The log of one `runFunction` invocation: the entry of the function, then
the passes of the run loop if the function was entered. -/
def functionLog (SM : StackManagerOps Stack Instr) (getOpCode : Instr → OpCode)
    (evaluation : OpCode → Instr → Interpreter Stack Store Instr →
      Evaluation Stack Store Instr)
    (Fuel : Nat) (Func : FunctionInstance Stack Store Instr)
    (E : Interpreter Stack Store Instr) : List PassLog :=
  { Dispatched := none, EnteredHost := hostEntered Func E } ::
    (match enterFunction SM Func E with
      | (Except.ok _, E1) => runLog SM getOpCode evaluation Fuel E1
      | (Except.error _, _) => [])

/-- The sum of the table costs of the opcodes dispatched according to a
log. -/
def opcodeCosts (CostTab : OpCode → Nat) (Log : List PassLog) : Nat :=
  ((Log.filterMap PassLog.Dispatched).map CostTab).sum

/-- The sum of the declared costs of the host functions entered according to
a log. -/
def hostCosts (Log : List PassLog) : Nat :=
  (Log.filterMap PassLog.EnteredHost).sum

end Interpreter

/-! ## EEI: the call helper -/

namespace Executor

namespace EEI

/-- A byte (`uint8_t`). -/
abbrev Byte := Fin 256

/-- The conversion of an `int64_t` to `uint64_t`: the value modulo `2 ^ 64`. -/
def toUInt64 (X : Int) : Nat :=
  (X % ((2 ^ 64 : Nat) : Int)).toNat

/-- The conversion of a `uint64_t` to `int64_t` (two's complement). -/
def toInt64 (N : Nat) : Int :=
  if N % 2 ^ 64 < 2 ^ 63 then ((N % 2 ^ 64 : Nat) : Int)
  else ((N % 2 ^ 64 : Nat) : Int) - ((2 ^ 64 : Nat) : Int)

/-- The kinds of a call message (`evmc_call_kind` of the EVMC library). -/
inductive evmc_call_kind where
  | EVMC_CALL
  | EVMC_DELEGATECALL
  | EVMC_CALLCODE
  | EVMC_CREATE
  | EVMC_CREATE2
  deriving DecidableEq, Repr

/-- The status code `EVMC_SUCCESS` of the EVMC library. -/
def EVMC_SUCCESS : Int := 0

/-- The status code `EVMC_REVERT` of the EVMC library. -/
def EVMC_REVERT : Int := 2

/-- The flag bit `EVMC_STATIC` of the EVMC library. -/
def EVMC_STATIC : Nat := 1

/-- The fields of `evmc_message` that `callContract` reads or writes.  The
byte arrays (`evmc_address` of 20 bytes, `evmc_uint256be` of 32 bytes) are
lists of bytes, index 0 first; `input_data` is the buffer the pointer refers
to; `gas` is an `int64_t`. -/
structure evmc_message where
  kind : evmc_call_kind
  gas : Int
  destination : List Byte
  sender : List Byte
  input_data : List Byte
  input_size : Nat
  value : List Byte
  deriving DecidableEq, Repr

/-- The fields of `evmc_result` that `callContract` reads.  `output_data` is
the buffer the pointer refers to, `none` for the null pointer; `gas_left` is
an `int64_t`. -/
structure evmc_result where
  status_code : Int
  gas_left : Int
  output_data : Option (List Byte)
  output_size : Nat
  create_address : List Byte
  deriving DecidableEq, Repr

/-- The functions of the host interface (`Cxt->host`) that `callContract`
calls.  `Cxt` is the state behind the context pointer; the two queries read
it, the call may change it. -/
structure evmc_host_interface (Cxt : Type) where
  account_exists : Cxt → List Byte → Bool
  get_balance : Cxt → List Byte → List Byte
  call : Cxt → evmc_message → evmc_result × Cxt

/-- The members of `VM::EVMEnvironment` that `callContract` reaches through
`getDepth`, `getFlag`, `getReturnData` and `getEVMCContext`. -/
structure EVMEnvironment (Cxt : Type) where
  Depth : Nat
  Flag : Nat
  ReturnData : List Byte
  EVMCContext : Cxt

/-- The member functions of `VM::EnvironmentManager` that `callContract`
calls.  The class is not among the sources; it is a parameter and `Mgr` is
its state. -/
structure EnvironmentManagerOps (Mgr : Type) where
  addCost : Nat → Mgr → Bool × Mgr
  subCost : Nat → Mgr → Mgr

/-- The member functions of `Instance::MemoryInstance` that the EEI helpers
call.  Their bodies are not among the sources; they are parameters and `Mem`
is the state of the memory instance.  `getBytes Offset Length` gives the
status, the slice and the memory (the access check may adjust the data
vector); `setArray Arr Offset Length IsReverse` gives the status and the
memory. -/
structure MemoryInstanceOps (Mem : Type) where
  getBytes : Nat → Nat → Mem → ErrCode × List Byte × Mem
  setArray : List Byte → Nat → Nat → Bool → Mem → ErrCode × Mem

/-- What `callContract` works on: the environment manager, the memory
instance, the environment `Env`, and the reference parameters `Ret` and
`Msg`. -/
structure CallState (Mgr Mem Cxt : Type) where
  EnvMgr : Mgr
  MemInst : Mem
  Env : EVMEnvironment Cxt
  Ret : Nat
  Msg : evmc_message

/-- The test `evmc::is_zero` on a 256-bit value: every byte is zero. -/
def is_zero (X : List Byte) : Bool :=
  X.all (fun B => B = 0)

/-- `EEI::convToUInt128`: fail when one of the bytes 0..15 is set, otherwise
shift the bytes 16..31 into the 128-bit `Dst`, most significant first. -/
def convToUInt128 (Src : List Byte) (Dst : Nat) : ErrCode × Nat :=
  if (List.range 16).any (fun I => Src.getD I 0 ≠ 0) then (ErrCode.ExecutionFailed, Dst)
  else
    (ErrCode.Success,
      (List.range' 16 16).foldl
        (fun D I => ((D <<< 8) % 2 ^ 128) ||| (Src.getD I 0).val) Dst)

/-- `EEI::storeAddress`: write the 20 bytes of the address at `Off`. -/
def storeAddress {Mem : Type} (mem : MemoryInstanceOps Mem) (Addr : List Byte)
    (Off : Nat) (MemInst : Mem) : ErrCode × Mem :=
  mem.setArray Addr Off 20 false MemInst

end EEI

end Executor

namespace Executor

namespace EEI

variable {Mgr Mem Cxt : Type}

/-- The condition that `callContract` tests at lines 130-132 and again at
lines 147-149: the kind is CALL or CALLCODE and the value is not zero. -/
def transfersValue (Msg : evmc_message) : Bool :=
  (Msg.kind = evmc_call_kind.EVMC_CALL ∨ Msg.kind = evmc_call_kind.EVMC_CALLCODE) ∧
    ¬ is_zero Msg.value

/-- Lines 110-119 of `callContract`, the block "Setup input data".  The first
component is the status the function returns with, or `none` when it goes
on. -/
def setupInputData (mem : MemoryInstanceOps Mem) (DataOffset DataLength : Nat)
    (S : CallState Mgr Mem Cxt) : Option ErrCode × CallState Mgr Mem Cxt :=
  if 0 < DataLength then
    let R := mem.getBytes DataOffset DataLength S.MemInst
    if R.1 ≠ ErrCode.Success then (some R.1, { S with MemInst := R.2.2 })
    else
      (none,
        { S with
          MemInst := R.2.2
          Msg := { S.Msg with input_data := R.2.1, input_size := R.2.1.length } })
  else (none, S)

/-- The condition of lines 121-127, the block "Check flag": a CREATE, or a
CALL with a value, while the environment has the static flag. -/
def staticViolation (S : CallState Mgr Mem Cxt) : Bool :=
  (S.Msg.kind = evmc_call_kind.EVMC_CREATE ∨
      (S.Msg.kind = evmc_call_kind.EVMC_CALL ∧ ¬ is_zero S.Msg.value)) ∧
    S.Env.Flag &&& EVMC_STATIC ≠ 0

/-- Lines 129-144 of `callContract`, the block "Take additional gas". -/
def takeAdditionalGas (ops : EnvironmentManagerOps Mgr) (H : evmc_host_interface Cxt)
    (S : CallState Mgr Mem Cxt) : Option ErrCode × CallState Mgr Mem Cxt :=
  if transfersValue S.Msg then
    let R1 := ops.addCost 9000 S.EnvMgr
    if ¬ R1.1 then (some ErrCode.CostLimitExceeded, { S with EnvMgr := R1.2 })
    else if ¬ H.account_exists S.Env.EVMCContext S.Msg.destination then
      let R2 := ops.addCost 25000 R1.2
      if ¬ R2.1 then (some ErrCode.CostLimitExceeded, { S with EnvMgr := R2.2 })
      else (none, { S with EnvMgr := R2.2 })
    else (none, { S with EnvMgr := R1.2 })
  else (none, S)

/-- Lines 146-163 of `callContract`, the block "Check balance". -/
def checkBalance (H : evmc_host_interface Cxt) (S : CallState Mgr Mem Cxt) :
    Option ErrCode × CallState Mgr Mem Cxt :=
  if transfersValue S.Msg ∨ S.Msg.kind = evmc_call_kind.EVMC_CREATE then
    let D := convToUInt128 (H.get_balance S.Env.EVMCContext S.Msg.sender) 0
    if D.1 ≠ ErrCode.Success then (some ErrCode.ExecutionFailed, S)
    else
      let V := convToUInt128 S.Msg.value 0
      if V.1 ≠ ErrCode.Success then (some ErrCode.ExecutionFailed, S)
      else if D.2 < V.2 then (some ErrCode.Success, { S with Ret := 1 })
      else (none, S)
  else (none, S)

/-- Lines 165-171 of `callContract`: charge `Msg.gas` (the result of the
charge is not looked at), then add the stipend to `Msg.gas` for a value
transfer.  `Msg.gas += 2300ULL` adds in `uint64_t` and converts back. -/
def assignGas (ops : EnvironmentManagerOps Mgr) (S : CallState Mgr Mem Cxt) :
    CallState Mgr Mem Cxt :=
  let R := ops.addCost (toUInt64 S.Msg.gas) S.EnvMgr
  if ¬ is_zero S.Msg.value ∧ S.Msg.kind ≠ evmc_call_kind.EVMC_CREATE then
    { S with
      EnvMgr := R.2
      Msg := { S.Msg with gas := toInt64 (toUInt64 S.Msg.gas + 2300) } }
  else { S with EnvMgr := R.2 }

/-- Lines 146-171 of `callContract`: the balance check, then the gas for the
callee. -/
def balanceAndGas (ops : EnvironmentManagerOps Mgr) (H : evmc_host_interface Cxt)
    (S : CallState Mgr Mem Cxt) : Option ErrCode × CallState Mgr Mem Cxt :=
  match checkBalance H S with
  | (some Code, S1) => (some Code, S1)
  | (none, S1) => (none, assignGas ops S1)

/-- Lines 110-171 of `callContract`: what comes between the depth check and
the host call. -/
def callContractPrepare (ops : EnvironmentManagerOps Mgr) (mem : MemoryInstanceOps Mem)
    (H : evmc_host_interface Cxt) (DataOffset DataLength : Nat)
    (S : CallState Mgr Mem Cxt) : Option ErrCode × CallState Mgr Mem Cxt :=
  match setupInputData mem DataOffset DataLength S with
  | (some Code, S1) => (some Code, S1)
  | (none, S1) =>
    if staticViolation S1 then (some ErrCode.ExecutionFailed, S1)
    else
      match takeAdditionalGas ops H S1 with
      | (some Code, S2) => (some Code, S2)
      | (none, S2) => balanceAndGas ops H S2

/-- Lines 104-171 of `callContract`: all that comes before the host call,
beginning with the depth check.  The first component is the status the
function returns with before the call, or `none` when the call is reached; the
state is then the one the call is made in. -/
def callContractSetup (ops : EnvironmentManagerOps Mgr) (mem : MemoryInstanceOps Mem)
    (H : evmc_host_interface Cxt) (DataOffset DataLength : Nat)
    (S : CallState Mgr Mem Cxt) : Option ErrCode × CallState Mgr Mem Cxt :=
  if 1024 ≤ S.Env.Depth then (some ErrCode.Success, { S with Ret := 1 })
  else callContractPrepare ops mem H DataOffset DataLength S

/-- Lines 182-196 of `callContract`, the block "Return data". -/
def returnData (mem : MemoryInstanceOps Mem) (CreateResOffset : Nat)
    (CallRes : evmc_result) (S : CallState Mgr Mem Cxt) :
    Option ErrCode × CallState Mgr Mem Cxt :=
  if S.Msg.kind = evmc_call_kind.EVMC_CREATE ∧ CallRes.status_code = EVMC_SUCCESS then
    let R := storeAddress mem CallRes.create_address CreateResOffset S.MemInst
    if R.1 ≠ ErrCode.Success then (some R.1, { S with MemInst := R.2 })
    else (none, { S with MemInst := R.2, Env := { S.Env with ReturnData := [] } })
  else
    match CallRes.output_data with
    | some Data =>
      (none, { S with Env := { S.Env with ReturnData := Data.take CallRes.output_size } })
    | none => (none, { S with Env := { S.Env with ReturnData := [] } })

/-- Lines 198-209 of `callContract`, the block "Return status": the value
given to `Ret`. -/
def returnStatus (CallRes : evmc_result) : Nat :=
  if CallRes.status_code = EVMC_SUCCESS then 0
  else if CallRes.status_code = EVMC_REVERT then 2
  else 1

/-- Lines 176-210 of `callContract`: all that comes after the host call. -/
def callContractFinish (ops : EnvironmentManagerOps Mgr) (mem : MemoryInstanceOps Mem)
    (CreateResOffset : Nat) (CallRes : evmc_result) (S : CallState Mgr Mem Cxt) :
    ErrCode × CallState Mgr Mem Cxt :=
  if CallRes.gas_left < 0 then (ErrCode.ExecutionFailed, S)
  else
    let S1 := { S with EnvMgr := ops.subCost (toUInt64 CallRes.gas_left) S.EnvMgr }
    match returnData mem CreateResOffset CallRes S1 with
    | (some Code, S2) => (Code, S2)
    | (none, S2) => (ErrCode.Success, { S2 with Ret := returnStatus CallRes })

/-- `EEI::callContract`: the part before the host call, the host call
`Cxt->host->call(Cxt, &Msg)` of line 174, and the part after it. -/
def callContract (ops : EnvironmentManagerOps Mgr) (mem : MemoryInstanceOps Mem)
    (H : evmc_host_interface Cxt) (DataOffset DataLength CreateResOffset : Nat)
    (S : CallState Mgr Mem Cxt) : ErrCode × CallState Mgr Mem Cxt :=
  match callContractSetup ops mem H DataOffset DataLength S with
  | (some Code, S1) => (Code, S1)
  | (none, S1) =>
    let R := H.call S1.Env.EVMCContext S1.Msg
    callContractFinish ops mem CreateResOffset R.1
      { S1 with Env := { S1.Env with EVMCContext := R.2 } }

end EEI

end Executor

/-! ## Numeric and memory instructions -/

/-- The C++ types that `engine.cpp` instantiates the templates of the numeric
and memory helpers with. -/
inductive CType where
  | int32_t
  | uint32_t
  | int64_t
  | uint64_t
  | float
  | double
  deriving DecidableEq, Repr

namespace CType

/-- The width of the type in bits (`sizeof(T) * 8`). -/
def bits : CType → Nat
  | int32_t => 32
  | uint32_t => 32
  | int64_t => 64
  | uint64_t => 64
  | float => 32
  | double => 64

/-- Whether the type is a signed integer type. -/
def isSigned : CType → Bool
  | int32_t => true
  | int64_t => true
  | _ => false

/-- Whether the type is an integer type. -/
def isInteger : CType → Bool
  | float => false
  | double => false
  | _ => true

/-- The alternative of `ValVariant` that holds a value of the type, applied
to a bit pattern. -/
def toVariant : CType → Nat → ValVariant
  | int32_t, Bits => ValVariant.I32 Bits
  | uint32_t, Bits => ValVariant.I32 Bits
  | int64_t, Bits => ValVariant.I64 Bits
  | uint64_t, Bits => ValVariant.I64 Bits
  | float, Bits => ValVariant.F32 Bits
  | double, Bits => ValVariant.F64 Bits

/-- The bit pattern of a value when it holds the alternative of the type,
`none` when it holds another alternative. -/
def ofVariant : CType → ValVariant → Option Nat
  | int32_t, ValVariant.I32 Bits => some Bits
  | uint32_t, ValVariant.I32 Bits => some Bits
  | int64_t, ValVariant.I64 Bits => some Bits
  | uint64_t, ValVariant.I64 Bits => some Bits
  | float, ValVariant.F32 Bits => some Bits
  | double, ValVariant.F64 Bits => some Bits
  | _, _ => none

end CType

/-- A helper that works on the value on top of the stack through the
reference `Val`: it gives a result and the new value, or nothing when the
value does not hold the alternative the helper reads. -/
abbrev ValOp := ValVariant → Option (Expect Unit × ValVariant)

/-- The helper templates that `execute(StoreMgr, UnaryNumericInstruction)`
calls, each applied to its template arguments.  Their bodies are not among
the sources; they are parameters. -/
structure UnaryNumericOps where
  runEqzOp : CType → ValOp
  runClzOp : CType → ValOp
  runCtzOp : CType → ValOp
  runPopcntOp : CType → ValOp
  runAbsOp : CType → ValOp
  runNegOp : CType → ValOp
  runCeilOp : CType → ValOp
  runFloorOp : CType → ValOp
  runNearestOp : CType → ValOp
  runSqrtOp : CType → ValOp
  runWrapOp : CType → CType → ValOp
  runTruncateOp : CType → CType → ValOp
  runExtendOp : CType → CType → ValOp
  runConvertOp : CType → CType → ValOp
  runDemoteOp : CType → CType → ValOp
  runPromoteOp : CType → CType → ValOp
  runReinterpretOp : CType → CType → ValOp

/-- Modelled from the spec: `runReinterpretOp<TIn, TOut>` (its body is not
among the sources).  Reinterpret operations are bit-exact copies: the bit
pattern of the `TIn` value becomes the `TOut` value. -/
def runReinterpretOp (TIn TOut : CType) : ValOp :=
  fun Val =>
    match TIn.ofVariant Val with
    | some Bits => some (Except.ok (), TOut.toVariant Bits)
    | none => none

namespace StackManager

variable {Instr : Type}

/-- Modelled from the spec: `top()`, the value on top of the stack; `none`
when the stack is empty or its top is not a value. -/
def getTop (S : StackManager Instr) : Option ValVariant :=
  match S.Entries with
  | StackEntry.Value Val :: _ => some Val
  | _ => none

/-- Writing through the reference that `getTop` returns: the value on top of
the stack is replaced. -/
def setTop (Val : ValVariant) (S : StackManager Instr) : StackManager Instr :=
  match S.Entries with
  | StackEntry.Value _ :: Rest => { Entries := StackEntry.Value Val :: Rest }
  | _ => S

end StackManager

namespace Interpreter

variable {Stack Store Instr : Type}

/-- `Interpreter::execute(StoreMgr, UnaryNumericInstruction)`: take the
reference to the value on top of the stack, then hand it to the helper that
the switch on the opcode selects.  `getTop` and `setTop` read and write
through that reference; the result is `none` where the source has no defined
result (no value on top, or a helper that reads another alternative). -/
def executeUnaryNumeric (U : UnaryNumericOps) (getTop : Stack → Option ValVariant)
    (setTop : ValVariant → Stack → Stack) (Code : OpCode)
    (E : Interpreter Stack Store Instr) :
    Option (Expect Unit × Interpreter Stack Store Instr) :=
  match getTop E.StackMgr with
  | none => none
  | some Val =>
    let Op : Option ValOp :=
      match Code with
      | OpCode.I32__eqz => some (U.runEqzOp CType.uint32_t)
      | OpCode.I64__eqz => some (U.runEqzOp CType.uint64_t)
      | OpCode.I32__clz => some (U.runClzOp CType.uint32_t)
      | OpCode.I32__ctz => some (U.runCtzOp CType.uint32_t)
      | OpCode.I32__popcnt => some (U.runPopcntOp CType.uint32_t)
      | OpCode.I64__clz => some (U.runClzOp CType.uint64_t)
      | OpCode.I64__ctz => some (U.runCtzOp CType.uint64_t)
      | OpCode.I64__popcnt => some (U.runPopcntOp CType.uint64_t)
      | OpCode.F32__abs => some (U.runAbsOp CType.float)
      | OpCode.F32__neg => some (U.runNegOp CType.float)
      | OpCode.F32__ceil => some (U.runCeilOp CType.float)
      | OpCode.F32__floor => some (U.runFloorOp CType.float)
      | OpCode.F32__nearest => some (U.runNearestOp CType.float)
      | OpCode.F32__sqrt => some (U.runSqrtOp CType.float)
      | OpCode.F64__abs => some (U.runAbsOp CType.double)
      | OpCode.F64__neg => some (U.runNegOp CType.double)
      | OpCode.F64__ceil => some (U.runCeilOp CType.double)
      | OpCode.F64__floor => some (U.runFloorOp CType.double)
      | OpCode.F64__nearest => some (U.runNearestOp CType.double)
      | OpCode.F64__sqrt => some (U.runSqrtOp CType.double)
      | OpCode.I32__wrap_i64 => some (U.runWrapOp CType.uint64_t CType.uint32_t)
      | OpCode.I32__trunc_f32_s => some (U.runTruncateOp CType.float CType.int32_t)
      | OpCode.I32__trunc_f32_u => some (U.runTruncateOp CType.float CType.uint32_t)
      | OpCode.I32__trunc_f64_s => some (U.runTruncateOp CType.double CType.int32_t)
      | OpCode.I32__trunc_f64_u => some (U.runTruncateOp CType.double CType.uint32_t)
      | OpCode.I64__extend_i32_s => some (U.runExtendOp CType.int32_t CType.uint64_t)
      | OpCode.I64__extend_i32_u => some (U.runExtendOp CType.uint32_t CType.uint64_t)
      | OpCode.I64__trunc_f32_s => some (U.runTruncateOp CType.float CType.int64_t)
      | OpCode.I64__trunc_f32_u => some (U.runTruncateOp CType.float CType.uint64_t)
      | OpCode.I64__trunc_f64_s => some (U.runTruncateOp CType.double CType.int64_t)
      | OpCode.I64__trunc_f64_u => some (U.runTruncateOp CType.double CType.uint64_t)
      | OpCode.F32__convert_i32_s => some (U.runConvertOp CType.int32_t CType.float)
      | OpCode.F32__convert_i32_u => some (U.runConvertOp CType.uint32_t CType.float)
      | OpCode.F32__convert_i64_s => some (U.runConvertOp CType.int64_t CType.float)
      | OpCode.F32__convert_i64_u => some (U.runConvertOp CType.uint64_t CType.float)
      | OpCode.F32__demote_f64 => some (U.runDemoteOp CType.double CType.float)
      | OpCode.F64__convert_i32_s => some (U.runConvertOp CType.int32_t CType.double)
      | OpCode.F64__convert_i32_u => some (U.runConvertOp CType.uint32_t CType.double)
      | OpCode.F64__convert_i64_s => some (U.runConvertOp CType.int64_t CType.double)
      | OpCode.F64__convert_i64_u => some (U.runConvertOp CType.uint64_t CType.double)
      | OpCode.F64__promote_f32 => some (U.runPromoteOp CType.float CType.double)
      | OpCode.I32__reinterpret_f32 => some (U.runReinterpretOp CType.float CType.uint32_t)
      | OpCode.I64__reinterpret_f64 => some (U.runReinterpretOp CType.double CType.uint64_t)
      | OpCode.F32__reinterpret_i32 => some (U.runReinterpretOp CType.uint32_t CType.float)
      | OpCode.F64__reinterpret_i64 => some (U.runReinterpretOp CType.uint64_t CType.double)
      | _ => none
    match Op with
    | none => some (Except.error ErrCode.ExecutionFailed, E)
    | some F =>
      match F Val with
      | none => none
      | some R => some (R.1, { E with StackMgr := setTop R.2 E.StackMgr })

/-- The helpers that `execute(StoreMgr, MemoryInstruction)` calls, the
templates applied to their template argument.  Their bodies are not among the
sources; they are parameters.  The bit width is `none` where the call leaves
it to the default argument, and the lookup of memory 0 of the current module
is left to the helper, which is handed the engine with the store. -/
structure MemoryInstrOps (Stack Store Instr : Type) where
  runLoadOp : CType → Option Nat → InstrOp Stack Store Instr
  runStoreOp : CType → Option Nat → InstrOp Stack Store Instr
  runMemoryGrowOp : Interpreter Stack Store Instr → Expect Unit × Interpreter Stack Store Instr
  runMemorySizeOp : Interpreter Stack Store Instr → Expect Unit × Interpreter Stack Store Instr

/-- `Interpreter::execute(StoreMgr, MemoryInstruction)`. -/
def executeMemory (M : MemoryInstrOps Stack Store Instr) (Code : OpCode) (I : Instr)
    (E : Interpreter Stack Store Instr) : Expect Unit × Interpreter Stack Store Instr :=
  match Code with
  | OpCode.I32__load => M.runLoadOp CType.uint32_t none I E
  | OpCode.I64__load => M.runLoadOp CType.uint64_t none I E
  | OpCode.F32__load => M.runLoadOp CType.float none I E
  | OpCode.F64__load => M.runLoadOp CType.double none I E
  | OpCode.I32__load8_s => M.runLoadOp CType.int32_t (some 8) I E
  | OpCode.I32__load8_u => M.runLoadOp CType.uint32_t (some 8) I E
  | OpCode.I32__load16_s => M.runLoadOp CType.int32_t (some 16) I E
  | OpCode.I32__load16_u => M.runLoadOp CType.uint32_t (some 16) I E
  | OpCode.I64__load8_s => M.runLoadOp CType.int64_t (some 8) I E
  | OpCode.I64__load8_u => M.runLoadOp CType.uint64_t (some 8) I E
  | OpCode.I64__load16_s => M.runLoadOp CType.int64_t (some 16) I E
  | OpCode.I64__load16_u => M.runLoadOp CType.uint64_t (some 16) I E
  | OpCode.I64__load32_s => M.runLoadOp CType.int64_t (some 32) I E
  | OpCode.I64__load32_u => M.runLoadOp CType.uint64_t (some 32) I E
  | OpCode.I32__store => M.runStoreOp CType.uint32_t none I E
  | OpCode.I64__store => M.runStoreOp CType.uint64_t none I E
  | OpCode.F32__store => M.runStoreOp CType.float none I E
  | OpCode.F64__store => M.runStoreOp CType.double none I E
  | OpCode.I32__store8 => M.runStoreOp CType.uint32_t (some 8) I E
  | OpCode.I32__store16 => M.runStoreOp CType.uint32_t (some 16) I E
  | OpCode.I64__store8 => M.runStoreOp CType.uint64_t (some 8) I E
  | OpCode.I64__store16 => M.runStoreOp CType.uint64_t (some 16) I E
  | OpCode.I64__store32 => M.runStoreOp CType.uint64_t (some 32) I E
  | OpCode.Memory__grow => M.runMemoryGrowOp E
  | OpCode.Memory__size => M.runMemorySizeOp E
  | _ => (Except.error ErrCode.ExecutionFailed, E)

end Interpreter

/-- What the name of a narrow load opcode says: the width of the result that
its prefix names (`i32` or `i64`), the width of the access that follows `load`
(8, 16 or 32), and whether the name ends in `_s`.  Every other opcode gives
`none`. -/
def OpCode.narrowLoad : OpCode → Option (Nat × Nat × Bool)
  | OpCode.I32__load8_s => some (32, 8, true)
  | OpCode.I32__load8_u => some (32, 8, false)
  | OpCode.I32__load16_s => some (32, 16, true)
  | OpCode.I32__load16_u => some (32, 16, false)
  | OpCode.I64__load8_s => some (64, 8, true)
  | OpCode.I64__load8_u => some (64, 8, false)
  | OpCode.I64__load16_s => some (64, 16, true)
  | OpCode.I64__load16_u => some (64, 16, false)
  | OpCode.I64__load32_s => some (64, 32, true)
  | OpCode.I64__load32_u => some (64, 32, false)
  | _ => none

/-- What the name of a narrow store opcode says: the width that its prefix
names and the width of the access that follows `store`.  Every other opcode
gives `none`. -/
def OpCode.narrowStore : OpCode → Option (Nat × Nat)
  | OpCode.I32__store8 => some (32, 8)
  | OpCode.I32__store16 => some (32, 16)
  | OpCode.I64__store8 => some (64, 8)
  | OpCode.I64__store16 => some (64, 16)
  | OpCode.I64__store32 => some (64, 32)
  | _ => none

/-! ## Construction of the VM -/

namespace ExpVM

/-- The kinds of VM that the configuration can enable (`Configure::VMType`,
declared in a header that is not among the sources). -/
inductive VMType where
  | Wasm
  | Wasi
  | Ewasm
  | ONNC
  deriving DecidableEq, Repr

/-- The member functions of the cost table object `CostTab` that `initVM`
calls.  The class is not among the sources; it is a parameter and `CostTable`
is its state. -/
structure CostTableOps (CostTable : Type) where
  setCostTable : VMType → CostTable → CostTable
  getCostTable : VMType → CostTable → OpCode → Nat

/-- The members of `VM` that `initVM` uses: the configuration (as
`Config.hasVMType`), the cost table object, the measure, the import objects
the VM keeps (a map from the VM type), the store and the interpreter
engine. -/
structure VMInit (Store Interp CostTable ImportObject : Type) where
  Config : VMType → Bool
  CostTab : CostTable
  Measure : SSVM.Measure
  ImpObjs : List (VMType × ImportObject)
  StoreRef : Store
  InterpreterEngine : Interp

/-- Modelled from the spec: `Measure::setCostTable` installs the per-opcode
cost table of the measure. -/
def setCostTable (Tab : OpCode → Nat) (M : SSVM.Measure) : SSVM.Measure :=
  { M with CostTab := Tab }

/-- The call `ImpObjs.insert` on the map of import objects: the entry is added
unless the key is present. -/
def insertImpObj {ImportObject : Type} (Kind : VMType) (Obj : ImportObject)
    (Objs : List (VMType × ImportObject)) : List (VMType × ImportObject) :=
  if Objs.any (fun X => X.1 = Kind) then Objs else Objs ++ [(Kind, Obj)]

namespace VMInit

variable {Store Interp CostTable ImportObject : Type}

/-- The two statements that `initVM` repeats for each kind:
`CostTab.setCostTable(Kind)` and
`Measure.setCostTable(CostTab.getCostTable(Kind))`. -/
def useCostTable (ct : CostTableOps CostTable) (Kind : VMType)
    (V : VMInit Store Interp CostTable ImportObject) :
    VMInit Store Interp CostTable ImportObject :=
  let Tab := ct.setCostTable Kind V.CostTab
  { V with CostTab := Tab, Measure := setCostTable (ct.getCostTable Kind Tab) V.Measure }

/-- The two statements of `initVM` that register an import module with the
interpreter (the result of the registration is not looked at) and keep it in
`ImpObjs`. -/
def addImportModule (registerImport : RegisterImport ImportObject Store Interp)
    (Kind : VMType) (Obj : ImportObject)
    (V : VMInit Store Interp CostTable ImportObject) :
    VMInit Store Interp CostTable ImportObject :=
  let R := registerImport Obj V.StoreRef V.Measure V.InterpreterEngine
  { V with
    StoreRef := R.2.1
    Measure := R.2.2.1
    InterpreterEngine := R.2.2.2
    ImpObjs := insertImpObj Kind Obj V.ImpObjs }

/-- `VM::initVM`.  `WasiModule`, `EEIModule` and `ONNCModule` make the import
modules (the EEI module is made from the cost limit and the cost sum of the
measure); `ONNC_WASM` says whether the macro of that name is defined. -/
def initVM (ct : CostTableOps CostTable)
    (registerImport : RegisterImport ImportObject Store Interp)
    (WasiModule : ImportObject) (EEIModule : Nat → Nat → ImportObject)
    (ONNCModule : ImportObject) ( ONNC_WASM : Bool)
    (V : VMInit Store Interp CostTable ImportObject) :
    VMInit Store Interp CostTable ImportObject :=
  let V1 := useCostTable ct VMType.Wasm V
  let V2 :=
    if V1.Config VMType.Wasi then
      useCostTable ct VMType.Wasi (addImportModule registerImport VMType.Wasi WasiModule V1)
    else V1
  let V3 :=
    if V2.Config VMType.Ewasm then
      useCostTable ct VMType.Ewasm
        (addImportModule registerImport VMType.Ewasm
          (EEIModule V2.Measure.CostLimit V2.Measure.CostSum) V2)
    else V2
  if ONNC_WASM ∧ V3.Config VMType.ONNC then
    addImportModule registerImport VMType.ONNC ONNCModule V3
  else V3

end VMInit

end ExpVM

/-! ## Balance of labels and scopes -/

/-- Add `K` to the first number of a list; an empty list becomes `[K]`. -/
def addHead (K : Nat) : List Nat → List Nat
  | [] => [K]
  | N :: Ns => (N + K) :: Ns

namespace StackEntry

variable {Instr : Type}

/-- The number of labels in each frame of the stack, topmost frame first: the
labels above the topmost frame, then those between that frame and the next,
and so on; the last number counts the labels below the lowest frame. -/
def labelProfile : List (StackEntry Instr) → List Nat
  | [] => [0]
  | StackEntry.Value _ :: Rest => labelProfile Rest
  | StackEntry.Label _ :: Rest => addHead 1 (labelProfile Rest)
  | StackEntry.Frame _ _ _ :: Rest => 0 :: labelProfile Rest

end StackEntry

namespace InstrProvider

variable {Instr : Type}

/-- The number of Block scopes in each function call of the instruction
provider, topmost call first: the Block scopes above the topmost FunctionCall
scope, then those between that scope and the next FunctionCall scope, and so
on; the last number counts the Block scopes below the lowest FunctionCall
scope. -/
def blockProfile : List (InstrScope Instr) → List Nat
  | [] => [0]
  | S :: Rest =>
    match S.Tag with
    | SeqType.Block => addHead 1 (blockProfile Rest)
    | SeqType.FunctionCall => 0 :: blockProfile Rest
    | SeqType.Expression => blockProfile Rest

/-- The number of Block scopes above the topmost FunctionCall scope. -/
def blocksAboveCall (P : InstrProvider Instr) : Nat :=
  ((P.scopeTags.takeWhile (fun T => T ≠ SeqType.FunctionCall)).filter
    (fun T => T = SeqType.Block)).length

end InstrProvider

namespace Interpreter

variable {Store Instr : Type}

/-- The balance of labels and scopes: the instruction provider holds Block
and FunctionCall scopes only, and function call by function call it holds as
many Block scopes as the stack holds labels in the frame of that call. -/
def Balanced (E : Interpreter (StackManager Instr) Store Instr) : Prop :=
  (∀ S ∈ E.InstrPdr.Iters, S.Tag ≠ SeqType.Expression) ∧
    StackEntry.labelProfile E.StackMgr.Entries = InstrProvider.blockProfile E.InstrPdr.Iters

instance (E : Interpreter (StackManager Instr) Store Instr) : Decidable (Balanced E) :=
  inferInstanceAs (Decidable (_ ∧ _))

/-- The operations of the engine that push and pop labels and scopes, and
the push of an operand value that instructions make in between. -/
inductive ControlOp (Instr : Type) where
  | enterFunction (FuncType : FType) (ModuleAddr : Nat) (Locals : List (Nat × ValType))
      (Instrs : List Instr)
  | enterBlock (Arity : Nat) (Target : Option Instr) (Seq : List Instr)
  | leaveBlock
  | branchToLabel (Cnt : Nat)
  | leaveFunction
  | push (Val : ValVariant)

/-- The engine after an operation, on the modelled stack manager.
`getResultArity` and `getBody` read the loop instruction that a branch
re-enters. -/
def ControlOp.apply (getResultArity : Instr → Nat) (getBody : Instr → List Instr) :
    ControlOp Instr → Interpreter (StackManager Instr) Store Instr →
      Expect Unit × Interpreter (StackManager Instr) Store Instr
  | ControlOp.enterFunction FuncType ModuleAddr Locals Instrs, E =>
    Interpreter.enterFunction StackManager.ops
      (FunctionInstance.Native FuncType ModuleAddr Locals Instrs) E
  | ControlOp.enterBlock Arity Target Seq, E =>
    Interpreter.enterBlock StackManager.ops Arity Target Seq E
  | ControlOp.leaveBlock, E => Interpreter.leaveBlock StackManager.ops E
  | ControlOp.branchToLabel Cnt, E =>
    Interpreter.branchToLabel StackManager.ops StackManager.getLabelWithCount
      (Interpreter.runLoopOp StackManager.ops getResultArity getBody) Cnt E
  | ControlOp.leaveFunction, E => Interpreter.leaveFunction StackManager.ops E
  | ControlOp.push Val, E =>
    (Except.ok (), { E with StackMgr := StackManager.push Val E.StackMgr })

/-- What validated code guarantees when an operation is made: a block is left
and a branch is taken inside the current frame (the label at depth `Cnt`
lies above the topmost frame), a function is left when there is a frame, and
the entries that a branch or a function exit keeps on top of the stack are
operand values. -/
def ControlOp.enabled : ControlOp Instr → Interpreter (StackManager Instr) Store Instr → Bool
  | ControlOp.enterFunction _ _ _ _, _ => true
  | ControlOp.enterBlock _ _ _, _ => true
  | ControlOp.leaveBlock, E => decide (0 < E.StackMgr.labelsInFrame)
  | ControlOp.branchToLabel Cnt, E =>
    decide (Cnt < E.StackMgr.labelsInFrame) &&
      match StackEntry.splitAtLabel Cnt E.StackMgr.Entries with
      | some R => (R.1.take R.2.1.Arity).all StackEntry.isValue
      | none => false
  | ControlOp.leaveFunction, E =>
    match StackEntry.splitAtFrame E.StackMgr.Entries with
    | some R => (R.1.take R.2.1).all StackEntry.isValue
    | none => false
  | ControlOp.push _, _ => true

/-- The engine after a sequence of operations, each made when it is enabled;
`none` when one of them is not. -/
def ControlOp.run (getResultArity : Instr → Nat) (getBody : Instr → List Instr) :
    List (ControlOp Instr) → Interpreter (StackManager Instr) Store Instr →
      Option (Interpreter (StackManager Instr) Store Instr)
  | [], E => some E
  | Op :: Ops, E =>
    if Op.enabled E then ControlOp.run getResultArity getBody Ops
      (Op.apply getResultArity getBody E).2
    else none

end Interpreter

/-! ## Parametric instructions -/

namespace StackManager

variable {Instr : Type}

/-- Modelled from the spec: `pop()` removes the value on top of the stack and
gives it; there is no result when the stack is empty or its top is not a
value. -/
def pop (S : StackManager Instr) : Option (ValVariant × StackManager Instr) :=
  match S.Entries with
  | StackEntry.Value Val :: Rest => some (Val, { Entries := Rest })
  | _ => none

end StackManager

namespace Interpreter

variable {Stack Store Instr : Type}

/-- `Interpreter::execute(StoreMgr, ParametricInstruction)`.  `pop` is the
stack manager's, which is not among the sources and is a parameter; the result
is `none` where the source has no defined result (a `pop` without a value, or
a condition that is not an i32). -/
def executeParametric (SM : StackManagerOps Stack Instr)
    (pop : Stack → Option (ValVariant × Stack)) (Code : OpCode)
    (E : Interpreter Stack Store Instr) :
    Option (Expect Unit × Interpreter Stack Store Instr) :=
  match Code with
  | OpCode.Drop =>
    match pop E.StackMgr with
    | none => none
    | some R => some (Except.ok (), { E with StackMgr := R.2 })
  | OpCode.Select =>
    match pop E.StackMgr with
    | none => none
    | some (CondVal, S1) =>
      match pop S1 with
      | none => none
      | some (Val2, S2) =>
        match pop S2 with
        | none => none
        | some (Val1, S3) =>
          match CType.uint32_t.ofVariant CondVal with
          | none => none
          | some Cond =>
            if Cond = 0 then some (Except.ok (), { E with StackMgr := SM.push Val2 S3 })
            else some (Except.ok (), { E with StackMgr := SM.push Val1 S3 })
  | _ => some (Except.error ErrCode.ExecutionFailed, E)

end Interpreter

/-! ## EEI: 256-bit values in memory -/

namespace Executor

namespace Instance

/-- Modelled from the spec: the memory instance (the bodies of its member
functions are not among the sources), of which the model keeps the byte
vector `Data`. -/
structure MemoryInstance where
  Data : List EEI.Byte

namespace MemoryInstance

/-- Modelled from the spec: `getArray(Arr, Offset, Length, IsReverse)` reads
`Data[Offset : Offset + Length - 1]` into the array, in reverse order when
`IsReverse` is set; an access beyond the data fails with
`AccessForbidMemory` and reads nothing.  The result is the status, the bytes
in the order of the array, and the memory. -/
def getArray (Offset Length : Nat) (IsReverse : Bool) (M : MemoryInstance) :
    ErrCode × List EEI.Byte × MemoryInstance :=
  if Offset + Length ≤ M.Data.length then
    (ErrCode.Success,
      if IsReverse then ((M.Data.drop Offset).take Length).reverse
      else (M.Data.drop Offset).take Length,
      M)
  else (ErrCode.AccessForbidMemory, [], M)

/-- Modelled from the spec: `setArray(Arr, Offset, Length, IsReverse)`
replaces `Data[Offset : Offset + Length - 1]` by the first `Length` bytes of
the array, in reverse order when `IsReverse` is set; an access beyond the data
fails with `AccessForbidMemory` and writes nothing. -/
def setArray (Arr : List EEI.Byte) (Offset Length : Nat) (IsReverse : Bool)
    (M : MemoryInstance) : ErrCode × MemoryInstance :=
  if Offset + Length ≤ M.Data.length then
    (ErrCode.Success,
      { Data :=
          M.Data.take Offset ++
            (if IsReverse then (Arr.take Length).reverse else Arr.take Length) ++
            M.Data.drop (Offset + Length) })
  else (ErrCode.AccessForbidMemory, M)

/-- Modelled from the spec: `getBytes(Slice, Offset, Length)`, the slice
`Data[Offset : Offset + Length - 1]`, with the same bounds check. -/
def getBytes (Offset Length : Nat) (M : MemoryInstance) :
    ErrCode × List EEI.Byte × MemoryInstance :=
  if Offset + Length ≤ M.Data.length then
    (ErrCode.Success, (M.Data.drop Offset).take Length, M)
  else (ErrCode.AccessForbidMemory, [], M)

/-- The modelled memory instance as the operations the EEI helpers call. -/
def ops : EEI.MemoryInstanceOps MemoryInstance where
  getBytes := getBytes
  setArray := setArray

end MemoryInstance

end Instance

namespace EEI

variable {Mem : Type}

/-- `EEI::storeUInt`: clamp `Bytes` to 32, fail when one of the leading
`32 - Bytes` bytes of `Src` is set, otherwise write the last `Bytes` bytes of
`Src` at `Off` in reverse order. -/
def storeUInt (mem : MemoryInstanceOps Mem) (Src : List Byte) (Off Bytes : Nat)
    (MemInst : Mem) : ErrCode × Mem :=
  let Bytes1 := if 32 < Bytes then 32 else Bytes
  if (List.range (32 - Bytes1)).any (fun I => Src.getD I 0 ≠ 0) then
    (ErrCode.ExecutionFailed, MemInst)
  else mem.setArray (Src.drop (32 - Bytes1)) Off Bytes1 true MemInst

/-- `EEI::loadUInt`: clamp `Bytes` to 32, clear `Dst`, and read `Bytes` bytes
at `Off` in reverse order into the last `Bytes` bytes of `Dst`.  `getArray` is
the member function of the memory instance, a parameter; the bytes it gives
are those it wrote into the array.  The result is the status, `Dst` and the
memory. -/
def loadUInt (getArray : Nat → Nat → Bool → Mem → ErrCode × List Byte × Mem)
    (Off Bytes : Nat) (MemInst : Mem) : ErrCode × List Byte × Mem :=
  let Bytes1 := if 32 < Bytes then 32 else Bytes
  let R := getArray Off Bytes1 true MemInst
  let Written := R.2.1.take Bytes1
  (R.1,
    List.replicate (32 - Bytes1) 0 ++ Written ++ List.replicate (Bytes1 - Written.length) 0,
    R.2.2)

/-- The big-endian integer that the bytes 16..31 of a 32-byte value form. -/
def lowHalfValue (Src : List Byte) : Nat :=
  ((List.range 16).map (fun I => (Src.getD (16 + I) 0).val * 256 ^ (15 - I))).sum

end EEI

end Executor

/-! ## Sample inputs -/

namespace Sample

/-- A stack manager that keeps operand values only. -/
def valueStack : StackManagerOps (List ValVariant) OpCode where
  push := List.cons
  pushLabel := fun _ _ S => S
  popLabel := fun _ S => S
  pushFrame := fun _ _ _ S => S
  popFrame := fun S => (0, S)

/-- A cost table in which every opcode costs 1. -/
def unitCost : OpCode → Nat := fun _ => 1

/-- An evaluation that pushes the i32 constant 7 for every instruction. -/
def pushSeven : Interpreter.Dispatch (List ValVariant) Unit OpCode :=
  fun _ _ E => (Except.ok (), { E with StackMgr := ValVariant.I32 7 :: E.StackMgr })

/-- An engine state with one expression scope holding `nop`, and a measure
with the given limit and sum. -/
def oneNop (Limit Sum : Nat) : Interpreter (List ValVariant) Unit OpCode where
  StackMgr := []
  InstrPdr := { Iters := [{ Tag := SeqType.Expression, Instrs := [OpCode.Nop] }] }
  Measure := some { CostLimit := Limit, CostSum := Sum, CostTab := unitCost, InstrCnt := 0 }
  StoreMgr := ()

/-- A host function of declared cost 1000 whose callable pushes the i32
constant 7 and reports success. -/
def costly : HostFunctionBase (List ValVariant) Unit where
  Cost := 1000
  run := fun S St Me => (ErrCode.Success, ValVariant.I32 7 :: S, St, Me)

/-- An evaluation that ends with `Terminated` for every instruction. -/
def terminate : Interpreter.Dispatch (List ValVariant) Unit OpCode :=
  fun _ _ E => (Except.error ErrCode.Terminated, E)

/-- An engine state with no scope, no stack entry and no measure. -/
def idle : Interpreter (List ValVariant) Unit OpCode where
  StackMgr := []
  InstrPdr := { Iters := [] }
  Measure := none
  StoreMgr := ()

/-- A manager that holds `2 ^ 32` host functions, all of them `0`. -/
def fullManager : Executor.HostFunctionManager Nat where
  HostFuncs := List.replicate (2 ^ 32) 0

/-- An interpreter whose `invoke` returns the i32 constant 7 for every call. -/
def invokeSeven : ExpVM.Invoke Unit Unit :=
  fun _ _ St Me En => (Except.ok [ValVariant.I32 7], St, Me, En)

/-- A VM in the given stage, with no module loaded. -/
def vmAt (Stage : ExpVM.VMStage) : ExpVM.VM Unit Unit Unit where
  Stage := Stage
  Mod := none
  StoreRef := ()
  Measure := { CostLimit := 0, CostSum := 0, CostTab := unitCost, InstrCnt := 0 }
  InterpreterEngine := ()

/-- A VM in the given stage with the module `5` loaded. -/
def vmWith (Stage : ExpVM.VMStage) : ExpVM.VM Nat Unit Unit where
  Stage := Stage
  Mod := some 5
  StoreRef := ()
  Measure := { CostLimit := 0, CostSum := 0, CostTab := unitCost, InstrCnt := 0 }
  InterpreterEngine := ()

/-- A loader that accepts the source `1` as the module `8` and fails with
`ExecutionFailed` on every other source. -/
def parseOne : Nat → Expect Nat :=
  fun Source => if Source = 1 then Except.ok 8 else Except.error ErrCode.ExecutionFailed

/-- A validator that accepts the module `5` only. -/
def validFive : Nat → Expect Unit :=
  fun M => if M = 5 then Except.ok () else Except.error ErrCode.ValidationFailed

/-- An interpreter whose `instantiateModule` succeeds on the module `5` and
fails with `InstantiateFailed` on every other module, changing nothing. -/
def instantiateFive : ExpVM.InstantiateModule Nat Unit Unit :=
  fun M _ St Me En =>
    (if M = 5 then Except.ok () else Except.error ErrCode.InstantiateFailed, St, Me, En)

/-- An evaluation that knows control instructions only and evaluates them
with `executeControl`; `return` is not used by the samples and does nothing. -/
def controlOnly : Interpreter.Dispatch (StackManager OpCode) Unit OpCode :=
  fun Code _ E => Interpreter.executeControl (fun E1 => (Except.ok (), E1)) Code E

/-- An engine on the modelled stack manager with an empty stack, no scope and
no measure. -/
def bare : Interpreter (StackManager OpCode) Unit OpCode where
  StackMgr := { Entries := [] }
  InstrPdr := { Iters := [] }
  Measure := none
  StoreMgr := ()

/-- A native function without parameters, results and locals whose body is
the single instruction `unreachable`. -/
def trapBody : FunctionInstance (StackManager OpCode) Unit OpCode :=
  FunctionInstance.Native { Params := [], Returns := [] } 0 [] [OpCode.Unreachable]

/-- A host function of declared cost 0 whose callable reports `Revert`. -/
def reverting : HostFunctionBase (List ValVariant) Unit where
  Cost := 0
  run := fun S St Me => (ErrCode.Revert, S, St, Me)

/-- An environment manager that accepts every charge and keeps the list of
the amounts it was asked to charge, last one first. -/
def recordCost : Nat → List Nat → Bool × List Nat :=
  fun Gas Log => (true, Gas :: Log)

/-- A decoded instruction tree with two instructions: a `loop` whose body is
`br 0`, and that `br 0`. -/
inductive LoopInstr where
  | Loop
  | Br0
  deriving DecidableEq, Repr

namespace LoopInstr

/-- The opcode of a sample instruction. -/
def getOpCode : LoopInstr → OpCode
  | LoopInstr.Loop => OpCode.Loop
  | LoopInstr.Br0 => OpCode.Br

/-- The body of a sample instruction. -/
def getBody : LoopInstr → List LoopInstr
  | LoopInstr.Loop => [LoopInstr.Br0]
  | LoopInstr.Br0 => []

/-- The sample loop has no results. -/
def getResultArity : LoopInstr → Nat := fun _ => 0

/-- The label index of the sample branch is 0. -/
def getLabelIndex : LoopInstr → Nat := fun _ => 0

/-- An operation that the samples do not use and that reports
`Unimplemented`. -/
def unused : Interpreter.InstrOp (StackManager LoopInstr) Unit LoopInstr :=
  fun _ E => (Except.error ErrCode.Unimplemented, E)

/-- An evaluation that hands `block` and `loop` to the overload for block
control instructions, `br` and `br_if` to the overload for branch
instructions, and knows no other instruction. -/
def dispatch : Interpreter.Dispatch (StackManager LoopInstr) Unit LoopInstr :=
  fun Code I E =>
    match Code with
    | OpCode.Block | OpCode.Loop =>
      Interpreter.executeBlockControl unused
        (Interpreter.runLoopOp StackManager.ops getResultArity getBody) Code I E
    | OpCode.Br | OpCode.Br_if =>
      Interpreter.executeBrControl
        (Interpreter.runBrOp StackManager.ops StackManager.getLabelWithCount
          (Interpreter.runLoopOp StackManager.ops getResultArity getBody) getLabelIndex)
        unused Code I E
    | _ => (Except.error ErrCode.Unimplemented, E)

/-- An engine about to run the sample loop, with an empty stack and a measure
with the given limit, sum 0 and unit costs. -/
def start (Limit : Nat) : Interpreter (StackManager LoopInstr) Unit LoopInstr where
  StackMgr := { Entries := [] }
  InstrPdr := { Iters := [{ Tag := SeqType.Expression, Instrs := [LoopInstr.Loop] }] }
  Measure := some { CostLimit := Limit, CostSum := 0, CostTab := unitCost, InstrCnt := 0 }
  StoreMgr := ()

end LoopInstr

/-- A host function of declared cost 100 whose callable reports success and,
like the copying functions of the EEI, charges 3 more on the cost sum that it
shares with the engine. -/
def copying : HostFunctionBase (List ValVariant) Unit where
  Cost := 100
  run := fun S St Me =>
    (ErrCode.Success, S, St, Me.map (fun M => { M with CostSum := M.CostSum + 3 }))

/-- An engine with no scope and a measure with limit 1000 and sum 0. -/
def metered : Interpreter (List ValVariant) Unit OpCode where
  StackMgr := []
  InstrPdr := { Iters := [] }
  Measure := some { CostLimit := 1000, CostSum := 0, CostTab := unitCost, InstrCnt := 0 }
  StoreMgr := ()

/-- What the sample instructions do: `call` enters the sample host function
of declared cost 1000, every other instruction does nothing. -/
def callCostly : OpCode → OpCode → Interpreter (List ValVariant) Unit OpCode →
    Interpreter.Evaluation (List ValVariant) Unit OpCode :=
  fun Code _ _ =>
    { Prepare := fun E => (Except.ok (), E)
      Callee :=
        if Code = OpCode.Call then
          some (FunctionInstance.Host { Params := [], Returns := [] } costly)
        else none }

/-- A native function whose body is `nop` followed by `call`. -/
def nopCall : FunctionInstance (List ValVariant) Unit OpCode :=
  FunctionInstance.Native { Params := [], Returns := [] } 0 [] [OpCode.Nop, OpCode.Call]

/-- An engine with no scope and a measure with limit 5000 and sum 0. -/
def funded : Interpreter (List ValVariant) Unit OpCode where
  StackMgr := []
  InstrPdr := { Iters := [] }
  Measure := some { CostLimit := 5000, CostSum := 0, CostTab := unitCost, InstrCnt := 0 }
  StoreMgr := ()

/-- An environment manager with a cost limit and a cost sum, the pair
`(limit, sum)`: a charge that would take the sum beyond the limit is rejected
and leaves the sum as it is; a refund lowers the sum. -/
def budget : Executor.EEI.EnvironmentManagerOps (Nat × Nat) where
  addCost := fun Cost M => if M.1 < M.2 + Cost then (false, M) else (true, (M.1, M.2 + Cost))
  subCost := fun Cost M => (M.1, M.2 - Cost)

/-- A memory instance that is a list of bytes: an access inside the list
succeeds, any other fails with `AccessForbidMemory` and changes nothing. -/
def flatMemory : Executor.EEI.MemoryInstanceOps (List Executor.EEI.Byte) where
  getBytes := fun Off Len M =>
    if Off + Len ≤ M.length then (ErrCode.Success, (M.drop Off).take Len, M)
    else (ErrCode.AccessForbidMemory, [], M)
  setArray := fun Arr Off Len Rev M =>
    if Off + Len ≤ M.length then
      (ErrCode.Success,
        M.take Off ++ (if Rev then (Arr.take Len).reverse else Arr.take Len) ++
          M.drop (Off + Len))
    else (ErrCode.AccessForbidMemory, M)

/-- The 256-bit big-endian value with the given last byte and zeros before. -/
def word (Last : Executor.EEI.Byte) : List Executor.EEI.Byte :=
  List.replicate 31 0 ++ [Last]

/-- The result every call to the sample host gives: success, 5 gas left, two
bytes of output. -/
def callDone : Executor.EEI.evmc_result where
  status_code := Executor.EEI.EVMC_SUCCESS
  gas_left := 5
  output_data := some [1, 2]
  output_size := 2
  create_address := List.replicate 20 7

/-- A host whose context is the list of the messages it was called with, last
one first.  Every account has the balance 200; `Exists` says whether accounts
exist. -/
def recordingHost (Exists : Bool) :
    Executor.EEI.evmc_host_interface (List Executor.EEI.evmc_message) where
  account_exists := fun _ _ => Exists
  get_balance := fun _ _ => word 200
  call := fun Log Msg => (callDone, Msg :: Log)

/-- A message of the given kind with the given value (its last byte) that
asks for 1000 gas. -/
def message (Kind : Executor.EEI.evmc_call_kind) (Value : Executor.EEI.Byte) :
    Executor.EEI.evmc_message where
  kind := Kind
  gas := 1000
  destination := List.replicate 20 1
  sender := List.replicate 20 2
  input_data := []
  input_size := 0
  value := word Value

/-- A state for `callContract`: the budget manager with the given limit and
sum 0, a memory of four bytes, an environment at the given depth with no flag,
one byte of return data and no call recorded, `Ret` 9, and the given
message. -/
def callState (Limit Depth : Nat) (Msg : Executor.EEI.evmc_message) :
    Executor.EEI.CallState (Nat × Nat) (List Executor.EEI.Byte)
      (List Executor.EEI.evmc_message) where
  EnvMgr := (Limit, 0)
  MemInst := [10, 11, 12, 13]
  Env := { Depth := Depth, Flag := 0, ReturnData := [9], EVMCContext := [] }
  Ret := 9
  Msg := Msg

/-- Memory helpers that the samples do not run: each reports
`Unimplemented`. -/
def noMemory : Interpreter.MemoryInstrOps (List ValVariant) Unit OpCode where
  runLoadOp := fun _ _ _ E => (Except.error ErrCode.Unimplemented, E)
  runStoreOp := fun _ _ _ E => (Except.error ErrCode.Unimplemented, E)
  runMemoryGrowOp := fun E => (Except.error ErrCode.Unimplemented, E)
  runMemorySizeOp := fun E => (Except.error ErrCode.Unimplemented, E)

/-- Unary helpers of which the samples run `runReinterpretOp` only: every
other helper has no result. -/
def reinterpretOnly : UnaryNumericOps where
  runEqzOp := fun _ _ => none
  runClzOp := fun _ _ => none
  runCtzOp := fun _ _ => none
  runPopcntOp := fun _ _ => none
  runAbsOp := fun _ _ => none
  runNegOp := fun _ _ => none
  runCeilOp := fun _ _ => none
  runFloorOp := fun _ _ => none
  runNearestOp := fun _ _ => none
  runSqrtOp := fun _ _ => none
  runWrapOp := fun _ _ _ => none
  runTruncateOp := fun _ _ _ => none
  runExtendOp := fun _ _ _ => none
  runConvertOp := fun _ _ _ => none
  runDemoteOp := fun _ _ _ => none
  runPromoteOp := fun _ _ _ => none
  runReinterpretOp := runReinterpretOp

/-- An engine on the modelled stack manager at the end of a function body:
a result above the label of the body and the frame, and three scopes without a
next instruction, the Block scope of the body, the FunctionCall scope and an
Expression scope below. -/
def unwinding : Interpreter (StackManager OpCode) Unit OpCode where
  StackMgr :=
    { Entries := [StackEntry.Value (ValVariant.I32 5),
        StackEntry.Label { Arity := 1, Target := none },
        StackEntry.Frame 0 0 1] }
  InstrPdr :=
    { Iters := [{ Tag := SeqType.Block, Instrs := [] },
        { Tag := SeqType.FunctionCall, Instrs := [] },
        { Tag := SeqType.Expression, Instrs := [] }] }
  Measure := none
  StoreMgr := ()

/-- A cost table object without state whose table for a kind of VM gives
every opcode the cost 1 for Wasm, 2 for Wasi, 3 for Ewasm and 4 for ONNC. -/
def tables : ExpVM.CostTableOps Unit where
  setCostTable := fun _ T => T
  getCostTable := fun Kind _ _ =>
    match Kind with
    | ExpVM.VMType.Wasm => 1
    | ExpVM.VMType.Wasi => 2
    | ExpVM.VMType.Ewasm => 3
    | ExpVM.VMType.ONNC => 4

/-- A registration of import objects (these are numbers) that succeeds and
changes nothing. -/
def registerNothing : ExpVM.RegisterImport Nat Unit Unit :=
  fun _ St Me En => (Except.ok (), St, Me, En)

/-- A VM under construction whose configuration enables the given kinds. -/
def fresh (Kinds : List ExpVM.VMType) : ExpVM.VMInit Unit Unit Unit Nat where
  Config := fun Kind => Kinds.contains Kind
  CostTab := ()
  Measure := { CostLimit := 0, CostSum := 0, CostTab := fun _ => 0, InstrCnt := 0 }
  ImpObjs := []
  StoreRef := ()
  InterpreterEngine := ()

/-- A sequence of operations from an idle engine: a function with one result
and one local is entered, in it a loop and a block; a value is pushed and a
branch to the loop label is taken; a second function without results is
entered, a block in it, and that function is left from inside the block; then
a value is pushed. -/
def controlOps : List (Interpreter.ControlOp OpCode) :=
  [Interpreter.ControlOp.enterFunction { Params := [], Returns := [ValType.I32] } 0
      [(1, ValType.I32)] [OpCode.Nop],
    Interpreter.ControlOp.enterBlock 0 (some OpCode.Loop) [OpCode.Nop],
    Interpreter.ControlOp.enterBlock 0 none [],
    Interpreter.ControlOp.push (ValVariant.I32 3),
    Interpreter.ControlOp.branchToLabel 1,
    Interpreter.ControlOp.enterFunction { Params := [], Returns := [] } 0 [] [OpCode.Nop],
    Interpreter.ControlOp.enterBlock 0 none [],
    Interpreter.ControlOp.leaveFunction,
    Interpreter.ControlOp.push (ValVariant.I32 4)]

/-- The engine that the sample sequence of operations ends in: inside the
first function, in its re-entered loop, with a value on top. -/
def afterControlOps : Interpreter (StackManager OpCode) Unit OpCode where
  StackMgr :=
    { Entries := [StackEntry.Value (ValVariant.I32 4),
        StackEntry.Label { Arity := 0, Target := some OpCode.Loop },
        StackEntry.Label { Arity := 1, Target := none },
        StackEntry.Value (ValVariant.I32 0),
        StackEntry.Frame 0 0 1] }
  InstrPdr :=
    { Iters := [{ Tag := SeqType.Block, Instrs := [OpCode.Nop] },
        { Tag := SeqType.Block, Instrs := [OpCode.Nop] },
        { Tag := SeqType.FunctionCall, Instrs := [] }] }
  Measure := none
  StoreMgr := ()

/-- An engine on the modelled stack manager inside a function with one result
and one local that was entered from the idle engine: above the label of the
function body there are the label of a block and the value 5, and above the
Block scope of the body the Block scope of that block. -/
def inFunction : Interpreter (StackManager OpCode) Unit OpCode where
  StackMgr :=
    { Entries := [StackEntry.Value (ValVariant.I32 5),
        StackEntry.Label { Arity := 0, Target := none },
        StackEntry.Label { Arity := 1, Target := none },
        StackEntry.Value (ValVariant.I32 0),
        StackEntry.Frame 0 0 1] }
  InstrPdr :=
    { Iters := [{ Tag := SeqType.Block, Instrs := [] },
        { Tag := SeqType.Block, Instrs := [OpCode.Nop] },
        { Tag := SeqType.FunctionCall, Instrs := [] }] }
  Measure := none
  StoreMgr := ()

/-- A modelled memory instance of eight bytes, all of them 9. -/
def memory : Executor.Instance.MemoryInstance where
  Data := List.replicate 8 9

/-- The 256-bit big-endian value 258: the bytes 1 and 2 after thirty zeros. -/
def word258 : List Executor.EEI.Byte :=
  List.replicate 30 0 ++ [1, 2]

/-- A 256-bit big-endian value whose first byte is set. -/
def highWord : List Executor.EEI.Byte :=
  1 :: List.replicate 31 0

/-- A host like the recording host, with accounts that exist, whose calls
give the given result. -/
def hostWith (Res : Executor.EEI.evmc_result) :
    Executor.EEI.evmc_host_interface (List Executor.EEI.evmc_message) where
  account_exists := fun _ _ => true
  get_balance := fun _ _ => word 200
  call := fun Log Msg => (Res, Msg :: Log)

/-- A result of a call with the given status and gas left, and no output. -/
def callResult (Status Gas : Int) : Executor.EEI.evmc_result where
  status_code := Status
  gas_left := Gas
  output_data := none
  output_size := 0
  create_address := List.replicate 20 7

/-- The sample state for `callContract` at depth 0 with budget 100000, in an
environment that has the static flag. -/
def staticState (Msg : Executor.EEI.evmc_message) :
    Executor.EEI.CallState (Nat × Nat) (List Executor.EEI.Byte)
      (List Executor.EEI.evmc_message) where
  EnvMgr := (100000, 0)
  MemInst := [10, 11, 12, 13]
  Env := { Depth := 0, Flag := 1, ReturnData := [9], EVMCContext := [] }
  Ret := 9
  Msg := Msg

end Sample

end SSVM

/-! ## Theorems -/

namespace SSVM

section RunLoop

variable {Stack Store Instr : Type}

theorem InstrProvider.getNextInstr_some {P0 P : InstrProvider Instr} {I : Instr}
    (h : P0.getNextInstr = (some I, P)) :
    P.scopeTags = P0.scopeTags ∧ 0 < P0.getScopeSize := by
  unfold InstrProvider.getNextInstr at h
  cases hI : P0.Iters with
  | nil => simp [hI] at h
  | cons S Rest =>
    cases hS : S.Instrs with
    | nil => simp [hI, hS] at h
    | cons J Js =>
      simp only [hI, hS, Prod.mk.injEq, Option.some.injEq] at h
      obtain ⟨_, rfl⟩ := h
      simp [InstrProvider.scopeTags, InstrProvider.getScopeSize, hI]

/-- C1. When the run loop fetches an instruction `I` (leaving the provider
`P`) while a measure `M` is attached: if the table cost of the opcode fits
the limit, the pass is the evaluation of `I` on the state whose instruction
counter is already one higher and whose cost sum already includes the cost;
if the cost would exceed the limit, the pass and `execute` return
`CostLimitExceeded` in one and the same state for every evaluation function
(so `I` is not evaluated), with the operand stack and the store as before,
the provider as the fetch left it (same scopes, same tags) and the
instruction counter one higher. -/
theorem execute_meters_before_evaluation
    (SM : StackManagerOps Stack Instr) (getOpCode : Instr → OpCode)
    (E : Interpreter Stack Store Instr) (M : Measure) (I : Instr)
    (P : InstrProvider Instr)
    (hM : E.Measure = some M) (hF : E.InstrPdr.getNextInstr = (some I, P)) :
    (M.CostSum + M.CostTab (getOpCode I) ≤ M.CostLimit →
      ∀ dispatchInstruction : Interpreter.Dispatch Stack Store Instr,
        Interpreter.executeStep SM getOpCode dispatchInstruction E =
          dispatchInstruction (getOpCode I) I
            { E with
              InstrPdr := P
              Measure := some { M with
                InstrCnt := M.InstrCnt + 1
                CostSum := M.CostSum + M.CostTab (getOpCode I) } }) ∧
    (M.CostLimit < M.CostSum + M.CostTab (getOpCode I) →
      ∃ E1 : Interpreter Stack Store Instr,
        E1.StackMgr = E.StackMgr ∧ E1.StoreMgr = E.StoreMgr ∧
        E1.InstrPdr = P ∧ P.scopeTags = E.InstrPdr.scopeTags ∧
        E1.Measure.map Measure.InstrCnt = some (M.InstrCnt + 1) ∧
        ∀ dispatchInstruction : Interpreter.Dispatch Stack Store Instr,
          Interpreter.executeStep SM getOpCode dispatchInstruction E =
            (Except.error ErrCode.CostLimitExceeded, E1) ∧
          ∀ Fuel : Nat,
            Interpreter.execute SM getOpCode dispatchInstruction (Fuel + 1) E =
              some (Except.error ErrCode.CostLimitExceeded, E1)) := by
  obtain ⟨hTags, hSize⟩ := InstrProvider.getNextInstr_some hF
  constructor
  · intro hFit dispatchInstruction
    have hnot : ¬ M.CostLimit < M.CostSum + M.CostTab (getOpCode I) := by omega
    simp [Interpreter.executeStep, hF, hM, Measure.addInstrCost, Measure.addCost,
      Measure.incInstrCnt, hnot]
  · intro hOver
    refine ⟨{ E with InstrPdr := P, Measure := some M.incInstrCnt }, rfl, rfl, rfl,
      hTags, rfl, ?_⟩
    intro dispatchInstruction
    have hStep : Interpreter.executeStep SM getOpCode dispatchInstruction E =
        (Except.error ErrCode.CostLimitExceeded,
          { E with InstrPdr := P, Measure := some M.incInstrCnt }) := by
      simp [Interpreter.executeStep, hF, hM, Measure.addInstrCost, Measure.addCost,
        Measure.incInstrCnt, hOver]
    refine ⟨hStep, ?_⟩
    intro Fuel
    simp [Interpreter.execute, hSize, hStep]

/-- Witness for C1: at a sample state with limit 10 a `nop` of cost 1 is
charged and evaluated when the sum is 3, and rejected when the sum is 10. -/
theorem execute_meters_before_evaluation_witness :
    Interpreter.executeStep Sample.valueStack id Sample.pushSeven (Sample.oneNop 10 3) =
      (Except.ok (),
        { StackMgr := [ValVariant.I32 7]
          InstrPdr := { Iters := [{ Tag := SeqType.Expression, Instrs := [] }] }
          Measure := some { CostLimit := 10, CostSum := 4, CostTab := Sample.unitCost,
                            InstrCnt := 1 }
          StoreMgr := () }) ∧
    (Interpreter.execute Sample.valueStack id Sample.pushSeven 1
        (Sample.oneNop 10 10)).map Prod.fst =
      some (Except.error ErrCode.CostLimitExceeded) := by
  constructor
  · exact (execute_meters_before_evaluation Sample.valueStack id (Sample.oneNop 10 3)
      { CostLimit := 10, CostSum := 3, CostTab := Sample.unitCost, InstrCnt := 0 }
      OpCode.Nop { Iters := [{ Tag := SeqType.Expression, Instrs := [] }] }
      rfl rfl).1 (by decide) Sample.pushSeven
  · obtain ⟨E1, _, _, _, _, _, hAll⟩ :=
      (execute_meters_before_evaluation Sample.valueStack id (Sample.oneNop 10 10)
        { CostLimit := 10, CostSum := 10, CostTab := Sample.unitCost, InstrCnt := 0 }
        OpCode.Nop { Iters := [{ Tag := SeqType.Expression, Instrs := [] }] }
        rfl rfl).2 (by decide)
    rw [(hAll Sample.pushSeven).2 0]
    rfl

/-- C2. Entering a host function while a measure `M` is attached: if the
declared cost fits the limit, the callable is run on the state whose cost sum
has already grown by the declared cost, and the result is the callable's (its
status turned into the result, its stack, store and measure taken over); if
the cost would exceed the limit, the result is `CostLimitExceeded` in one and
the same state whatever the callable is (so it is not invoked), with operand
stack, store and instruction provider as before.  With declared cost 1000,
limit 1500 and a sum of at most 500, a first entry whose callable reports
success and leaves the measure alone succeeds, and the second entry fails
with `CostLimitExceeded`, leaving the stack as the first entry left it. -/
theorem enterFunction_host_charges_declared_cost
    (SM : StackManagerOps Stack Instr) (FuncType : FType)
    (HostFunc : HostFunctionBase Stack Store)
    (E : Interpreter Stack Store Instr) (M : Measure) (hM : E.Measure = some M) :
    (M.CostSum + HostFunc.Cost ≤ M.CostLimit →
      Interpreter.enterFunction SM (FunctionInstance.Host FuncType HostFunc) E =
        (statusToExpect
            (HostFunc.run E.StackMgr E.StoreMgr
              (some { M with CostSum := M.CostSum + HostFunc.Cost })).1,
          { E with
            StackMgr := (HostFunc.run E.StackMgr E.StoreMgr
              (some { M with CostSum := M.CostSum + HostFunc.Cost })).2.1
            StoreMgr := (HostFunc.run E.StackMgr E.StoreMgr
              (some { M with CostSum := M.CostSum + HostFunc.Cost })).2.2.1
            Measure := (HostFunc.run E.StackMgr E.StoreMgr
              (some { M with CostSum := M.CostSum + HostFunc.Cost })).2.2.2 })) ∧
    (M.CostLimit < M.CostSum + HostFunc.Cost →
      ∃ E1 : Interpreter Stack Store Instr,
        E1.StackMgr = E.StackMgr ∧ E1.StoreMgr = E.StoreMgr ∧
        E1.InstrPdr = E.InstrPdr ∧
        ∀ run : Stack → Store → Option Measure → ErrCode × Stack × Store × Option Measure,
          Interpreter.enterFunction SM
              (FunctionInstance.Host FuncType { Cost := HostFunc.Cost, run := run }) E =
            (Except.error ErrCode.CostLimitExceeded, E1)) ∧
    (HostFunc.Cost = 1000 → M.CostLimit = 1500 → M.CostSum ≤ 500 →
      (HostFunc.run E.StackMgr E.StoreMgr
          (some { M with CostSum := M.CostSum + HostFunc.Cost })).1 = ErrCode.Success →
      (HostFunc.run E.StackMgr E.StoreMgr
          (some { M with CostSum := M.CostSum + HostFunc.Cost })).2.2.2 =
        some { M with CostSum := M.CostSum + HostFunc.Cost } →
      ∃ E1 E2 : Interpreter Stack Store Instr,
        Interpreter.enterFunction SM (FunctionInstance.Host FuncType HostFunc) E =
          (Except.ok (), E1) ∧
        Interpreter.enterFunction SM (FunctionInstance.Host FuncType HostFunc) E1 =
          (Except.error ErrCode.CostLimitExceeded, E2) ∧
        E2.StackMgr = E1.StackMgr) := by
  obtain ⟨S, P, Ms, St⟩ := E
  simp only at hM
  subst hM
  refine ⟨?_, ?_, ?_⟩
  · intro hFit
    have hnot : ¬ M.CostLimit < M.CostSum + HostFunc.Cost := by omega
    simp [Interpreter.enterFunction, Interpreter.runHostFunc, Measure.addCost, hnot]
  · intro hOver
    refine ⟨_, rfl, rfl, rfl, ?_⟩
    intro run
    simp [Interpreter.enterFunction, Measure.addCost, hOver]
  · intro hCost hLimit hSum hRun hKeep
    have hnot : ¬ M.CostLimit < M.CostSum + HostFunc.Cost := by omega
    simp only at hRun hKeep
    have hOver : M.CostLimit < M.CostSum + HostFunc.Cost + HostFunc.Cost := by omega
    refine ⟨{ StackMgr := (HostFunc.run S St
                (some { M with CostSum := M.CostSum + HostFunc.Cost })).2.1,
              InstrPdr := P,
              Measure := some { M with CostSum := M.CostSum + HostFunc.Cost },
              StoreMgr := (HostFunc.run S St
                (some { M with CostSum := M.CostSum + HostFunc.Cost })).2.2.1 },
            { StackMgr := (HostFunc.run S St
                (some { M with CostSum := M.CostSum + HostFunc.Cost })).2.1,
              InstrPdr := P,
              Measure := some { M with CostSum := M.CostSum + HostFunc.Cost },
              StoreMgr := (HostFunc.run S St
                (some { M with CostSum := M.CostSum + HostFunc.Cost })).2.2.1 }, ?_, ?_, rfl⟩
    · simp [Interpreter.enterFunction, Interpreter.runHostFunc, Measure.addCost, hnot,
        hRun, hKeep, statusToExpect]
    · simp [Interpreter.enterFunction, Measure.addCost, hOver]

/-- Witness for C2: the sample host function of cost 1000 is entered at
limit 1500 and sum 0, is rejected at sum 1000, and a second entry after the
first is rejected. -/
theorem enterFunction_host_charges_declared_cost_witness :
    (Interpreter.enterFunction Sample.valueStack
        (FunctionInstance.Host { Params := [], Returns := [] } Sample.costly)
        (Sample.oneNop 1500 0)).1 = Except.ok () ∧
    (Interpreter.enterFunction Sample.valueStack
        (FunctionInstance.Host { Params := [], Returns := [] } Sample.costly)
        (Sample.oneNop 1500 1000)).1 = Except.error ErrCode.CostLimitExceeded ∧
    (Interpreter.enterFunction Sample.valueStack
        (FunctionInstance.Host { Params := [], Returns := [] } Sample.costly)
        (Interpreter.enterFunction Sample.valueStack
          (FunctionInstance.Host { Params := [], Returns := [] } Sample.costly)
          (Sample.oneNop 1500 0)).2).1 = Except.error ErrCode.CostLimitExceeded := by
  refine ⟨?_, ?_, ?_⟩
  · exact congrArg Prod.fst
      ((enterFunction_host_charges_declared_cost Sample.valueStack
        { Params := [], Returns := [] } Sample.costly (Sample.oneNop 1500 0)
        { CostLimit := 1500, CostSum := 0, CostTab := Sample.unitCost, InstrCnt := 0 }
        rfl).1 (by decide))
  · obtain ⟨E1, _, _, _, hAll⟩ :=
      (enterFunction_host_charges_declared_cost Sample.valueStack
        { Params := [], Returns := [] } Sample.costly (Sample.oneNop 1500 1000)
        { CostLimit := 1500, CostSum := 1000, CostTab := Sample.unitCost, InstrCnt := 0 }
        rfl).2.1 (by decide)
    exact congrArg Prod.fst (hAll Sample.costly.run)
  · obtain ⟨E1, E2, h1, h2, _⟩ :=
      (enterFunction_host_charges_declared_cost Sample.valueStack
        { Params := [], Returns := [] } Sample.costly (Sample.oneNop 1500 0)
        { CostLimit := 1500, CostSum := 0, CostTab := Sample.unitCost, InstrCnt := 0 }
        rfl).2.2 rfl rfl (by decide) rfl rfl
    rw [h1, h2]

theorem Interpreter.runFunction_of_loop_terminated
    (SM : StackManagerOps Stack Instr) (getOpCode : Instr → OpCode)
    (dispatchInstruction : Interpreter.Dispatch Stack Store Instr) (Fuel : Nat)
    (Func : FunctionInstance Stack Store Instr) (E E1 E2 : Interpreter Stack Store Instr)
    (hEnter : Interpreter.enterFunction SM Func E = (Except.ok (), E1))
    (hLoop : Interpreter.execute SM getOpCode dispatchInstruction Fuel E1 =
      some (Except.error ErrCode.Terminated, E2)) :
    Interpreter.runFunction SM getOpCode dispatchInstruction Fuel Func E =
      some (Except.ok (), E2) := by
  simp [Interpreter.runFunction, hEnter, hLoop]

/-- C3, the code at the failing input.  `runFunction` on a host function whose
callable reports `Terminated` and changes nothing (no measure attached)
returns the error
`Terminated`, for every fuel: the error of `enterFunction` is returned before
the place where `Terminated` is turned into success.  On the other path, a
native function whose first instruction ends with `Terminated` in the run
loop, `runFunction` returns success. -/
theorem runFunction_host_terminated_returns_error
    (SM : StackManagerOps Stack Instr) (getOpCode : Instr → OpCode)
    (dispatchInstruction : Interpreter.Dispatch Stack Store Instr) (Fuel : Nat)
    (FuncType : FType) (Cost : Nat) (S : Stack) (P : InstrProvider Instr) (St : Store) :
    Interpreter.runFunction SM getOpCode dispatchInstruction Fuel
        (FunctionInstance.Host FuncType
          { Cost := Cost, run := fun S1 St1 Me1 => (ErrCode.Terminated, S1, St1, Me1) })
        { StackMgr := S, InstrPdr := P, Measure := none, StoreMgr := St } =
      some (Except.error ErrCode.Terminated,
        { StackMgr := S, InstrPdr := P, Measure := none, StoreMgr := St }) ∧
    (Interpreter.runFunction Sample.valueStack id Sample.terminate 1
        (FunctionInstance.Native { Params := [], Returns := [] } 0 [] [OpCode.Nop])
        Sample.idle).map Prod.fst = some (Except.ok ()) := by
  constructor
  · simp [Interpreter.runFunction, Interpreter.enterFunction, Interpreter.runHostFunc,
      statusToExpect]
  · rfl

end RunLoop

section Manager

open Executor Executor.HostFunctionManager

variable {F : Type}

theorem Executor.HostFunctionManager.length_afterCalls (M : HostFunctionManager F)
    (Calls : List (Call F)) :
    (M.afterCalls Calls).HostFuncs.length = insertedSinceReset M.HostFuncs.length Calls := by
  induction Calls generalizing M with
  | nil => rfl
  | cons C Cs ih =>
    cases C with
    | insert Func =>
      simp only [afterCalls, List.foldl_cons] at ih ⊢
      rw [ih]
      simp [afterCall, insertHostFunction, insertedSinceReset]
    | reset =>
      simp only [afterCalls, List.foldl_cons] at ih ⊢
      rw [ih]
      simp [afterCall, reset, insertedSinceReset]

theorem Executor.HostFunctionManager.getHostFunction_of_le (M : HostFunctionManager F)
    (Addr : Nat) (h : M.HostFuncs.length ≤ Addr) :
    M.getHostFunction Addr = (ErrCode.WrongInstanceAddress, none) := by
  simp [getHostFunction, h]

theorem Executor.HostFunctionManager.getHostFunction_of_lt (M : HostFunctionManager F)
    (Addr : Nat) (x : F) (h : M.HostFuncs[Addr]? = some x) :
    M.getHostFunction Addr = (ErrCode.Success, some x) := by
  obtain ⟨hlt, hx⟩ := List.getElem?_eq_some.mp h
  have hnot : ¬ M.HostFuncs.length ≤ Addr := by omega
  simp [getHostFunction, hnot, hx]

/-- C4. For the manager reached from construction by any sequence of
insertions and resets, the vector holds as many functions as were inserted
since the last reset; `getHostFunction(Addr)` returns `WrongInstanceAddress`
if and only if `Addr` is at least that number, and then writes no function;
otherwise it returns `Success` with the function stored at index `Addr`. -/
theorem getHostFunction_wrong_address_iff (Calls : List (Call F)) (Addr : Nat) :
    ((init : HostFunctionManager F).afterCalls Calls).HostFuncs.length =
      insertedSinceReset 0 Calls ∧
    ((((init : HostFunctionManager F).afterCalls Calls).getHostFunction Addr).1 =
        ErrCode.WrongInstanceAddress ↔ insertedSinceReset 0 Calls ≤ Addr) ∧
    ((insertedSinceReset 0 Calls ≤ Addr ∧
        ((init : HostFunctionManager F).afterCalls Calls).getHostFunction Addr =
          (ErrCode.WrongInstanceAddress, none)) ∨
      (Addr < insertedSinceReset 0 Calls ∧
        ∃ x : F, ((init : HostFunctionManager F).afterCalls Calls).HostFuncs[Addr]? = some x ∧
          ((init : HostFunctionManager F).afterCalls Calls).getHostFunction Addr =
            (ErrCode.Success, some x))) := by
  have hlen := length_afterCalls (init : HostFunctionManager F) Calls
  simp only [init, List.length_nil] at hlen
  simp only [init]
  refine ⟨hlen, ?_, ?_⟩
  · rw [← hlen]
    by_cases h : (afterCalls { HostFuncs := [] } Calls).HostFuncs.length ≤ Addr
    · simp [getHostFunction, h]
    · simp [getHostFunction, h]
  · rw [← hlen]
    by_cases h : (afterCalls { HostFuncs := [] } Calls).HostFuncs.length ≤ Addr
    · exact Or.inl ⟨h, getHostFunction_of_le _ _ h⟩
    · have hlt : Addr < (afterCalls { HostFuncs := ([] : List F) } Calls).HostFuncs.length := by
        omega
      refine Or.inr ⟨hlt, _, List.getElem?_eq_getElem hlt, ?_⟩
      exact getHostFunction_of_lt _ _ _ (List.getElem?_eq_getElem hlt)

theorem Executor.HostFunctionManager.insertHostFunction_addr (M : HostFunctionManager F)
    (Func : F) : (M.insertHostFunction Func).2.1 = M.HostFuncs.length % 2 ^ 32 :=
  rfl

theorem Executor.HostFunctionManager.insertHostFunction_funcs (M : HostFunctionManager F)
    (Func : F) : (M.insertHostFunction Func).2.2.HostFuncs = M.HostFuncs ++ [Func] :=
  rfl

theorem Sample.fullManager_funcs :
    Sample.fullManager.HostFuncs = List.replicate (2 ^ 32) 0 :=
  rfl

theorem Sample.fullManager_length : Sample.fullManager.HostFuncs.length = 2 ^ 32 := by
  rw [Sample.fullManager_funcs, List.length_replicate]

theorem Sample.fullManager_addr (Func : Nat) :
    (Sample.fullManager.insertHostFunction Func).2.1 = 0 := by
  rw [insertHostFunction_addr, Sample.fullManager_length, Nat.mod_self]

theorem Executor.HostFunctionManager.insertAll_eq (M : HostFunctionManager F)
    (Funcs : List F) :
    (M.insertAll Funcs).1 =
        (List.range' M.HostFuncs.length Funcs.length).map (fun N => N % 2 ^ 32) ∧
      (M.insertAll Funcs).2.HostFuncs = M.HostFuncs ++ Funcs := by
  induction Funcs generalizing M with
  | nil => simp [insertAll]
  | cons Func Funcs ih =>
    obtain ⟨h1, h2⟩ := ih (M.insertHostFunction Func).2.2
    simp only [insertAll, h1, h2]
    simp [insertHostFunction, List.range'_succ]

theorem Executor.HostFunctionManager.insertAll_of_le (M : HostFunctionManager F)
    (Funcs : List F) (h : M.HostFuncs.length + Funcs.length ≤ 2 ^ 32) :
    (M.insertAll Funcs).1 = List.range' M.HostFuncs.length Funcs.length := by
  rw [(insertAll_eq M Funcs).1]
  conv_rhs => rw [← List.map_id (List.range' M.HostFuncs.length Funcs.length)]
  apply List.map_congr_left
  intro N hN
  have hlt := (List.mem_range'_1.mp hN).2
  exact Nat.mod_eq_of_lt (by omega)

/-- C5 (amended). `insertHostFunction` always returns `Success`, appends the
function at the end of the vector, and returns as the new address the number
of functions held before the call narrowed to 32 bits; that is the number
itself whenever fewer than `2 ^ 32` functions are held.  In a sequence of
insertions without reset that ends with at most `2 ^ 32` functions held, the
returned addresses are the successive indices from the number held at the
start (0, 1, 2, ... from a fresh manager) and no address is returned twice. -/
theorem insertHostFunction_returns_next_index (M : HostFunctionManager F) (Func : F) :
    (M.insertHostFunction Func).1 = ErrCode.Success ∧
    (M.insertHostFunction Func).2.1 = M.HostFuncs.length % 2 ^ 32 ∧
    (M.insertHostFunction Func).2.2.HostFuncs = M.HostFuncs ++ [Func] ∧
    (M.HostFuncs.length < 2 ^ 32 →
      (M.insertHostFunction Func).2.1 = M.HostFuncs.length) ∧
    (∀ Funcs : List F, M.HostFuncs.length + Funcs.length ≤ 2 ^ 32 →
      (M.insertAll Funcs).1 = List.range' M.HostFuncs.length Funcs.length ∧
      (M.insertAll Funcs).1.Nodup) ∧
    (∀ Funcs : List F, Funcs.length ≤ 2 ^ 32 →
      ((init : HostFunctionManager F).insertAll Funcs).1 = List.range Funcs.length) := by
  refine ⟨rfl, rfl, rfl, ?_, ?_, ?_⟩
  · intro h
    exact Nat.mod_eq_of_lt h
  · intro Funcs h
    rw [insertAll_of_le M Funcs h]
    exact ⟨rfl, List.nodup_range' _ _⟩
  · intro Funcs h
    have h0 : (init : HostFunctionManager F).HostFuncs.length + Funcs.length ≤ 2 ^ 32 := by
      simpa [init] using h
    rw [insertAll_of_le _ Funcs h0, List.range_eq_range']
    rfl

/-- Witness for C5: three insertions into a fresh manager return the
addresses 0, 1 and 2. -/
theorem insertHostFunction_returns_next_index_witness :
    ((init : HostFunctionManager Nat).insertHostFunction 10).2.1 = 0 ∧
    ((init : HostFunctionManager Nat).insertAll [10, 20, 30]).1 = [0, 1, 2] := by
  have h := insertHostFunction_returns_next_index (init : HostFunctionManager Nat) 10
  refine ⟨h.2.2.2.1 (by simp [init]), ?_⟩
  exact (h.2.2.2.2.1 [10, 20, 30] (by simp [init])).1

/-- C5 as stated fails: a manager that holds `2 ^ 32` functions returns the
address 0, not the number of functions it holds. -/
theorem insertHostFunction_address_wraps :
    Sample.fullManager.HostFuncs.length = 2 ^ 32 ∧
    (Sample.fullManager.insertHostFunction 1).2.1 = 0 ∧
    (Sample.fullManager.insertHostFunction 1).2.1 ≠ Sample.fullManager.HostFuncs.length := by
  refine ⟨Sample.fullManager_length, Sample.fullManager_addr 1, ?_⟩
  rw [Sample.fullManager_addr, Sample.fullManager_length]
  exact (Nat.pos_pow_of_pos 32 (by decide)).ne

/-- C6 (amended). A function `x` inserted while fewer than `2 ^ 32` functions
are held gets the number of functions held as its address, and
`getHostFunction` at that address returns `Success` with `x`, at once and
after any further insertions without reset. -/
theorem getHostFunction_returns_inserted (M : HostFunctionManager F) (x : F)
    (Later : List F) (h : M.HostFuncs.length < 2 ^ 32) :
    (M.insertHostFunction x).2.1 = M.HostFuncs.length ∧
    (M.insertHostFunction x).2.2.getHostFunction (M.insertHostFunction x).2.1 =
      (ErrCode.Success, some x) ∧
    ((M.insertHostFunction x).2.2.insertAll Later).2.getHostFunction
        (M.insertHostFunction x).2.1 = (ErrCode.Success, some x) := by
  have haddr : (M.insertHostFunction x).2.1 = M.HostFuncs.length := Nat.mod_eq_of_lt h
  refine ⟨haddr, ?_, ?_⟩
  · apply getHostFunction_of_lt
    rw [haddr, insertHostFunction_funcs, List.getElem?_append_right (Nat.le_refl _),
      Nat.sub_self]
    rfl
  · apply getHostFunction_of_lt
    rw [haddr, (insertAll_eq _ Later).2, insertHostFunction_funcs, List.append_assoc,
      List.getElem?_append_right (Nat.le_refl _), Nat.sub_self]
    simp

/-- Witness for C6: the function 30 inserted after 10 and 20 is found at its
address after 40 and 50 have been inserted as well. -/
theorem getHostFunction_returns_inserted_witness :
    ((({ HostFuncs := [10, 20] } : HostFunctionManager Nat).insertHostFunction 30).2.2.insertAll
        [40, 50]).2.getHostFunction 2 = (ErrCode.Success, some 30) :=
  (getHostFunction_returns_inserted ({ HostFuncs := [10, 20] } : HostFunctionManager Nat)
    30 [40, 50] (by simp)).2.2

/-- C6 as stated fails: the function 1 inserted into a manager that holds
`2 ^ 32` functions `0` is given address 0, and `getHostFunction(0)` returns
the function `0` that was stored there before. -/
theorem getHostFunction_after_wrapped_insert :
    (Sample.fullManager.insertHostFunction 1).2.2.getHostFunction
        (Sample.fullManager.insertHostFunction 1).2.1 = (ErrCode.Success, some 0) ∧
    (Sample.fullManager.insertHostFunction 1).2.2.getHostFunction
        (Sample.fullManager.insertHostFunction 1).2.1 ≠ (ErrCode.Success, some 1) := by
  have hpos : 0 < 2 ^ 32 := Nat.pos_pow_of_pos 32 (by decide)
  have hget : (Sample.fullManager.insertHostFunction 1).2.2.getHostFunction
      (Sample.fullManager.insertHostFunction 1).2.1 = (ErrCode.Success, some 0) := by
    apply getHostFunction_of_lt
    rw [Sample.fullManager_addr, insertHostFunction_funcs, Sample.fullManager_funcs,
      List.getElem?_append_left (by rw [List.length_replicate]; exact hpos),
      List.getElem?_replicate, if_pos hpos]
  refine ⟨hget, ?_⟩
  rw [hget]
  intro hEq
  cases hEq

/-- C7. `reset` returns `Success`, and after it `getHostFunction` returns
`WrongInstanceAddress` and writes no function for every address, whatever the
manager held before; after one new insertion address 0 is valid again. -/
theorem reset_invalidates_every_address (M : HostFunctionManager F) (Addr : Nat) :
    M.reset.1 = ErrCode.Success ∧
    M.reset.2.getHostFunction Addr = (ErrCode.WrongInstanceAddress, none) ∧
    ∀ Func : F,
      (M.reset.2.insertHostFunction Func).2.2.getHostFunction
          (M.reset.2.insertHostFunction Func).2.1 = (ErrCode.Success, some Func) := by
  refine ⟨rfl, ?_, ?_⟩
  · exact getHostFunction_of_le _ _ (by simp [reset])
  · intro Func
    exact getHostFunction_of_lt _ _ _ (by simp [reset, insertHostFunction])

end Manager

section Stage

open ExpVM

variable {Module Store Interp : Type}

/-- C8, the code at the failing input.  `instantiate` called in stage Inited
or Loaded returns the error `ValidationFailed` (not `WrongVMWorkflow`); the VM,
its stage included, is left as it was, whatever `instantiateModule` is. -/
theorem instantiate_before_validated_returns_ValidationFailed
    (instantiateModule : InstantiateModule Module Store Interp)
    (Mod : Option Module) (St : Store) (Me : Measure) (En : Interp) :
    VM.instantiate instantiateModule
        { Stage := VMStage.Inited, Mod := Mod, StoreRef := St, Measure := Me,
          InterpreterEngine := En } =
      some (Except.error ErrCode.ValidationFailed,
        { Stage := VMStage.Inited, Mod := Mod, StoreRef := St, Measure := Me,
          InterpreterEngine := En }) ∧
    VM.instantiate instantiateModule
        { Stage := VMStage.Loaded, Mod := Mod, StoreRef := St, Measure := Me,
          InterpreterEngine := En } =
      some (Except.error ErrCode.ValidationFailed,
        { Stage := VMStage.Loaded, Mod := Mod, StoreRef := St, Measure := Me,
          InterpreterEngine := En }) := by
  constructor <;> rfl

/-- C9. `validate` called in a stage earlier than Loaded, which is the stage
Inited, returns the error `WrongVMWorkflow` and leaves the VM, its stage
included, as it was, whatever the validator is (it is not called). -/
theorem validate_before_loaded_returns_WrongVMWorkflow
    (validator : Module → Expect Unit) (V : VM Module Store Interp)
    (h : V.Stage < VMStage.Loaded) :
    V.Stage = VMStage.Inited ∧
    VM.validate validator V = some (Except.error ErrCode.WrongVMWorkflow, V) := by
  constructor
  · cases hS : V.Stage <;> rw [hS] at h <;>
      first
      | rfl
      | exact absurd h (by decide)
  · simp [VM.validate, h]

/-- Witness for C9: the sample VM in stage Inited. -/
theorem validate_before_loaded_returns_WrongVMWorkflow_witness :
    VM.validate (fun _ => Except.ok ()) (Sample.vmAt VMStage.Inited) =
      some (Except.error ErrCode.WrongVMWorkflow, Sample.vmAt VMStage.Inited) :=
  (validate_before_loaded_returns_WrongVMWorkflow (fun _ => Except.ok ())
    (Sample.vmAt VMStage.Inited) (by decide)).2

/-- C10 as stated fails: in stage Inited, earlier than Instantiated, `execute`
on a VM whose interpreter answers the call returns that answer, not the error
`WrongVMWorkflow`. -/
theorem execute_before_instantiated_returns_values :
    (Sample.vmAt VMStage.Inited).Stage < VMStage.Instantiated ∧
    (VM.execute Sample.invokeSeven (Sample.vmAt VMStage.Inited) "f" []).1 =
      Except.ok [ValVariant.I32 7] ∧
    (VM.execute Sample.invokeSeven (Sample.vmAt VMStage.Inited) "f" []).1 ≠
      Except.error ErrCode.WrongVMWorkflow := by
  refine ⟨by decide, rfl, ?_⟩
  intro h
  cases h

/-- C10 (amended). `execute` checks no stage: in every stage its result is
the result of the interpreter's `invoke` on the store, the function name and
the arguments, so it is `WrongVMWorkflow` exactly when `invoke` reports that;
the result is the same in every stage, and stage and loaded module are left
as they were. -/
theorem execute_returns_invoke_result (invoke : Invoke Store Interp)
    (V : VM Module Store Interp) (Func : String) (Params : List ValVariant) :
    (VM.execute invoke V Func Params).1 =
      (invoke Func Params V.StoreRef V.Measure V.InterpreterEngine).1 ∧
    ((VM.execute invoke V Func Params).1 = Except.error ErrCode.WrongVMWorkflow ↔
      (invoke Func Params V.StoreRef V.Measure V.InterpreterEngine).1 =
        Except.error ErrCode.WrongVMWorkflow) ∧
    (∀ Stage : VMStage,
      (VM.execute invoke { V with Stage := Stage } Func Params).1 =
        (VM.execute invoke V Func Params).1) ∧
    (VM.execute invoke V Func Params).2.Stage = V.Stage ∧
    (VM.execute invoke V Func Params).2.Mod = V.Mod := by
  refine ⟨rfl, Iff.rfl, ?_, rfl, rfl⟩
  intro Stage
  rfl

end Stage

section StageMachine

open ExpVM

variable {Module Store Interp : Type}

/-- C11. `loadWasm` sets the stage to Loaded (and the module to the loaded
one) when the loader succeeds, and returns the loader's error with the VM
unchanged when it fails.  `validate` in a stage not earlier than Loaded sets
the stage to Validated when the validator accepts the loaded module, and
returns the validator's error with the VM unchanged when it does not.
`instantiate` in a stage not earlier than Validated sets the stage to
Instantiated when the interpreter's `instantiateModule` succeeds, and returns
its error with stage and loaded module unchanged when it fails. -/
theorem load_validate_instantiate_set_stage {Src : Type}
    (parseModule : Src → Expect Module) (validator : Module → Expect Unit)
    (instantiateModule : InstantiateModule Module Store Interp)
    (V : VM Module Store Interp) :
    (∀ (Source : Src) (M : Module), parseModule Source = Except.ok M →
      VM.loadWasm parseModule V Source =
        (Except.ok (), { V with Mod := some M, Stage := VMStage.Loaded })) ∧
    (∀ (Source : Src) (Code : ErrCode), parseModule Source = Except.error Code →
      VM.loadWasm parseModule V Source = (Except.error Code, V)) ∧
    (∀ M : Module, ¬ V.Stage < VMStage.Loaded → V.Mod = some M →
      validator M = Except.ok () →
      VM.validate validator V =
        some (Except.ok (), { V with Stage := VMStage.Validated })) ∧
    (∀ (M : Module) (Code : ErrCode), ¬ V.Stage < VMStage.Loaded → V.Mod = some M →
      validator M = Except.error Code →
      VM.validate validator V = some (Except.error Code, V)) ∧
    (∀ M : Module, ¬ V.Stage < VMStage.Validated → V.Mod = some M →
      (instantiateModule M "" V.StoreRef V.Measure V.InterpreterEngine).1 = Except.ok () →
      ∃ V1 : VM Module Store Interp,
        VM.instantiate instantiateModule V = some (Except.ok (), V1) ∧
        V1.Stage = VMStage.Instantiated ∧ V1.Mod = V.Mod) ∧
    (∀ (M : Module) (Code : ErrCode), ¬ V.Stage < VMStage.Validated → V.Mod = some M →
      (instantiateModule M "" V.StoreRef V.Measure V.InterpreterEngine).1 =
        Except.error Code →
      ∃ V1 : VM Module Store Interp,
        VM.instantiate instantiateModule V = some (Except.error Code, V1) ∧
        V1.Stage = V.Stage ∧ V1.Mod = V.Mod) := by
  refine ⟨?_, ?_, ?_, ?_, ?_, ?_⟩
  · intro Source M h
    simp [VM.loadWasm, h]
  · intro Source Code h
    simp [VM.loadWasm, h]
  · intro M hS hM hV
    simp [VM.validate, hS, hM, hV]
  · intro M Code hS hM hV
    simp [VM.validate, hS, hM, hV]
  · intro M hS hM hI
    refine ⟨{ V with
        StoreRef := (instantiateModule M "" V.StoreRef V.Measure V.InterpreterEngine).2.1
        Measure := (instantiateModule M "" V.StoreRef V.Measure V.InterpreterEngine).2.2.1
        InterpreterEngine :=
          (instantiateModule M "" V.StoreRef V.Measure V.InterpreterEngine).2.2.2
        Stage := VMStage.Instantiated }, ?_, rfl, rfl⟩
    simp [VM.instantiate, hS, hM, hI]
  · intro M Code hS hM hI
    refine ⟨{ V with
        StoreRef := (instantiateModule M "" V.StoreRef V.Measure V.InterpreterEngine).2.1
        Measure := (instantiateModule M "" V.StoreRef V.Measure V.InterpreterEngine).2.2.1
        InterpreterEngine :=
          (instantiateModule M "" V.StoreRef V.Measure V.InterpreterEngine).2.2.2 },
      ?_, rfl, rfl⟩
    simp [VM.instantiate, hS, hM, hI]

/-- Witness for C11: the sample loader, validator and interpreter on sample
VMs, once succeeding and once failing for each of the three operations. -/
theorem load_validate_instantiate_set_stage_witness :
    (VM.loadWasm Sample.parseOne (Sample.vmWith VMStage.Inited) 1).2.Stage =
      VMStage.Loaded ∧
    VM.loadWasm Sample.parseOne (Sample.vmWith VMStage.Validated) 2 =
      (Except.error ErrCode.ExecutionFailed, Sample.vmWith VMStage.Validated) ∧
    VM.validate Sample.validFive (Sample.vmWith VMStage.Loaded) =
      some (Except.ok (), Sample.vmWith VMStage.Validated) ∧
    VM.validate (fun _ => Except.error ErrCode.ValidationFailed)
        (Sample.vmWith VMStage.Loaded) =
      some (Except.error ErrCode.ValidationFailed, Sample.vmWith VMStage.Loaded) ∧
    (VM.instantiate Sample.instantiateFive (Sample.vmWith VMStage.Validated)).map
        (fun R => (R.1, R.2.Stage)) = some (Except.ok (), VMStage.Instantiated) ∧
    (VM.instantiate (fun _ _ St Me En => (Except.error ErrCode.InstantiateFailed, St, Me, En))
        (Sample.vmWith VMStage.Validated)).map (fun R => (R.1, R.2.Stage)) =
      some (Except.error ErrCode.InstantiateFailed, VMStage.Validated) := by
  refine ⟨?_, ?_, ?_, ?_, ?_, ?_⟩
  · exact congrArg (fun R => R.2.Stage)
      ((load_validate_instantiate_set_stage Sample.parseOne Sample.validFive
        Sample.instantiateFive (Sample.vmWith VMStage.Inited)).1 1 8 rfl)
  · exact (load_validate_instantiate_set_stage Sample.parseOne Sample.validFive
      Sample.instantiateFive (Sample.vmWith VMStage.Validated)).2.1 2
      ErrCode.ExecutionFailed rfl
  · exact (load_validate_instantiate_set_stage Sample.parseOne Sample.validFive
      Sample.instantiateFive (Sample.vmWith VMStage.Loaded)).2.2.1 5 (by decide) rfl rfl
  · exact (load_validate_instantiate_set_stage Sample.parseOne
      (fun _ => Except.error ErrCode.ValidationFailed)
      Sample.instantiateFive (Sample.vmWith VMStage.Loaded)).2.2.2.1 5
      ErrCode.ValidationFailed (by decide) rfl rfl
  · obtain ⟨V1, h1, h2, _⟩ :=
      (load_validate_instantiate_set_stage Sample.parseOne Sample.validFive
        Sample.instantiateFive (Sample.vmWith VMStage.Validated)).2.2.2.2.1 5
        (by decide) rfl rfl
    rw [h1]
    simp [h2]
  · obtain ⟨V1, h1, h2, _⟩ :=
      (load_validate_instantiate_set_stage Sample.parseOne Sample.validFive
        (fun _ _ St Me En => (Except.error ErrCode.InstantiateFailed, St, Me, En))
        (Sample.vmWith VMStage.Validated)).2.2.2.2.2 5 ErrCode.InstantiateFailed
        (by decide) rfl rfl
    rw [h1]
    simp [h2]
    rfl

/-- C12. Each `registerModule` overload that takes a path, a byte code or
an import object returns with the stage Validated when it was called in stage
Instantiated, and with the stage it was called in otherwise, whatever the
loader, the validator and the interpreter do and return. -/
theorem registerModule_stage {Src ImportObject : Type}
    (parseModule : Src → Expect Module) (validator : Module → Expect Unit)
    (registerModule : RegisterModule Module Store Interp)
    (registerImport : RegisterImport ImportObject Store Interp)
    (V : VM Module Store Interp) (Name : String) (Source : Src) (Obj : ImportObject) :
    (VM.registerModule parseModule validator registerModule V Name Source).2.Stage =
      (if V.Stage = VMStage.Instantiated then VMStage.Validated else V.Stage) ∧
    (VM.registerModuleObj registerImport V Obj).2.Stage =
      (if V.Stage = VMStage.Instantiated then VMStage.Validated else V.Stage) := by
  constructor
  · unfold VM.registerModule VM.registerModuleAST
    cases hP : parseModule Source with
    | error Code => by_cases h : V.Stage = VMStage.Instantiated <;> simp [h]
    | ok M =>
      cases hV : validator M with
      | error Code => by_cases h : V.Stage = VMStage.Instantiated <;> simp [h, hV]
      | ok U => by_cases h : V.Stage = VMStage.Instantiated <;> simp [h, hV]
  · unfold VM.registerModuleObj
    by_cases h : V.Stage = VMStage.Instantiated <;> simp [h]

/-- C13. From every VM state `cleanup` leaves the stage Inited, no module
loaded, the store as `StoreManager::reset` makes it and the measure as
`Measure::clear` makes it; the interpreter engine is not touched. -/
theorem cleanup_resets_all (storeReset : Store → Store)
    (measureClear : Measure → Measure) (V : VM Module Store Interp) :
    (VM.cleanup storeReset measureClear V).Stage = VMStage.Inited ∧
    (VM.cleanup storeReset measureClear V).Mod = none ∧
    (VM.cleanup storeReset measureClear V).StoreRef = storeReset V.StoreRef ∧
    (VM.cleanup storeReset measureClear V).Measure = measureClear V.Measure ∧
    (VM.cleanup storeReset measureClear V).InterpreterEngine = V.InterpreterEngine :=
  ⟨rfl, rfl, rfl, rfl, rfl⟩

end StageMachine

section Entry

variable {Stack Store Instr : Type}

theorem Interpreter.iterate_push_eq_foldl (SM : StackManagerOps Stack Instr)
    (Val : ValVariant) (N : Nat) (S : Stack) :
    Nat.iterate (SM.push Val) N S =
      (List.replicate N Val).foldl (fun St V => SM.push V St) S := by
  induction N generalizing S with
  | zero => rfl
  | succ N ih => simp [Function.iterate_succ, List.replicate_succ, ih]

theorem Interpreter.pushLocals_eq_foldl (SM : StackManagerOps Stack Instr)
    (Locals : List (Nat × ValType)) (S : Stack) :
    Interpreter.pushLocals SM Locals S =
      (zeroLocals Locals).foldl (fun St V => SM.push V St) S := by
  induction Locals generalizing S with
  | nil => rfl
  | cons Def Locals ih =>
    simp only [Interpreter.pushLocals, List.foldl_cons, zeroLocals, List.flatMap_cons,
      List.foldl_append] at ih ⊢
    rw [Interpreter.iterate_push_eq_foldl, ih]

theorem zeroLocals_length (Locals : List (Nat × ValType)) :
    (zeroLocals Locals).length = (Locals.map Prod.fst).sum := by
  induction Locals with
  | nil => rfl
  | cons Def Locals ih =>
    simp only [zeroLocals, List.flatMap_cons, List.length_append, List.length_replicate,
      List.map_cons, List.sum_cons] at ih ⊢
    rw [ih]

theorem StackManager.foldl_push_entries (Vals : List ValVariant) (S : StackManager Instr) :
    (Vals.foldl (fun St V => (StackManager.ops : StackManagerOps _ Instr).push V St) S).Entries =
      Vals.reverse.map StackEntry.Value ++ S.Entries := by
  induction Vals generalizing S with
  | nil => rfl
  | cons V Vals ih =>
    simp only [List.foldl_cons, ih, List.reverse_cons, List.map_append, List.map_cons,
      List.map_nil, List.append_assoc]
    rfl

/-- C16. Entering a native function returns success; the stack manager sees,
in this order, `pushFrame` with the module address, the number of parameters
and the number of results, one `push` per zero value of the declared locals
in declaration order (their number is the sum of the declared counts), and
`pushLabel` with the number of results and no target; the instruction
provider gets an empty FunctionCall scope and on top of it a Block scope
holding the function body, which is thereby the current sequence.  On the
modelled stack the new entries are, from the top, the label, the zero values
(last declared on top) and the frame. -/
theorem enterFunction_native_pushes_frame_locals_label
    (SM : StackManagerOps Stack Instr) (FuncType : FType) (ModuleAddr : Nat)
    (Locals : List (Nat × ValType)) (Instrs : List Instr)
    (E : Interpreter Stack Store Instr) (E0 : Interpreter (StackManager Instr) Store Instr) :
    Interpreter.enterFunction SM
        (FunctionInstance.Native FuncType ModuleAddr Locals Instrs) E =
      (Except.ok (),
        { E with
          StackMgr := SM.pushLabel FuncType.Returns.length none
            ((zeroLocals Locals).foldl (fun St V => SM.push V St)
              (SM.pushFrame ModuleAddr FuncType.Params.length FuncType.Returns.length
                E.StackMgr))
          InstrPdr :=
            { Iters := { Tag := SeqType.Block, Instrs := Instrs } ::
                { Tag := SeqType.FunctionCall, Instrs := [] } :: E.InstrPdr.Iters } }) ∧
    (zeroLocals Locals).length = (Locals.map Prod.fst).sum ∧
    (Interpreter.enterFunction StackManager.ops
        (FunctionInstance.Native FuncType ModuleAddr Locals Instrs) E0).2.StackMgr.Entries =
      StackEntry.Label { Arity := FuncType.Returns.length, Target := none } ::
        ((zeroLocals Locals).reverse.map StackEntry.Value ++
          StackEntry.Frame ModuleAddr FuncType.Params.length FuncType.Returns.length ::
            E0.StackMgr.Entries) := by
  refine ⟨?_, zeroLocals_length Locals, ?_⟩
  · simp only [Interpreter.enterFunction, Interpreter.enterBlock,
      Interpreter.pushLocals_eq_foldl]
    rfl
  · simp only [Interpreter.enterFunction, Interpreter.enterBlock,
      Interpreter.pushLocals_eq_foldl]
    show StackEntry.Label _ :: _ = _
    rw [StackManager.foldl_push_entries]
    rfl

/-- C17. Entering a host function whose charge is accepted (no measure
attached, or the declared cost fits the limit): the result is success if and
only if the callable reports `Success`, and otherwise the error is exactly
the status the callable reported; the instruction provider is as before and
the stack is the one the callable left, for every stack manager (the engine
calls none of its operations, so it pushes no frame and no label). -/
theorem enterFunction_host_returns_callable_status
    (SM : StackManagerOps Stack Instr) (FuncType : FType)
    (HostFunc : HostFunctionBase Stack Store) (E : Interpreter Stack Store Instr)
    (hAcc : ∀ M : Measure, E.Measure = some M → M.CostSum + HostFunc.Cost ≤ M.CostLimit) :
    ((Interpreter.enterFunction SM (FunctionInstance.Host FuncType HostFunc) E).1 =
        Except.ok () ↔
      (HostFunc.run E.StackMgr E.StoreMgr
        (E.Measure.map
          (fun M => { M with CostSum := M.CostSum + HostFunc.Cost }))).1 =
        ErrCode.Success) ∧
    ((HostFunc.run E.StackMgr E.StoreMgr
        (E.Measure.map
          (fun M => { M with CostSum := M.CostSum + HostFunc.Cost }))).1 ≠
        ErrCode.Success →
      (Interpreter.enterFunction SM (FunctionInstance.Host FuncType HostFunc) E).1 =
        Except.error
          (HostFunc.run E.StackMgr E.StoreMgr
            (E.Measure.map
              (fun M => { M with CostSum := M.CostSum + HostFunc.Cost }))).1) ∧
    (Interpreter.enterFunction SM (FunctionInstance.Host FuncType HostFunc) E).2.InstrPdr =
      E.InstrPdr ∧
    (Interpreter.enterFunction SM (FunctionInstance.Host FuncType HostFunc) E).2.StackMgr =
      (HostFunc.run E.StackMgr E.StoreMgr
        (E.Measure.map
          (fun M => { M with CostSum := M.CostSum + HostFunc.Cost }))).2.1 ∧
    ∀ SM1 : StackManagerOps Stack Instr,
      Interpreter.enterFunction SM1 (FunctionInstance.Host FuncType HostFunc) E =
        Interpreter.enterFunction SM (FunctionInstance.Host FuncType HostFunc) E := by
  have hEq : Interpreter.enterFunction SM (FunctionInstance.Host FuncType HostFunc) E =
      (statusToExpect
          (HostFunc.run E.StackMgr E.StoreMgr
            (E.Measure.map
              (fun M => { M with CostSum := M.CostSum + HostFunc.Cost }))).1,
        { E with
          StackMgr := (HostFunc.run E.StackMgr E.StoreMgr
            (E.Measure.map
              (fun M => { M with CostSum := M.CostSum + HostFunc.Cost }))).2.1
          StoreMgr := (HostFunc.run E.StackMgr E.StoreMgr
            (E.Measure.map
              (fun M => { M with CostSum := M.CostSum + HostFunc.Cost }))).2.2.1
          Measure := (HostFunc.run E.StackMgr E.StoreMgr
            (E.Measure.map
              (fun M => { M with CostSum := M.CostSum + HostFunc.Cost }))).2.2.2 }) := by
    cases hM : E.Measure with
    | none => simp [Interpreter.enterFunction, Interpreter.runHostFunc, hM]
    | some M =>
      have hnot : ¬ M.CostLimit < M.CostSum + HostFunc.Cost := by
        have := hAcc M hM
        omega
      simp [Interpreter.enterFunction, Interpreter.runHostFunc, hM, Measure.addCost, hnot]
  refine ⟨?_, ?_, ?_, ?_, ?_⟩
  · rw [hEq]
    simp only [statusToExpect]
    split <;> simp_all
  · intro hne
    rw [hEq]
    simp [statusToExpect, hne]
  · rw [hEq]
  · rw [hEq]
  · intro SM1
    rfl

/-- Witness for C17: the sample host function of cost 1000 at limit 1500 and
sum 0 is entered, reports success, and the result is success; the sample host
function that reports `Revert` gives the error `Revert`. -/
theorem enterFunction_host_returns_callable_status_witness :
    (Interpreter.enterFunction Sample.valueStack
        (FunctionInstance.Host { Params := [], Returns := [] } Sample.costly)
        (Sample.oneNop 1500 0)).1 = Except.ok () ∧
    (Interpreter.enterFunction Sample.valueStack
        (FunctionInstance.Host { Params := [], Returns := [] } Sample.reverting)
        Sample.idle).1 = Except.error ErrCode.Revert :=
  ⟨(enterFunction_host_returns_callable_status Sample.valueStack
      { Params := [], Returns := [] } Sample.costly (Sample.oneNop 1500 0)
      (by
        intro M hM
        cases hM
        decide)).1.mpr rfl,
    (enterFunction_host_returns_callable_status Sample.valueStack
      { Params := [], Returns := [] } Sample.reverting Sample.idle
      (by
        intro M hM
        cases hM)).2.1 (by decide)⟩

end Entry

section Trap

variable {Stack Store Instr : Type}

theorem Interpreter.execute_error_pass (SM : StackManagerOps Stack Instr)
    (getOpCode : Instr → OpCode) (dispatchInstruction : Interpreter.Dispatch Stack Store Instr)
    (Fuel : Nat) (E E1 : Interpreter Stack Store Instr) (Code : ErrCode)
    (h : Interpreter.execute SM getOpCode dispatchInstruction Fuel E =
      some (Except.error Code, E1)) :
    ∃ N : Nat, N < Fuel ∧
      0 < (Interpreter.afterPasses SM getOpCode dispatchInstruction N E).InstrPdr.getScopeSize ∧
      Interpreter.executeStep SM getOpCode dispatchInstruction
          (Interpreter.afterPasses SM getOpCode dispatchInstruction N E) =
        (Except.error Code, E1) := by
  induction Fuel generalizing E with
  | zero => simp [Interpreter.execute] at h
  | succ Fuel ih =>
    unfold Interpreter.execute at h
    by_cases hS : 0 < E.InstrPdr.getScopeSize
    · rw [if_pos hS] at h
      cases hStep : Interpreter.executeStep SM getOpCode dispatchInstruction E with
      | mk R E2 =>
        cases R with
        | ok U =>
          rw [hStep] at h
          obtain ⟨N, hN, hSize, hErr⟩ := ih E2 h
          refine ⟨N + 1, by omega, ?_, ?_⟩
          · simpa [Interpreter.afterPasses, hS, hStep] using hSize
          · simpa [Interpreter.afterPasses, hS, hStep] using hErr
        | error C =>
          rw [hStep] at h
          simp only [Option.some.injEq, Prod.mk.injEq, Except.error.injEq] at h
          obtain ⟨rfl, rfl⟩ := h
          exact ⟨0, by omega, hS, hStep⟩
    · rw [if_neg hS] at h
      simp at h

/-- C14 (amended). When `runFunction` returns an error, the engine, its stack
included, is in the state in which the error arose: either `enterFunction`
returned that error in that state, or the function was entered and a pass of
the run loop returned that error (which is then not `Terminated`) in that
state.  `runFunction` and the run loop do nothing to the stack after the
failing step. -/
theorem runFunction_error_keeps_failing_state
    (SM : StackManagerOps Stack Instr) (getOpCode : Instr → OpCode)
    (dispatchInstruction : Interpreter.Dispatch Stack Store Instr) (Fuel : Nat)
    (Func : FunctionInstance Stack Store Instr) (E E1 : Interpreter Stack Store Instr)
    (Code : ErrCode)
    (h : Interpreter.runFunction SM getOpCode dispatchInstruction Fuel Func E =
      some (Except.error Code, E1)) :
    Interpreter.enterFunction SM Func E = (Except.error Code, E1) ∨
    (Code ≠ ErrCode.Terminated ∧
      ∃ (E0 : Interpreter Stack Store Instr) (N : Nat),
        Interpreter.enterFunction SM Func E = (Except.ok (), E0) ∧
        Interpreter.execute SM getOpCode dispatchInstruction Fuel E0 =
          some (Except.error Code, E1) ∧
        Interpreter.executeStep SM getOpCode dispatchInstruction
            (Interpreter.afterPasses SM getOpCode dispatchInstruction N E0) =
          (Except.error Code, E1)) := by
  unfold Interpreter.runFunction at h
  cases hEnter : Interpreter.enterFunction SM Func E with
  | mk R E0 =>
    cases R with
    | error C =>
      rw [hEnter] at h
      simp only [Option.some.injEq, Prod.mk.injEq, Except.error.injEq] at h
      obtain ⟨rfl, rfl⟩ := h
      exact Or.inl rfl
    | ok U =>
      rw [hEnter] at h
      cases hLoop : Interpreter.execute SM getOpCode dispatchInstruction Fuel E0 with
      | none => simp [hLoop] at h
      | some Res =>
        obtain ⟨R2, E2⟩ := Res
        cases R2 with
        | ok U2 => simp [hLoop] at h
        | error C =>
          simp only [hLoop] at h
          by_cases hT : C = ErrCode.Terminated
          · simp [hT] at h
          · simp only [hT, if_false, Option.some.injEq, Prod.mk.injEq,
              Except.error.injEq] at h
            obtain ⟨rfl, rfl⟩ := h
            obtain ⟨N, _, _, hErr⟩ :=
              Interpreter.execute_error_pass SM getOpCode dispatchInstruction Fuel E0 E2 C
                hLoop
            exact Or.inr ⟨hT, E0, N, rfl, hLoop, hErr⟩

/-- C14 as stated fails: `runFunction` on a native function whose body is
`unreachable`, started on an empty stack, returns the error `Unreachable`,
and the stack then still holds the label and the frame that `enterFunction`
pushed. -/
theorem runFunction_trap_leaves_frame_and_label :
    Interpreter.runFunction StackManager.ops id Sample.controlOnly 1 Sample.trapBody
        Sample.bare =
      some (Except.error ErrCode.Unreachable,
        { StackMgr :=
            { Entries := [StackEntry.Label { Arity := 0, Target := none },
                StackEntry.Frame 0 0 0] }
          InstrPdr :=
            { Iters := [{ Tag := SeqType.Block, Instrs := [] },
                { Tag := SeqType.FunctionCall, Instrs := [] }] }
          Measure := none
          StoreMgr := () }) ∧
    ([StackEntry.Label { Arity := 0, Target := none }, StackEntry.Frame 0 0 0] :
      List (StackEntry OpCode)) ≠ [] := by
  constructor
  · rfl
  · intro h
    cases h

/-- Witness for C14: the sample run that traps on `unreachable` entered the
function and failed in the first pass of the run loop. -/
theorem runFunction_error_keeps_failing_state_witness :
    Interpreter.enterFunction StackManager.ops Sample.trapBody Sample.bare =
        (Except.error ErrCode.Unreachable,
          { StackMgr :=
              { Entries := [StackEntry.Label { Arity := 0, Target := none },
                  StackEntry.Frame 0 0 0] }
            InstrPdr :=
              { Iters := [{ Tag := SeqType.Block, Instrs := [] },
                  { Tag := SeqType.FunctionCall, Instrs := [] }] }
            Measure := none
            StoreMgr := () }) ∨
      ErrCode.Unreachable ≠ ErrCode.Terminated := by
  rcases runFunction_error_keeps_failing_state StackManager.ops id Sample.controlOnly 1
      Sample.trapBody Sample.bare _ ErrCode.Unreachable rfl with h | h
  · exact Or.inl h
  · exact Or.inr h.1

end Trap

section CopyCost

open Executor

theorem Executor.EEI.ceilDiv32_is_ceil (Length : Nat) :
    Length ≤ 32 * EEI.ceilDiv32 Length ∧ 32 * EEI.ceilDiv32 Length < Length + 32 := by
  unfold EEI.ceilDiv32
  omega

theorem Executor.EEI.copyTakeGas_of_no_wrap (Length : Nat) (h : Length + 31 < 2 ^ 64) :
    EEI.copyTakeGas Length = 3 * EEI.ceilDiv32 Length := by
  unfold EEI.copyTakeGas EEI.ceilDiv32
  rw [Nat.mod_eq_of_lt h]
  apply Nat.mod_eq_of_lt
  omega

/-- C20, the code at the failing input.  For the 64-bit length `2 ^ 64 - 1`
the sum `Length + 31` wraps to 30, so `addCopyCost` asks the environment
manager to charge 0, whereas 3 * ceil(Length / 32) is `3 * 2 ^ 59`; the same
happens for every length within 31 of `2 ^ 64`. -/
theorem addCopyCost_wraps_near_max :
    EEI.copyTakeGas (2 ^ 64 - 1) = 0 ∧
    3 * EEI.ceilDiv32 (2 ^ 64 - 1) = 3 * 2 ^ 59 ∧
    EEI.addCopyCost Sample.recordCost [] (2 ^ 64 - 1) = (ErrCode.Success, [0]) ∧
    EEI.copyTakeGas (2 ^ 64 - 31) = 0 ∧
    EEI.copyTakeGas (2 ^ 64 - 32) = 3 * EEI.ceilDiv32 (2 ^ 64 - 32) := by
  refine ⟨by decide, by decide, ?_, by decide, by decide⟩
  simp only [EEI.addCopyCost, Sample.recordCost]
  have h : EEI.copyTakeGas (2 ^ 64 - 1) = 0 := by decide
  rw [h]
  rfl

end CopyCost

section Branch

variable {Stack Store Instr : Type}

theorem StackEntry.countLabels_of_values (Xs : List (StackEntry Instr))
    (h : ∀ X ∈ Xs, X.isValue = true) : StackEntry.countLabels Xs = 0 := by
  induction Xs with
  | nil => rfl
  | cons X Xs ih =>
    have hX := h X (List.mem_cons_self _ _)
    have hXs := ih (fun Y hY => h Y (List.mem_cons_of_mem _ hY))
    cases X <;> simp_all [StackEntry.countLabels, StackEntry.isValue, StackEntry.isLabel]

theorem StackEntry.splitAtLabel_some (Es : List (StackEntry Instr)) :
    ∀ (N : Nat) (A : List (StackEntry Instr)) (L : SSVM.Label Instr)
      (B : List (StackEntry Instr)),
      StackEntry.splitAtLabel N Es = some (A, L, B) →
        Es = A ++ StackEntry.Label L :: B ∧ StackEntry.countLabels A = N := by
  induction Es with
  | nil =>
    intro N A L B h
    simp [StackEntry.splitAtLabel] at h
  | cons X Es ih =>
    intro N A L B h
    cases X with
    | Value Val =>
      simp only [StackEntry.splitAtLabel, Option.map_eq_some'] at h
      obtain ⟨⟨A1, L1, B1⟩, hR, hEq⟩ := h
      simp only [Prod.mk.injEq] at hEq
      obtain ⟨rfl, rfl, rfl⟩ := hEq
      obtain ⟨h1, h2⟩ := ih N A1 L1 B1 hR
      refine ⟨by simp [h1], ?_⟩
      simpa [StackEntry.countLabels, StackEntry.isLabel] using h2
    | Frame M Ar Co =>
      simp only [StackEntry.splitAtLabel, Option.map_eq_some'] at h
      obtain ⟨⟨A1, L1, B1⟩, hR, hEq⟩ := h
      simp only [Prod.mk.injEq] at hEq
      obtain ⟨rfl, rfl, rfl⟩ := hEq
      obtain ⟨h1, h2⟩ := ih N A1 L1 B1 hR
      refine ⟨by simp [h1], ?_⟩
      simpa [StackEntry.countLabels, StackEntry.isLabel] using h2
    | Label L0 =>
      cases N with
      | zero =>
        simp only [StackEntry.splitAtLabel, Option.some.injEq, Prod.mk.injEq] at h
        obtain ⟨rfl, rfl, rfl⟩ := h
        exact ⟨rfl, rfl⟩
      | succ N =>
        simp only [StackEntry.splitAtLabel, Option.map_eq_some'] at h
        obtain ⟨⟨A1, L1, B1⟩, hR, hEq⟩ := h
        simp only [Prod.mk.injEq] at hEq
        obtain ⟨rfl, rfl, rfl⟩ := hEq
        obtain ⟨h1, h2⟩ := ih N A1 L1 B1 hR
        refine ⟨by simp [h1], ?_⟩
        simp only [StackEntry.countLabels, List.filter_cons, StackEntry.isLabel, if_true,
          List.length_cons] at h2 ⊢
        omega

theorem StackEntry.splitAtLabel_isSome (Es : List (StackEntry Instr)) :
    ∀ N : Nat, N < StackEntry.countLabels Es →
      ∃ R, StackEntry.splitAtLabel N Es = some R := by
  induction Es with
  | nil =>
    intro N h
    simp [StackEntry.countLabels] at h
  | cons X Es ih =>
    intro N h
    cases X with
    | Value Val =>
      have h1 : N < StackEntry.countLabels Es := by
        simpa [StackEntry.countLabels, StackEntry.isLabel] using h
      obtain ⟨R, hR⟩ := ih N h1
      simp [StackEntry.splitAtLabel, hR]
    | Frame M Ar Co =>
      have h1 : N < StackEntry.countLabels Es := by
        simpa [StackEntry.countLabels, StackEntry.isLabel] using h
      obtain ⟨R, hR⟩ := ih N h1
      simp [StackEntry.splitAtLabel, hR]
    | Label L0 =>
      cases N with
      | zero => simp [StackEntry.splitAtLabel]
      | succ N =>
        have h1 : N < StackEntry.countLabels Es := by
          simp only [StackEntry.countLabels, List.filter_cons, StackEntry.isLabel, if_true,
            List.length_cons] at h ⊢
          omega
        obtain ⟨R, hR⟩ := ih N h1
        simp [StackEntry.splitAtLabel, hR]

theorem StackManager.labelsInFrame_le (S : StackManager Instr) :
    S.labelsInFrame ≤ S.labelCount := by
  unfold StackManager.labelsInFrame StackManager.labelCount StackEntry.countLabels
  exact ((List.takeWhile_sublist _).filter _).length_le

theorem InstrProvider.iterate_popInstrs (N : Nat) (P : InstrProvider Instr) :
    Nat.iterate (fun Q => (InstrProvider.popInstrs Q).2) N P =
      { Iters := P.Iters.drop N } := by
  induction N generalizing P with
  | zero => rfl
  | succ N ih =>
    rw [Function.iterate_succ_apply, ih]
    cases hI : P.Iters with
    | nil => simp [InstrProvider.popInstrs, hI]
    | cons X Xs => simp [InstrProvider.popInstrs, hI]

end Branch

section LoopBudget

variable {Stack Store Instr : Type}

theorem Interpreter.execute_fuel_mono (SM : StackManagerOps Stack Instr)
    (getOpCode : Instr → OpCode) (dispatchInstruction : Interpreter.Dispatch Stack Store Instr)
    (N : Nat) (E : Interpreter Stack Store Instr)
    (R : Expect Unit × Interpreter Stack Store Instr)
    (h : Interpreter.execute SM getOpCode dispatchInstruction N E = some R) :
    ∀ Fuel : Nat, N ≤ Fuel →
      Interpreter.execute SM getOpCode dispatchInstruction Fuel E = some R := by
  induction N generalizing E with
  | zero => simp [Interpreter.execute] at h
  | succ N ih =>
    intro Fuel hF
    obtain ⟨K, rfl⟩ : ∃ K, Fuel = K + 1 := ⟨Fuel - 1, by omega⟩
    unfold Interpreter.execute at h ⊢
    by_cases hS : 0 < E.InstrPdr.getScopeSize
    · rw [if_pos hS] at h ⊢
      cases hStep : Interpreter.executeStep SM getOpCode dispatchInstruction E with
      | mk Res E2 =>
        cases Res with
        | ok U =>
          rw [hStep] at h
          exact ih E2 h K (by omega)
        | error C =>
          rw [hStep] at h
          exact h
    · rw [if_neg hS] at h ⊢
      exact h

theorem Interpreter.executeStep_fetch (SM : StackManagerOps Stack Instr)
    (getOpCode : Instr → OpCode) (dispatchInstruction : Interpreter.Dispatch Stack Store Instr)
    (S : Stack) (Tag : SeqType) (I : Instr) (Rest : List Instr)
    (Outer : List (InstrScope Instr)) (M : SSVM.Measure) (St : Store) :
    Interpreter.executeStep SM getOpCode dispatchInstruction
        { StackMgr := S
          InstrPdr := { Iters := { Tag := Tag, Instrs := I :: Rest } :: Outer }
          Measure := some M
          StoreMgr := St } =
      if M.CostLimit < M.CostSum + M.CostTab (getOpCode I) then
        (Except.error ErrCode.CostLimitExceeded,
          { StackMgr := S
            InstrPdr := { Iters := { Tag := Tag, Instrs := Rest } :: Outer }
            Measure := some { M with InstrCnt := M.InstrCnt + 1 }
            StoreMgr := St })
      else
        dispatchInstruction (getOpCode I) I
          { StackMgr := S
            InstrPdr := { Iters := { Tag := Tag, Instrs := Rest } :: Outer }
            Measure := some { M with
              InstrCnt := M.InstrCnt + 1
              CostSum := M.CostSum + M.CostTab (getOpCode I) }
            StoreMgr := St } := by
  by_cases h : M.CostLimit < M.CostSum + M.CostTab (getOpCode I)
  · simp [Interpreter.executeStep, InstrProvider.getNextInstr, Measure.addInstrCost,
      Measure.addCost, Measure.incInstrCnt, h]
  · simp [Interpreter.executeStep, InstrProvider.getNextInstr, Measure.addInstrCost,
      Measure.addCost, Measure.incInstrCnt, h]

theorem Interpreter.LoopBr0.step_br {getOpCode : Instr → OpCode}
    {getResultArity : Instr → Nat} {getBody : Instr → List Instr}
    {getLabelIndex : Instr → Nat}
    {dispatchInstruction : Interpreter.Dispatch (StackManager Instr) Store Instr}
    {runBlockOp runBrIfOp : Interpreter.InstrOp (StackManager Instr) Store Instr}
    {LoopI BrI : Instr}
    (h : Interpreter.LoopBr0 getOpCode getResultArity getBody getLabelIndex
      dispatchInstruction runBlockOp runBrIfOp LoopI BrI)
    (S0 : List (StackEntry Instr)) (Below : List (InstrScope Instr)) (M : SSVM.Measure)
    (St : Store) :
    Interpreter.executeStep StackManager.ops getOpCode dispatchInstruction
        { StackMgr :=
            { Entries := StackEntry.Label
                { Arity := getResultArity LoopI, Target := some LoopI } :: S0 }
          InstrPdr := { Iters := { Tag := SeqType.Block, Instrs := [BrI] } :: Below }
          Measure := some M
          StoreMgr := St } =
      if M.CostLimit < M.CostSum + M.CostTab OpCode.Br then
        (Except.error ErrCode.CostLimitExceeded,
          { StackMgr :=
              { Entries := StackEntry.Label
                  { Arity := getResultArity LoopI, Target := some LoopI } :: S0 }
            InstrPdr := { Iters := { Tag := SeqType.Block, Instrs := [] } :: Below }
            Measure := some { M with InstrCnt := M.InstrCnt + 1 }
            StoreMgr := St })
      else
        (Except.ok (),
          { StackMgr :=
              { Entries := StackEntry.Label
                  { Arity := getResultArity LoopI, Target := some LoopI } :: S0 }
            InstrPdr := { Iters := { Tag := SeqType.Block, Instrs := [BrI] } :: Below }
            Measure := some { M with
              InstrCnt := M.InstrCnt + 1
              CostSum := M.CostSum + M.CostTab OpCode.Br }
            StoreMgr := St }) := by
  rw [Interpreter.executeStep_fetch, h.br_code]
  split
  · rfl
  · rw [h.dispatch_br]
    simp [Interpreter.executeBrControl, Interpreter.runBrOp, Interpreter.branchToLabel,
      h.br_index, StackManager.getLabelWithCount, StackEntry.splitAtLabel,
      StackManager.ops, StackManager.popLabel, InstrProvider.popInstrs,
      Interpreter.runLoopOp, Interpreter.enterBlock, StackManager.pushLabel,
      InstrProvider.pushInstrs, h.loop_body]

theorem Interpreter.LoopBr0.step_loop {getOpCode : Instr → OpCode}
    {getResultArity : Instr → Nat} {getBody : Instr → List Instr}
    {getLabelIndex : Instr → Nat}
    {dispatchInstruction : Interpreter.Dispatch (StackManager Instr) Store Instr}
    {runBlockOp runBrIfOp : Interpreter.InstrOp (StackManager Instr) Store Instr}
    {LoopI BrI : Instr}
    (h : Interpreter.LoopBr0 getOpCode getResultArity getBody getLabelIndex
      dispatchInstruction runBlockOp runBrIfOp LoopI BrI)
    (S0 : List (StackEntry Instr)) (Tag : SeqType) (Rest : List Instr)
    (Outer : List (InstrScope Instr)) (M : SSVM.Measure) (St : Store) :
    Interpreter.executeStep StackManager.ops getOpCode dispatchInstruction
        { StackMgr := { Entries := S0 }
          InstrPdr := { Iters := { Tag := Tag, Instrs := LoopI :: Rest } :: Outer }
          Measure := some M
          StoreMgr := St } =
      if M.CostLimit < M.CostSum + M.CostTab OpCode.Loop then
        (Except.error ErrCode.CostLimitExceeded,
          { StackMgr := { Entries := S0 }
            InstrPdr := { Iters := { Tag := Tag, Instrs := Rest } :: Outer }
            Measure := some { M with InstrCnt := M.InstrCnt + 1 }
            StoreMgr := St })
      else
        (Except.ok (),
          { StackMgr :=
              { Entries := StackEntry.Label
                  { Arity := getResultArity LoopI, Target := some LoopI } :: S0 }
            InstrPdr :=
              { Iters := { Tag := SeqType.Block, Instrs := [BrI] } ::
                  { Tag := Tag, Instrs := Rest } :: Outer }
            Measure := some { M with
              InstrCnt := M.InstrCnt + 1
              CostSum := M.CostSum + M.CostTab OpCode.Loop }
            StoreMgr := St }) := by
  rw [Interpreter.executeStep_fetch, h.loop_code]
  split
  · rfl
  · rw [h.dispatch_loop]
    simp [Interpreter.executeBlockControl, Interpreter.runLoopOp, Interpreter.enterBlock,
      StackManager.ops, StackManager.pushLabel, InstrProvider.pushInstrs, h.loop_body]

theorem Interpreter.LoopBr0.run_from_loop {getOpCode : Instr → OpCode}
    {getResultArity : Instr → Nat} {getBody : Instr → List Instr}
    {getLabelIndex : Instr → Nat}
    {dispatchInstruction : Interpreter.Dispatch (StackManager Instr) Store Instr}
    {runBlockOp runBrIfOp : Interpreter.InstrOp (StackManager Instr) Store Instr}
    {LoopI BrI : Instr}
    (h : Interpreter.LoopBr0 getOpCode getResultArity getBody getLabelIndex
      dispatchInstruction runBlockOp runBrIfOp LoopI BrI)
    (S0 : List (StackEntry Instr)) (Below : List (InstrScope Instr)) (St : Store)
    (D : Nat) :
    ∀ M : SSVM.Measure, 1 ≤ M.CostTab OpCode.Br → M.CostLimit - M.CostSum ≤ D →
      ∃ E1 : Interpreter (StackManager Instr) Store Instr,
        Interpreter.execute StackManager.ops getOpCode dispatchInstruction (D + 1)
            { StackMgr :=
                { Entries := StackEntry.Label
                    { Arity := getResultArity LoopI, Target := some LoopI } :: S0 }
              InstrPdr := { Iters := { Tag := SeqType.Block, Instrs := [BrI] } :: Below }
              Measure := some M
              StoreMgr := St } =
          some (Except.error ErrCode.CostLimitExceeded, E1) := by
  induction D with
  | zero =>
    intro M hC hD
    have hOver : M.CostLimit < M.CostSum + M.CostTab OpCode.Br := by omega
    apply Exists.intro
    unfold Interpreter.execute
    rw [if_pos (by simp [InstrProvider.getScopeSize]), h.step_br, if_pos hOver]
  | succ D ih =>
    intro M hC hD
    by_cases hOver : M.CostLimit < M.CostSum + M.CostTab OpCode.Br
    · apply Exists.intro
      unfold Interpreter.execute
      rw [if_pos (by simp [InstrProvider.getScopeSize]), h.step_br, if_pos hOver]
    · obtain ⟨E1, hE1⟩ := ih
        { M with InstrCnt := M.InstrCnt + 1, CostSum := M.CostSum + M.CostTab OpCode.Br }
        hC (by simp only; omega)
      refine ⟨E1, ?_⟩
      rw [← hE1]
      conv_lhs => unfold Interpreter.execute
      rw [if_pos (by simp [InstrProvider.getScopeSize]), h.step_br, if_neg hOver]

theorem Interpreter.LoopBr0.bounded_from_loop {getOpCode : Instr → OpCode}
    {getResultArity : Instr → Nat} {getBody : Instr → List Instr}
    {getLabelIndex : Instr → Nat}
    {dispatchInstruction : Interpreter.Dispatch (StackManager Instr) Store Instr}
    {runBlockOp runBrIfOp : Interpreter.InstrOp (StackManager Instr) Store Instr}
    {LoopI BrI : Instr}
    (h : Interpreter.LoopBr0 getOpCode getResultArity getBody getLabelIndex
      dispatchInstruction runBlockOp runBrIfOp LoopI BrI)
    (S0 : List (StackEntry Instr)) (Below : List (InstrScope Instr)) (St : Store)
    (K : Nat) :
    ∀ M : SSVM.Measure,
      (Interpreter.afterPasses StackManager.ops getOpCode dispatchInstruction K
          { StackMgr :=
              { Entries := StackEntry.Label
                  { Arity := getResultArity LoopI, Target := some LoopI } :: S0 }
            InstrPdr := { Iters := { Tag := SeqType.Block, Instrs := [BrI] } :: Below }
            Measure := some M
            StoreMgr := St }).InstrPdr.getScopeSize = Below.length + 1 ∧
      (Interpreter.afterPasses StackManager.ops getOpCode dispatchInstruction K
          { StackMgr :=
              { Entries := StackEntry.Label
                  { Arity := getResultArity LoopI, Target := some LoopI } :: S0 }
            InstrPdr := { Iters := { Tag := SeqType.Block, Instrs := [BrI] } :: Below }
            Measure := some M
            StoreMgr := St }).StackMgr.labelCount = StackEntry.countLabels S0 + 1 := by
  induction K with
  | zero =>
    intro M
    simp [Interpreter.afterPasses, InstrProvider.getScopeSize, StackManager.labelCount,
      StackEntry.countLabels, StackEntry.isLabel]
  | succ K ih =>
    intro M
    unfold Interpreter.afterPasses
    rw [if_pos (by simp [InstrProvider.getScopeSize]), h.step_br]
    by_cases hOver : M.CostLimit < M.CostSum + M.CostTab OpCode.Br
    · rw [if_pos hOver]
      simp [InstrProvider.getScopeSize, StackManager.labelCount,
        StackEntry.countLabels, StackEntry.isLabel]
    · rw [if_neg hOver]
      exact ih _

/-- C19. On the modelled stack manager, with a measure attached whose cost
table gives every opcode a cost of at least 1, and the next instruction being
a `loop` whose body is the unconditional `br 0`: the run loop ends with
`CostLimitExceeded` for every fuel from some number on, and that number is at
most the remaining budget plus 2, so the loop is ended by the cost limit.
After any number of passes the instruction provider holds at most one scope
more, and the stack at most one label more, than at the start: each branch
pops the scope and the label of the loop before `runLoopOp` pushes them
again. -/
theorem loop_br0_ends_with_CostLimitExceeded {getOpCode : Instr → OpCode}
    {getResultArity : Instr → Nat} {getBody : Instr → List Instr}
    {getLabelIndex : Instr → Nat}
    {dispatchInstruction : Interpreter.Dispatch (StackManager Instr) Store Instr}
    {runBlockOp runBrIfOp : Interpreter.InstrOp (StackManager Instr) Store Instr}
    {LoopI BrI : Instr}
    (h : Interpreter.LoopBr0 getOpCode getResultArity getBody getLabelIndex
      dispatchInstruction runBlockOp runBrIfOp LoopI BrI)
    (E : Interpreter (StackManager Instr) Store Instr) (M : SSVM.Measure)
    (Tag : SeqType) (Rest : List Instr) (Outer : List (InstrScope Instr))
    (hM : E.Measure = some M) (hCost : ∀ Code : OpCode, 1 ≤ M.CostTab Code)
    (hNext : E.InstrPdr.Iters = { Tag := Tag, Instrs := LoopI :: Rest } :: Outer) :
    (∃ (N : Nat) (E1 : Interpreter (StackManager Instr) Store Instr),
      N ≤ M.CostLimit - M.CostSum + 2 ∧
      ∀ Fuel : Nat, N ≤ Fuel →
        Interpreter.execute StackManager.ops getOpCode dispatchInstruction Fuel E =
          some (Except.error ErrCode.CostLimitExceeded, E1)) ∧
    ∀ K : Nat,
      (Interpreter.afterPasses StackManager.ops getOpCode dispatchInstruction K
          E).InstrPdr.getScopeSize ≤ E.InstrPdr.getScopeSize + 1 ∧
      (Interpreter.afterPasses StackManager.ops getOpCode dispatchInstruction K
          E).StackMgr.labelCount ≤ E.StackMgr.labelCount + 1 := by
  obtain ⟨⟨S0⟩, ⟨Iters⟩, Me, St⟩ := E
  simp only at hM hNext
  subst hM hNext
  constructor
  · by_cases hOver : M.CostLimit < M.CostSum + M.CostTab OpCode.Loop
    · refine ⟨1, ?_⟩
      apply Exists.intro
      refine ⟨by omega, ?_⟩
      apply Interpreter.execute_fuel_mono
      unfold Interpreter.execute
      rw [if_pos (by simp [InstrProvider.getScopeSize]), h.step_loop, if_pos hOver]
    · obtain ⟨E1, hE1⟩ := h.run_from_loop S0 ({ Tag := Tag, Instrs := Rest } :: Outer) St
        (M.CostLimit - (M.CostSum + M.CostTab OpCode.Loop))
        { M with InstrCnt := M.InstrCnt + 1, CostSum := M.CostSum + M.CostTab OpCode.Loop }
        (hCost OpCode.Br) (by simp only; omega)
      have hL := hCost OpCode.Loop
      refine ⟨M.CostLimit - (M.CostSum + M.CostTab OpCode.Loop) + 2, E1, by omega, ?_⟩
      apply Interpreter.execute_fuel_mono
      rw [← hE1]
      conv_lhs => unfold Interpreter.execute
      rw [if_pos (by simp [InstrProvider.getScopeSize]), h.step_loop, if_neg hOver]
  · intro K
    cases K with
    | zero => simp [Interpreter.afterPasses]
    | succ K =>
      unfold Interpreter.afterPasses
      rw [if_pos (by simp [InstrProvider.getScopeSize]), h.step_loop]
      by_cases hOver : M.CostLimit < M.CostSum + M.CostTab OpCode.Loop
      · rw [if_pos hOver]
        simp [InstrProvider.getScopeSize]
      · rw [if_neg hOver]
        obtain ⟨h1, h2⟩ := h.bounded_from_loop S0 ({ Tag := Tag, Instrs := Rest } :: Outer)
          St K
          { M with InstrCnt := M.InstrCnt + 1, CostSum := M.CostSum + M.CostTab OpCode.Loop }
        rw [h1, h2]
        simp [InstrProvider.getScopeSize, StackManager.labelCount]

theorem Sample.LoopInstr.loopBr0 :
    Interpreter.LoopBr0 Sample.LoopInstr.getOpCode Sample.LoopInstr.getResultArity
      Sample.LoopInstr.getBody Sample.LoopInstr.getLabelIndex Sample.LoopInstr.dispatch
      Sample.LoopInstr.unused Sample.LoopInstr.unused Sample.LoopInstr.Loop
      Sample.LoopInstr.Br0 where
  loop_code := rfl
  loop_body := rfl
  br_code := rfl
  br_index := rfl
  dispatch_loop := fun _ => rfl
  dispatch_br := fun _ => rfl

/-- Witness for C19: the sample loop with limit 5 and unit costs ends with
`CostLimitExceeded` on fuel 7. -/
theorem loop_br0_ends_with_CostLimitExceeded_witness :
    (Interpreter.execute StackManager.ops Sample.LoopInstr.getOpCode
        Sample.LoopInstr.dispatch 7 (Sample.LoopInstr.start 5)).map Prod.fst =
      some (Except.error ErrCode.CostLimitExceeded) := by
  obtain ⟨N, E1, hN, hRun⟩ :=
    (loop_br0_ends_with_CostLimitExceeded Sample.LoopInstr.loopBr0
      (Sample.LoopInstr.start 5)
      { CostLimit := 5, CostSum := 0, CostTab := Sample.unitCost, InstrCnt := 0 }
      SeqType.Expression [] [] rfl (fun _ => Nat.le_refl 1) rfl).1
  rw [hRun 7 hN]
  rfl

end LoopBudget

section Accounting

variable {Stack Store Instr : Type}

theorem Interpreter.opcodeCosts_cons (CostTab : OpCode → Nat) (X : Interpreter.PassLog)
    (Log : List Interpreter.PassLog) :
    Interpreter.opcodeCosts CostTab (X :: Log) =
      (X.Dispatched.map CostTab).getD 0 + Interpreter.opcodeCosts CostTab Log := by
  cases hX : X.Dispatched <;> simp [Interpreter.opcodeCosts, List.filterMap_cons, hX]

theorem Interpreter.hostCosts_cons (X : Interpreter.PassLog)
    (Log : List Interpreter.PassLog) :
    Interpreter.hostCosts (X :: Log) =
      X.EnteredHost.getD 0 + Interpreter.hostCosts Log := by
  cases hX : X.EnteredHost <;> simp [Interpreter.hostCosts, List.filterMap_cons, hX]

theorem Interpreter.enterFunction_costSum (SM : StackManagerOps Stack Instr)
    (Func : FunctionInstance Stack Store Instr) (E : Interpreter Stack Store Instr)
    (M : SSVM.Measure) (hM : E.Measure = some M)
    (hHost : ∀ (FuncType : FType) (HostFunc : HostFunctionBase Stack Store),
      Func = FunctionInstance.Host FuncType HostFunc →
        ∀ (S : Stack) (St : Store) (Me : Option SSVM.Measure), (HostFunc.run S St Me).2.2.2 = Me) :
    ∃ M1 : SSVM.Measure, (Interpreter.enterFunction SM Func E).2.Measure = some M1 ∧
      M1.CostTab = M.CostTab ∧ M1.CostLimit = M.CostLimit ∧
      M1.CostSum = M.CostSum + (Interpreter.hostEntered Func E).getD 0 := by
  cases Func with
  | Host FuncType HostFunc =>
    have hKeep := hHost FuncType HostFunc rfl
    by_cases hOver : M.CostLimit < M.CostSum + HostFunc.Cost
    · exact ⟨M, by
        simp [Interpreter.enterFunction, Interpreter.hostEntered, hM, Measure.addCost, hOver]⟩
    · exact ⟨{ M with CostSum := M.CostSum + HostFunc.Cost }, by
        simp [Interpreter.enterFunction, Interpreter.runHostFunc, Interpreter.hostEntered,
          hM, Measure.addCost, hOver, hKeep]⟩
  | Native FuncType ModuleAddr Locals Instrs =>
    exact ⟨M, by
      simp [Interpreter.enterFunction, Interpreter.enterBlock, Interpreter.hostEntered, hM]⟩

theorem Interpreter.executeStep_costSum (SM : StackManagerOps Stack Instr)
    (getOpCode : Instr → OpCode)
    (evaluation : OpCode → Instr → Interpreter Stack Store Instr →
      Interpreter.Evaluation Stack Store Instr)
    (hPrep : ∀ (Code : OpCode) (I : Instr) (E0 E1 : Interpreter Stack Store Instr),
      ((evaluation Code I E0).Prepare E1).2.Measure = E1.Measure)
    (hHost : ∀ (Code : OpCode) (I : Instr) (E0 : Interpreter Stack Store Instr)
      (FuncType : FType) (HostFunc : HostFunctionBase Stack Store),
      (evaluation Code I E0).Callee = some (FunctionInstance.Host FuncType HostFunc) →
        ∀ (S : Stack) (St : Store) (Me : Option SSVM.Measure), (HostFunc.run S St Me).2.2.2 = Me)
    (E : Interpreter Stack Store Instr) (M : SSVM.Measure) (hM : E.Measure = some M) :
    ∃ M1 : SSVM.Measure,
      (Interpreter.executeStep SM getOpCode (Interpreter.dispatchWith SM evaluation)
        E).2.Measure = some M1 ∧
      M1.CostTab = M.CostTab ∧ M1.CostLimit = M.CostLimit ∧
      M1.CostSum = M.CostSum +
        (((Interpreter.passLog getOpCode evaluation E).Dispatched.map M.CostTab).getD 0 +
          (Interpreter.passLog getOpCode evaluation E).EnteredHost.getD 0) := by
  unfold Interpreter.executeStep Interpreter.passLog
  cases hF : E.InstrPdr.getNextInstr with
  | mk OI P =>
    cases OI with
    | none =>
      refine ⟨M, ?_, rfl, rfl, by simp⟩
      simp only
      split
      · simp [Interpreter.leaveFunction, hM]
      · split
        · simp [Interpreter.leaveBlock, hM]
        · simp [hM]
    | some I =>
      simp only [hM]
      by_cases hOver : M.CostLimit < M.CostSum + M.CostTab (getOpCode I)
      · refine ⟨M.incInstrCnt, ?_, rfl, rfl, ?_⟩
        · simp [Measure.addInstrCost, Measure.addCost, Measure.incInstrCnt, hOver]
        · simp [Measure.addInstrCost, Measure.addCost, Measure.incInstrCnt, hOver]
      · have hAcc : (M.incInstrCnt.addInstrCost (getOpCode I)) =
            (true, { M with InstrCnt := M.InstrCnt + 1,
                            CostSum := M.CostSum + M.CostTab (getOpCode I) }) := by
          simp [Measure.addInstrCost, Measure.addCost, Measure.incInstrCnt, hOver]
        simp only [hAcc, if_true, Interpreter.dispatchWith, Interpreter.Evaluation.run]
        generalize hE1 : ({ E with
            InstrPdr := P
            Measure := some { M with
              InstrCnt := M.InstrCnt + 1
              CostSum := M.CostSum + M.CostTab (getOpCode I) } } :
              Interpreter Stack Store Instr) = E1
        have hM1 : E1.Measure = some { M with
            InstrCnt := M.InstrCnt + 1
            CostSum := M.CostSum + M.CostTab (getOpCode I) } := by
          rw [← hE1]
        have hP := hPrep (getOpCode I) I E1 E1
        cases hPr : (evaluation (getOpCode I) I E1).Prepare E1 with
        | mk R E2 =>
          rw [hPr] at hP
          simp only at hP
          cases R with
          | error C =>
            refine ⟨{ M with
                InstrCnt := M.InstrCnt + 1
                CostSum := M.CostSum + M.CostTab (getOpCode I) },
              by simpa [hP] using hM1, rfl, rfl, ?_⟩
            simp
          | ok U =>
            cases hC : (evaluation (getOpCode I) I E1).Callee with
            | none =>
              refine ⟨{ M with
                  InstrCnt := M.InstrCnt + 1
                  CostSum := M.CostSum + M.CostTab (getOpCode I) },
                by simpa [hP] using hM1, rfl, rfl, ?_⟩
              simp
            | some Func =>
              have hM2 : E2.Measure = some { M with
                  InstrCnt := M.InstrCnt + 1
                  CostSum := M.CostSum + M.CostTab (getOpCode I) } := by
                rw [hP]
                exact hM1
              obtain ⟨M3, h1, h2, h3, h4⟩ :=
                Interpreter.enterFunction_costSum SM Func E2 _ hM2
                  (fun FT H hEq => hHost (getOpCode I) I E1 FT H (by rw [hC, hEq]))
              refine ⟨M3, h1, h2, h3, ?_⟩
              rw [h4]
              simp
              omega

theorem Interpreter.execute_costSum (SM : StackManagerOps Stack Instr)
    (getOpCode : Instr → OpCode)
    (evaluation : OpCode → Instr → Interpreter Stack Store Instr →
      Interpreter.Evaluation Stack Store Instr)
    (hPrep : ∀ (Code : OpCode) (I : Instr) (E0 E1 : Interpreter Stack Store Instr),
      ((evaluation Code I E0).Prepare E1).2.Measure = E1.Measure)
    (hHost : ∀ (Code : OpCode) (I : Instr) (E0 : Interpreter Stack Store Instr)
      (FuncType : FType) (HostFunc : HostFunctionBase Stack Store),
      (evaluation Code I E0).Callee = some (FunctionInstance.Host FuncType HostFunc) →
        ∀ (S : Stack) (St : Store) (Me : Option SSVM.Measure),
          (HostFunc.run S St Me).2.2.2 = Me)
    (Fuel : Nat) :
    ∀ (E : Interpreter Stack Store Instr) (M : SSVM.Measure) (R : Expect Unit)
      (E1 : Interpreter Stack Store Instr),
      E.Measure = some M →
      Interpreter.execute SM getOpCode (Interpreter.dispatchWith SM evaluation) Fuel E =
        some (R, E1) →
      ∃ M1 : SSVM.Measure, E1.Measure = some M1 ∧
        M1.CostTab = M.CostTab ∧ M1.CostLimit = M.CostLimit ∧
        M1.CostSum = M.CostSum +
          (Interpreter.opcodeCosts M.CostTab (Interpreter.runLog SM getOpCode evaluation Fuel E) +
            Interpreter.hostCosts (Interpreter.runLog SM getOpCode evaluation Fuel E)) := by
  induction Fuel with
  | zero =>
    intro E M R E1 _ h
    simp [Interpreter.execute] at h
  | succ Fuel ih =>
    intro E M R E1 hM h
    unfold Interpreter.execute at h
    unfold Interpreter.runLog
    by_cases hS : 0 < E.InstrPdr.getScopeSize
    · rw [if_pos hS] at h ⊢
      obtain ⟨M2, h1, h2, h3, h4⟩ :=
        Interpreter.executeStep_costSum SM getOpCode evaluation hPrep hHost E M hM
      cases hStep : Interpreter.executeStep SM getOpCode
          (Interpreter.dispatchWith SM evaluation) E with
      | mk Res E2 =>
        rw [hStep] at h h1
        simp only at h1
        cases Res with
        | ok U =>
          simp only at h ⊢
          obtain ⟨M1, g1, g2, g3, g4⟩ := ih E2 M2 R E1 h1 h
          refine ⟨M1, g1, g2.trans h2, g3.trans h3, ?_⟩
          rw [g4, h4, Interpreter.opcodeCosts_cons, Interpreter.hostCosts_cons, h2]
          omega
        | error C =>
          simp only [Option.some.injEq, Prod.mk.injEq] at h
          obtain ⟨_, rfl⟩ := h
          refine ⟨M2, h1, h2, h3, ?_⟩
          rw [h4, Interpreter.opcodeCosts_cons, Interpreter.hostCosts_cons]
          simp [Interpreter.opcodeCosts, Interpreter.hostCosts]
    · rw [if_neg hS] at h ⊢
      simp only [Option.some.injEq, Prod.mk.injEq] at h
      obtain ⟨_, rfl⟩ := h
      exact ⟨M, hM, rfl, rfl, by simp [Interpreter.opcodeCosts, Interpreter.hostCosts]⟩

/-- C18 (amended). With a measure attached, when the host callables entered
and the preparations of the instructions leave the measure alone, the cost
sum at the end of a `runFunction` invocation is the cost sum at its start
plus the table costs of all opcodes the run loop dispatched plus the declared
costs of all host functions entered, the invoked function included. -/
theorem runFunction_costSum_accounting (SM : StackManagerOps Stack Instr)
    (getOpCode : Instr → OpCode)
    (evaluation : OpCode → Instr → Interpreter Stack Store Instr →
      Interpreter.Evaluation Stack Store Instr)
    (Fuel : Nat) (Func : FunctionInstance Stack Store Instr)
    (E E1 : Interpreter Stack Store Instr) (M : SSVM.Measure) (R : Expect Unit)
    (hPrep : ∀ (Code : OpCode) (I : Instr) (E0 E2 : Interpreter Stack Store Instr),
      ((evaluation Code I E0).Prepare E2).2.Measure = E2.Measure)
    (hHost : ∀ (Code : OpCode) (I : Instr) (E0 : Interpreter Stack Store Instr)
      (FuncType : FType) (HostFunc : HostFunctionBase Stack Store),
      (evaluation Code I E0).Callee = some (FunctionInstance.Host FuncType HostFunc) →
        ∀ (S : Stack) (St : Store) (Me : Option SSVM.Measure),
          (HostFunc.run S St Me).2.2.2 = Me)
    (hFunc : ∀ (FuncType : FType) (HostFunc : HostFunctionBase Stack Store),
      Func = FunctionInstance.Host FuncType HostFunc →
        ∀ (S : Stack) (St : Store) (Me : Option SSVM.Measure),
          (HostFunc.run S St Me).2.2.2 = Me)
    (hM : E.Measure = some M)
    (hRun : Interpreter.runFunction SM getOpCode (Interpreter.dispatchWith SM evaluation)
      Fuel Func E = some (R, E1)) :
    ∃ M1 : SSVM.Measure, E1.Measure = some M1 ∧
      M1.CostSum = M.CostSum +
        Interpreter.opcodeCosts M.CostTab
          (Interpreter.functionLog SM getOpCode evaluation Fuel Func E) +
        Interpreter.hostCosts
          (Interpreter.functionLog SM getOpCode evaluation Fuel Func E) := by
  obtain ⟨M0, h1, h2, h3, h4⟩ := Interpreter.enterFunction_costSum SM Func E M hM hFunc
  unfold Interpreter.runFunction at hRun
  unfold Interpreter.functionLog
  rw [Interpreter.opcodeCosts_cons, Interpreter.hostCosts_cons]
  cases hEnter : Interpreter.enterFunction SM Func E with
  | mk Res E0 =>
    rw [hEnter] at hRun h1
    simp only at h1
    cases Res with
    | error C =>
      simp only [Option.some.injEq, Prod.mk.injEq] at hRun
      obtain ⟨_, rfl⟩ := hRun
      refine ⟨M0, h1, ?_⟩
      rw [h4]
      simp [Interpreter.opcodeCosts, Interpreter.hostCosts]
    | ok U =>
      simp only at hRun ⊢
      cases hLoop : Interpreter.execute SM getOpCode
          (Interpreter.dispatchWith SM evaluation) Fuel E0 with
      | none => simp [hLoop] at hRun
      | some Res2 =>
        obtain ⟨R2, E2⟩ := Res2
        obtain ⟨M1, g1, g2, g3, g4⟩ :=
          Interpreter.execute_costSum SM getOpCode evaluation hPrep hHost Fuel E0 M0 R2 E2
            h1 hLoop
        have hE : E1 = E2 := by
          rw [hLoop] at hRun
          cases R2 with
          | ok U2 =>
            simp only [Option.some.injEq, Prod.mk.injEq] at hRun
            exact hRun.2.symm
          | error C =>
            simp only at hRun
            split at hRun
            · simp only [Option.some.injEq, Prod.mk.injEq] at hRun
              exact hRun.2.symm
            · simp only [Option.some.injEq, Prod.mk.injEq] at hRun
              exact hRun.2.symm
        subst hE
        refine ⟨M1, g1, ?_⟩
        rw [g4, h4, h2]
        simp only [Option.map_none', Option.getD_none]
        omega

/-- C18 as stated fails: a host function of declared cost 100 whose callable
charges 3 more on the shared cost sum is invoked with `runFunction`; no opcode
is dispatched and one host function is entered, so the claimed growth is 100,
but the cost sum grows from 0 to 103. -/
theorem runFunction_costSum_with_charging_host :
    (Interpreter.runFunction Sample.valueStack id
        (Interpreter.dispatchWith Sample.valueStack Sample.callCostly) 1
        (FunctionInstance.Host { Params := [], Returns := [] } Sample.copying)
        Sample.metered).map (fun R => (R.1, R.2.Measure.map Measure.CostSum)) =
      some (Except.ok (), some 103) ∧
    Interpreter.opcodeCosts Sample.unitCost
        (Interpreter.functionLog Sample.valueStack id Sample.callCostly 1
          (FunctionInstance.Host { Params := [], Returns := [] } Sample.copying)
          Sample.metered) +
      Interpreter.hostCosts
        (Interpreter.functionLog Sample.valueStack id Sample.callCostly 1
          (FunctionInstance.Host { Params := [], Returns := [] } Sample.copying)
          Sample.metered) = 100 := by
  constructor
  · rfl
  · rfl

/-- Witness for C18: a native function `nop; call` whose callee is the sample
host function of declared cost 1000, with unit table costs: the cost sum
grows from 0 to 1 + 1 + 1000. -/
theorem runFunction_costSum_accounting_witness :
    (Interpreter.runFunction Sample.valueStack id
        (Interpreter.dispatchWith Sample.valueStack Sample.callCostly) 5
        Sample.nopCall Sample.funded).map
          (fun R => (R.1, R.2.Measure.map Measure.CostSum)) =
      some (Except.ok (), some 1002) := by
  have hSome : (Interpreter.runFunction Sample.valueStack id
      (Interpreter.dispatchWith Sample.valueStack Sample.callCostly) 5
      Sample.nopCall Sample.funded).map Prod.fst = some (Except.ok ()) := rfl
  obtain ⟨⟨R, E1⟩, hRun, hR⟩ := Option.map_eq_some'.mp hSome
  simp only at hR
  subst hR
  obtain ⟨M1, h1, h2⟩ :=
    runFunction_costSum_accounting Sample.valueStack id Sample.callCostly 5 Sample.nopCall
      Sample.funded E1
      { CostLimit := 5000, CostSum := 0, CostTab := Sample.unitCost, InstrCnt := 0 }
      (Except.ok ())
      (fun _ _ _ _ => rfl)
      (fun Code _ _ FT H hC S St Me => by
        simp only [Sample.callCostly] at hC
        split at hC
        · simp only [Option.some.injEq, FunctionInstance.Host.injEq] at hC
          obtain ⟨_, rfl⟩ := hC
          rfl
        · cases hC)
      (fun FT H hEq => by cases hEq)
      rfl hRun
  rw [hRun]
  simp only [Option.map_some', h1, h2]
  rfl

end Accounting

section CallHelper

open Executor Executor.EEI

variable {Mgr Mem Cxt : Type}

/-- C21, the code at the failing input.  `addCopyCost` returns `Success` when
the environment manager accepts the charge and `Revert` when it rejects it, so
never `CostLimitExceeded`: with a budget of 2 and a copy of 32 bytes (3 gas)
the result is `Revert`. -/
theorem addCopyCost_rejected_returns_Revert {EnvMgr : Type}
    (addCost : Nat → EnvMgr → Bool × EnvMgr) (EM : EnvMgr) (Length : Nat) :
    (EEI.addCopyCost addCost EM Length).1 =
        (if (addCost (EEI.copyTakeGas Length) EM).1 then ErrCode.Success
          else ErrCode.Revert) ∧
      (EEI.addCopyCost addCost EM Length).1 ≠ ErrCode.CostLimitExceeded ∧
      EEI.addCopyCost Sample.budget.addCost (2, 0) 32 = (ErrCode.Revert, (2, 0)) := by
  refine ⟨rfl, ?_, by decide⟩
  unfold EEI.addCopyCost
  dsimp only
  split <;> simp


theorem Executor.EEI.setupInputData_none (mem : MemoryInstanceOps Mem)
    (DataOffset DataLength : Nat) (S S1 : CallState Mgr Mem Cxt)
    (h : setupInputData mem DataOffset DataLength S = (none, S1)) :
    S1.EnvMgr = S.EnvMgr ∧ S1.Env = S.Env ∧ S1.Ret = S.Ret ∧ S1.Msg.kind = S.Msg.kind ∧
      S1.Msg.gas = S.Msg.gas ∧ S1.Msg.value = S.Msg.value ∧
      S1.Msg.destination = S.Msg.destination ∧ S1.Msg.sender = S.Msg.sender := by
  unfold setupInputData at h
  split at h
  · dsimp only at h
    split at h
    · simp at h
    · simp only [Prod.mk.injEq, true_and] at h
      subst h
      simp
  · simp only [Prod.mk.injEq, true_and] at h
    subst h
    simp

theorem Executor.EEI.takeAdditionalGas_none (ops : EnvironmentManagerOps Mgr)
    (H : evmc_host_interface Cxt) (S S2 : CallState Mgr Mem Cxt)
    (h : takeAdditionalGas ops H S = (none, S2)) :
    S2 = { S with
      EnvMgr :=
        if transfersValue S.Msg then
          if H.account_exists S.Env.EVMCContext S.Msg.destination then
            (ops.addCost 9000 S.EnvMgr).2
          else (ops.addCost 25000 (ops.addCost 9000 S.EnvMgr).2).2
        else S.EnvMgr } := by
  unfold takeAdditionalGas at h
  split at h
  · rename_i hT
    dsimp only at h
    split at h
    · simp at h
    · split at h
      · rename_i hE
        split at h
        · simp at h
        · simp only [Prod.mk.injEq, true_and] at h
          subst h
          simp at hE
          simp [hT, hE]
      · rename_i hE
        simp only [Prod.mk.injEq, true_and] at h
        subst h
        simp at hE
        simp [hT, hE]
  · rename_i hT
    simp only [Prod.mk.injEq, true_and] at h
    subst h
    simp [hT]

theorem Executor.EEI.checkBalance_none (H : evmc_host_interface Cxt)
    (S S3 : CallState Mgr Mem Cxt) (h : checkBalance H S = (none, S3)) : S3 = S := by
  unfold checkBalance at h
  split at h
  · dsimp only at h
    split at h
    · simp at h
    · split at h
      · simp at h
      · split at h
        · simp at h
        · simp only [Prod.mk.injEq, true_and] at h
          exact h.symm
  · simp only [Prod.mk.injEq, true_and] at h
    exact h.symm

theorem Executor.EEI.callContractSetup_none (ops : EnvironmentManagerOps Mgr)
    (mem : MemoryInstanceOps Mem) (H : evmc_host_interface Cxt)
    (DataOffset DataLength : Nat) (S : CallState Mgr Mem Cxt)
    (h : (callContractSetup ops mem H DataOffset DataLength S).1 = none) :
    ∃ S1 : CallState Mgr Mem Cxt,
      setupInputData mem DataOffset DataLength S = (none, S1) ∧
      (callContractSetup ops mem H DataOffset DataLength S).2 =
        assignGas ops
          { S1 with
            EnvMgr :=
              if transfersValue S.Msg then
                if H.account_exists S.Env.EVMCContext S.Msg.destination then
                  (ops.addCost 9000 S.EnvMgr).2
                else (ops.addCost 25000 (ops.addCost 9000 S.EnvMgr).2).2
              else S.EnvMgr } := by
  unfold callContractSetup at h ⊢
  split at h
  · simp at h
  · rename_i hD
    rw [if_neg hD]
    unfold callContractPrepare at h ⊢
    cases hIn : setupInputData mem DataOffset DataLength S with
    | mk O1 S1 =>
      rw [hIn] at h
      cases O1 with
      | some C => simp at h
      | none =>
        refine ⟨S1, rfl, ?_⟩
        obtain ⟨e1, e2, -, e4, -, e6, e7, -⟩ := setupInputData_none mem _ _ S S1 hIn
        dsimp only at h ⊢
        split at h
        · simp at h
        · rename_i hF
          rw [if_neg hF]
          cases hG : takeAdditionalGas ops H S1 with
          | mk O2 S2 =>
            rw [hG] at h
            cases O2 with
            | some C => simp at h
            | none =>
              have e := takeAdditionalGas_none ops H S1 S2 hG
              dsimp only at h ⊢
              unfold balanceAndGas at h ⊢
              cases hB : checkBalance H S2 with
              | mk O3 S3 =>
                rw [hB] at h
                cases O3 with
                | some C => simp at h
                | none =>
                  have e3 := checkBalance_none H S2 S3 hB
                  dsimp only
                  rw [e3, e]
                  have hT : transfersValue S1.Msg = transfersValue S.Msg := by
                    simp [transfersValue, e4, e6]
                  rw [hT, e1, e2, e7]

/-- C23. In `callContract` at a depth below 1024, after the input data was
read and the static-flag check passed: a message that is not a CALL or
CALLCODE with a value goes on to the balance check without any charge; a CALL
or CALLCODE with a value is charged 9000, and 25000 more exactly when the
destination account does not exist; when one of the two charges is rejected
the result is `CostLimitExceeded`, in a state that no host call has
touched. -/
theorem callContract_value_transfer_gas (ops : EnvironmentManagerOps Mgr)
    (mem : MemoryInstanceOps Mem) (H : evmc_host_interface Cxt)
    (DataOffset DataLength CreateResOffset : Nat) (S S1 : CallState Mgr Mem Cxt)
    (hDepth : S.Env.Depth < 1024)
    (hInput : setupInputData mem DataOffset DataLength S = (none, S1))
    (hFlag : staticViolation S = false) :
    (transfersValue S.Msg = false →
      callContractSetup ops mem H DataOffset DataLength S = balanceAndGas ops H S1) ∧
    (transfersValue S.Msg = true →
      ((ops.addCost 9000 S.EnvMgr).1 = false →
        callContract ops mem H DataOffset DataLength CreateResOffset S =
          (ErrCode.CostLimitExceeded,
            { S1 with EnvMgr := (ops.addCost 9000 S.EnvMgr).2 })) ∧
      ((ops.addCost 9000 S.EnvMgr).1 = true →
        (H.account_exists S.Env.EVMCContext S.Msg.destination = true →
          callContractSetup ops mem H DataOffset DataLength S =
            balanceAndGas ops H { S1 with EnvMgr := (ops.addCost 9000 S.EnvMgr).2 }) ∧
        (H.account_exists S.Env.EVMCContext S.Msg.destination = false →
          ((ops.addCost 25000 (ops.addCost 9000 S.EnvMgr).2).1 = false →
            callContract ops mem H DataOffset DataLength CreateResOffset S =
              (ErrCode.CostLimitExceeded,
                { S1 with
                  EnvMgr := (ops.addCost 25000 (ops.addCost 9000 S.EnvMgr).2).2 })) ∧
          ((ops.addCost 25000 (ops.addCost 9000 S.EnvMgr).2).1 = true →
            callContractSetup ops mem H DataOffset DataLength S =
              balanceAndGas ops H
                { S1 with
                  EnvMgr := (ops.addCost 25000 (ops.addCost 9000 S.EnvMgr).2).2 })))) := by
  obtain ⟨e1, e2, -, e4, -, e6, e7, -⟩ := setupInputData_none mem _ _ S S1 hInput
  have hT1 : transfersValue S1.Msg = transfersValue S.Msg := by
    simp [transfersValue, e4, e6]
  have hF1 : staticViolation S1 = false := by
    rw [← hFlag]
    simp [staticViolation, e2, e4, e6]
  have hD : ¬ 1024 ≤ S.Env.Depth := by omega
  have base : callContractSetup ops mem H DataOffset DataLength S =
      match takeAdditionalGas ops H S1 with
      | (some Code, S2) => (some Code, S2)
      | (none, S2) => balanceAndGas ops H S2 := by
    unfold callContractSetup
    rw [if_neg hD]
    unfold callContractPrepare
    rw [hInput]
    simp only [hF1]
    rfl
  refine ⟨?_, ?_⟩
  · intro hT
    rw [base]
    simp [takeAdditionalGas, hT1, hT]
  · intro hT
    refine ⟨?_, ?_⟩
    · intro h9
      unfold callContract
      rw [base]
      simp [takeAdditionalGas, hT1, hT, e1, h9]
    · intro h9
      refine ⟨?_, ?_⟩
      · intro hE
        rw [base]
        simp [takeAdditionalGas, hT1, hT, e1, e2, e7, h9, hE]
      · intro hE
        refine ⟨?_, ?_⟩
        · intro h25
          unfold callContract
          rw [base]
          simp [takeAdditionalGas, hT1, hT, e1, e2, e7, h9, hE, h25]
        · intro h25
          rw [base]
          simp [takeAdditionalGas, hT1, hT, e1, e2, e7, h9, hE, h25]

/-- C24. At a call depth of 1024 or more `callContract` returns `Success`
with `Ret` set to 1 and everything else as it was, whatever the environment
manager, the memory instance and the host are; at a depth of 1023 or less it
goes on with the part that follows the depth check. -/
theorem callContract_depth_limit (ops : EnvironmentManagerOps Mgr)
    (mem : MemoryInstanceOps Mem) (H : evmc_host_interface Cxt)
    (DataOffset DataLength CreateResOffset : Nat) (S : CallState Mgr Mem Cxt) :
    (1024 ≤ S.Env.Depth →
      callContract ops mem H DataOffset DataLength CreateResOffset S =
        (ErrCode.Success, { S with Ret := 1 })) ∧
    (S.Env.Depth ≤ 1023 →
      callContractSetup ops mem H DataOffset DataLength S =
        callContractPrepare ops mem H DataOffset DataLength S) := by
  constructor
  · intro h
    simp [callContract, callContractSetup, h]
  · intro h
    have h1 : ¬ 1024 ≤ S.Env.Depth := by omega
    simp [callContractSetup, h1]

/-- Witness for C24: at depth 1024 the sample call returns at once; at depth
1023 it goes on and the host is called once. -/
theorem callContract_depth_limit_witness :
    callContract Sample.budget Sample.flatMemory (Sample.recordingHost true) 0 2 0
        (Sample.callState 100000 1024 (Sample.message evmc_call_kind.EVMC_CALL 1)) =
      (ErrCode.Success,
        { Sample.callState 100000 1024 (Sample.message evmc_call_kind.EVMC_CALL 1) with
          Ret := 1 }) ∧
    callContractSetup Sample.budget Sample.flatMemory (Sample.recordingHost true) 0 2
        (Sample.callState 100000 1023 (Sample.message evmc_call_kind.EVMC_CALL 1)) =
      callContractPrepare Sample.budget Sample.flatMemory (Sample.recordingHost true) 0 2
        (Sample.callState 100000 1023 (Sample.message evmc_call_kind.EVMC_CALL 1)) ∧
    (callContract Sample.budget Sample.flatMemory (Sample.recordingHost true) 0 2 0
        (Sample.callState 100000 1023
          (Sample.message evmc_call_kind.EVMC_CALL 1))).2.Env.EVMCContext.length = 1 :=
  ⟨(callContract_depth_limit Sample.budget Sample.flatMemory (Sample.recordingHost true) 0 2 0
      (Sample.callState 100000 1024 (Sample.message evmc_call_kind.EVMC_CALL 1))).1 (by decide),
    (callContract_depth_limit Sample.budget Sample.flatMemory (Sample.recordingHost true) 0 2 0
      (Sample.callState 100000 1023 (Sample.message evmc_call_kind.EVMC_CALL 1))).2 (by decide),
    by decide⟩

/-- Witness for C23, for a CALLCODE with value 1 to an account that does not
exist: with a budget of 33999 the second charge is rejected and the result is
`CostLimitExceeded`; with a budget of 50000 the balance check is entered with
the cost sum 34000; a DELEGATECALL enters it with no charge. -/
theorem callContract_value_transfer_gas_witness :
    (callContract Sample.budget Sample.flatMemory (Sample.recordingHost false) 0 2 0
        (Sample.callState 33999 0 (Sample.message evmc_call_kind.EVMC_CALLCODE 1))).1 =
      ErrCode.CostLimitExceeded ∧
    callContractSetup Sample.budget Sample.flatMemory (Sample.recordingHost false) 0 2
        (Sample.callState 50000 0 (Sample.message evmc_call_kind.EVMC_CALLCODE 1)) =
      balanceAndGas Sample.budget (Sample.recordingHost false)
        { (setupInputData Sample.flatMemory 0 2
            (Sample.callState 50000 0
              (Sample.message evmc_call_kind.EVMC_CALLCODE 1))).2 with
          EnvMgr := (50000, 34000) } ∧
    callContractSetup Sample.budget Sample.flatMemory (Sample.recordingHost false) 0 2
        (Sample.callState 50000 0 (Sample.message evmc_call_kind.EVMC_DELEGATECALL 1)) =
      balanceAndGas Sample.budget (Sample.recordingHost false)
        (setupInputData Sample.flatMemory 0 2
          (Sample.callState 50000 0
            (Sample.message evmc_call_kind.EVMC_DELEGATECALL 1))).2 :=
  ⟨congrArg Prod.fst
      (((((callContract_value_transfer_gas Sample.budget Sample.flatMemory
        (Sample.recordingHost false) 0 2 0
        (Sample.callState 33999 0 (Sample.message evmc_call_kind.EVMC_CALLCODE 1)) _
        (by decide) rfl (by decide)).2 (by decide)).2 (by decide)).2 (by decide)).1
        (by decide)),
    ((((callContract_value_transfer_gas Sample.budget Sample.flatMemory
        (Sample.recordingHost false) 0 2 0
        (Sample.callState 50000 0 (Sample.message evmc_call_kind.EVMC_CALLCODE 1)) _
        (by decide) rfl (by decide)).2 (by decide)).2 (by decide)).2 (by decide)).2
        (by decide),
    (callContract_value_transfer_gas Sample.budget Sample.flatMemory
        (Sample.recordingHost false) 0 2 0
        (Sample.callState 50000 0 (Sample.message evmc_call_kind.EVMC_DELEGATECALL 1)) _
        (by decide) rfl (by decide)).1 (by decide)⟩

end CallHelper

section Numeric

variable {Stack Store Instr : Type}

/-- C25. With `runReinterpretOp` the bit-exact copy and every other helper
arbitrary, on the modelled stack: `f32.reinterpret_i32` turns the i32 `B` on
top of the stack into the f32 with the same bits, and `i32.reinterpret_f32`
turns that back into the i32 `B`, which gives the state before the two
instructions; likewise for `f64.reinterpret_i64` and `i64.reinterpret_f64`.
`B` is any bit pattern, and the entries below the top are as before, so the
height of the stack is unchanged. -/
theorem reinterpret_round_trip (U : UnaryNumericOps) (B : Nat)
    (Rest : List (StackEntry Instr)) (E : Interpreter (StackManager Instr) Store Instr) :
    Interpreter.executeUnaryNumeric { U with runReinterpretOp := runReinterpretOp }
        StackManager.getTop StackManager.setTop OpCode.F32__reinterpret_i32
        { E with StackMgr := { Entries := StackEntry.Value (ValVariant.I32 B) :: Rest } } =
      some (Except.ok (),
        { E with StackMgr := { Entries := StackEntry.Value (ValVariant.F32 B) :: Rest } }) ∧
    Interpreter.executeUnaryNumeric { U with runReinterpretOp := runReinterpretOp }
        StackManager.getTop StackManager.setTop OpCode.I32__reinterpret_f32
        { E with StackMgr := { Entries := StackEntry.Value (ValVariant.F32 B) :: Rest } } =
      some (Except.ok (),
        { E with StackMgr := { Entries := StackEntry.Value (ValVariant.I32 B) :: Rest } }) ∧
    Interpreter.executeUnaryNumeric { U with runReinterpretOp := runReinterpretOp }
        StackManager.getTop StackManager.setTop OpCode.F64__reinterpret_i64
        { E with StackMgr := { Entries := StackEntry.Value (ValVariant.I64 B) :: Rest } } =
      some (Except.ok (),
        { E with StackMgr := { Entries := StackEntry.Value (ValVariant.F64 B) :: Rest } }) ∧
    Interpreter.executeUnaryNumeric { U with runReinterpretOp := runReinterpretOp }
        StackManager.getTop StackManager.setTop OpCode.I64__reinterpret_f64
        { E with StackMgr := { Entries := StackEntry.Value (ValVariant.F64 B) :: Rest } } =
      some (Except.ok (),
        { E with StackMgr := { Entries := StackEntry.Value (ValVariant.I64 B) :: Rest } }) :=
  ⟨rfl, rfl, rfl, rfl⟩

/-- C26. `execute(StoreMgr, MemoryInstruction)` hands every narrow load
opcode to `runLoadOp<T>` with the bit width that the name of the opcode gives
for the access, where `T` is an integer type of the width that the prefix of
the name gives and is signed exactly when the name ends in `_s`; it hands every
narrow store opcode to `runStoreOp<T>` with the bit width of the name, `T`
being an integer type of the width of the prefix. -/
theorem executeMemory_narrow_access (M : Interpreter.MemoryInstrOps Stack Store Instr)
    (Code : OpCode) :
    (∀ RW AW : Nat, ∀ Sg : Bool, Code.narrowLoad = some (RW, AW, Sg) →
      ∃ T : CType, T.isInteger = true ∧ T.bits = RW ∧ T.isSigned = Sg ∧
        ∀ (I : Instr) (E : Interpreter Stack Store Instr),
          Interpreter.executeMemory M Code I E = M.runLoadOp T (some AW) I E) ∧
    (∀ RW AW : Nat, Code.narrowStore = some (RW, AW) →
      ∃ T : CType, T.isInteger = true ∧ T.bits = RW ∧
        ∀ (I : Instr) (E : Interpreter Stack Store Instr),
          Interpreter.executeMemory M Code I E = M.runStoreOp T (some AW) I E) := by
  constructor
  · intro RW AW Sg h
    cases Code <;> simp [OpCode.narrowLoad] at h <;> obtain ⟨rfl, rfl, rfl⟩ := h <;>
      first
      | exact ⟨CType.int32_t, rfl, rfl, rfl, fun _ _ => rfl⟩
      | exact ⟨CType.uint32_t, rfl, rfl, rfl, fun _ _ => rfl⟩
      | exact ⟨CType.int64_t, rfl, rfl, rfl, fun _ _ => rfl⟩
      | exact ⟨CType.uint64_t, rfl, rfl, rfl, fun _ _ => rfl⟩
  · intro RW AW h
    cases Code <;> simp [OpCode.narrowStore] at h <;> obtain ⟨rfl, rfl⟩ := h <;>
      first
      | exact ⟨CType.uint32_t, rfl, rfl, fun _ _ => rfl⟩
      | exact ⟨CType.uint64_t, rfl, rfl, fun _ _ => rfl⟩

/-- Witness for C26: `i32.load8_s` and `i64.store32`. -/
theorem executeMemory_narrow_access_witness :
    (∃ T : CType, T.isInteger = true ∧ T.bits = 32 ∧ T.isSigned = true ∧
      ∀ (I : OpCode) (E : Interpreter (List ValVariant) Unit OpCode),
        Interpreter.executeMemory Sample.noMemory OpCode.I32__load8_s I E =
          Sample.noMemory.runLoadOp T (some 8) I E) ∧
    (∃ T : CType, T.isInteger = true ∧ T.bits = 64 ∧
      ∀ (I : OpCode) (E : Interpreter (List ValVariant) Unit OpCode),
        Interpreter.executeMemory Sample.noMemory OpCode.I64__store32 I E =
          Sample.noMemory.runStoreOp T (some 32) I E) :=
  ⟨(executeMemory_narrow_access Sample.noMemory OpCode.I32__load8_s).1 32 8 true rfl,
    (executeMemory_narrow_access Sample.noMemory OpCode.I64__store32).2 64 32 rfl⟩

end Numeric

section Control

variable {Stack Store Instr : Type}

/-- C29. Evaluating `unreachable` gives the error `Unreachable` and
evaluating `nop` gives success; both leave the engine (stack, instruction
provider, measure and store) as it was. -/
theorem executeControl_unreachable_and_nop
    (runReturnOp : Interpreter Stack Store Instr → Expect Unit × Interpreter Stack Store Instr)
    (E : Interpreter Stack Store Instr) :
    Interpreter.executeControl runReturnOp OpCode.Unreachable E =
        (Except.error ErrCode.Unreachable, E) ∧
      Interpreter.executeControl runReturnOp OpCode.Nop E = (Except.ok (), E) :=
  ⟨rfl, rfl⟩

end Control

section ScopeEnd

variable {Stack Store Instr : Type}

theorem Interpreter.execute_ok_no_scope (SM : StackManagerOps Stack Instr)
    (getOpCode : Instr → OpCode) (dispatchInstruction : Interpreter.Dispatch Stack Store Instr)
    (Fuel : Nat) (E E1 : Interpreter Stack Store Instr)
    (h : Interpreter.execute SM getOpCode dispatchInstruction Fuel E = some (Except.ok (), E1)) :
    E1.InstrPdr.getScopeSize = 0 := by
  induction Fuel generalizing E with
  | zero => simp [Interpreter.execute] at h
  | succ Fuel ih =>
    unfold Interpreter.execute at h
    split at h
    · split at h
      · exact ih _ h
      · simp at h
    · rename_i hS
      simp only [Option.some.injEq, Prod.mk.injEq, true_and] at h
      subst h
      omega

theorem InstrProvider.popInstrs_snd (P : InstrProvider Instr) :
    (InstrProvider.popInstrs P).2 = { Iters := P.Iters.drop 1 } := by
  cases hI : P.Iters with
  | nil =>
    cases P
    simp only at hI
    subst hI
    rfl
  | cons X Xs => simp [InstrProvider.popInstrs, hI]

/-- C28. A pass of the run loop whose current scope has no next instruction
removes that scope by its tag: for a FunctionCall scope it is `leaveFunction`
(the frame is popped, and with it one scope per unwound label plus the
function scope); for a Block scope it is `leaveBlock` (one label and the
scope are popped); an Expression scope is popped and the stack stays.  The
run loop returns success only in a state with no scope, and in a state with no
scope it returns success at once. -/
theorem execute_removes_scope_by_tag (SM : StackManagerOps Stack Instr)
    (getOpCode : Instr → OpCode)
    (dispatchInstruction : Interpreter.Dispatch Stack Store Instr) :
    (∀ (E : Interpreter Stack Store Instr) (Rest : List (InstrScope Instr)),
      E.InstrPdr.Iters = { Tag := SeqType.FunctionCall, Instrs := [] } :: Rest →
      Interpreter.executeStep SM getOpCode dispatchInstruction E =
          Interpreter.leaveFunction SM E ∧
        Interpreter.leaveFunction SM E =
          (Except.ok (),
            { E with
              StackMgr := (SM.popFrame E.StackMgr).2
              InstrPdr := { Iters := Rest.drop (SM.popFrame E.StackMgr).1 } })) ∧
    (∀ (E : Interpreter Stack Store Instr) (Rest : List (InstrScope Instr)),
      E.InstrPdr.Iters = { Tag := SeqType.Block, Instrs := [] } :: Rest →
      Interpreter.executeStep SM getOpCode dispatchInstruction E =
          Interpreter.leaveBlock SM E ∧
        Interpreter.leaveBlock SM E =
          (Except.ok (),
            { E with StackMgr := SM.popLabel 1 E.StackMgr, InstrPdr := { Iters := Rest } })) ∧
    (∀ (E : Interpreter Stack Store Instr) (Rest : List (InstrScope Instr)),
      E.InstrPdr.Iters = { Tag := SeqType.Expression, Instrs := [] } :: Rest →
      Interpreter.executeStep SM getOpCode dispatchInstruction E =
        (Except.ok (), { E with InstrPdr := { Iters := Rest } })) ∧
    (∀ (Fuel : Nat) (E E1 : Interpreter Stack Store Instr),
      Interpreter.execute SM getOpCode dispatchInstruction Fuel E = some (Except.ok (), E1) →
      E1.InstrPdr.getScopeSize = 0) ∧
    (∀ (Fuel : Nat) (E : Interpreter Stack Store Instr),
      E.InstrPdr.getScopeSize = 0 →
      Interpreter.execute SM getOpCode dispatchInstruction (Fuel + 1) E =
        some (Except.ok (), E)) := by
  refine ⟨?_, ?_, ?_, ?_, ?_⟩
  · intro E Rest h
    have hP : E.InstrPdr = { Iters := { Tag := SeqType.FunctionCall, Instrs := [] } :: Rest } := by
      cases hI : E.InstrPdr
      rw [hI] at h
      simp at h
      rw [h]
    constructor
    · cases E
      simp only at hP
      subst hP
      simp [Interpreter.executeStep, InstrProvider.getNextInstr, InstrProvider.getTopScopeType]
    · unfold Interpreter.leaveFunction
      dsimp only
      rw [InstrProvider.iterate_popInstrs, InstrProvider.popInstrs_snd, hP]
      simp only [List.drop_drop]
      rw [List.drop_succ_cons]
  · intro E Rest h
    have hP : E.InstrPdr = { Iters := { Tag := SeqType.Block, Instrs := [] } :: Rest } := by
      cases hI : E.InstrPdr
      rw [hI] at h
      simp at h
      rw [h]
    constructor
    · cases E
      simp only at hP
      subst hP
      simp [Interpreter.executeStep, InstrProvider.getNextInstr, InstrProvider.getTopScopeType]
    · unfold Interpreter.leaveBlock
      dsimp only
      rw [hP]
      rfl
  · intro E Rest h
    have hP : E.InstrPdr = { Iters := { Tag := SeqType.Expression, Instrs := [] } :: Rest } := by
      cases hI : E.InstrPdr
      rw [hI] at h
      simp at h
      rw [h]
    cases E
    simp only at hP
    subst hP
    simp [Interpreter.executeStep, InstrProvider.getNextInstr, InstrProvider.getTopScopeType,
      InstrProvider.popInstrs]
  · intro Fuel E E1 h
    exact Interpreter.execute_ok_no_scope SM getOpCode dispatchInstruction Fuel E E1 h
  · intro Fuel E h
    unfold Interpreter.execute
    simp [h]

/-- Witness for C28: the sample engine at the end of a function body leaves
the Block scope with `leaveBlock`, and after three passes no scope is left and
the result of the function is the only stack entry. -/
theorem execute_removes_scope_by_tag_witness :
    Interpreter.executeStep StackManager.ops id Sample.controlOnly Sample.unwinding =
        Interpreter.leaveBlock StackManager.ops Sample.unwinding ∧
      (Interpreter.afterPasses StackManager.ops id Sample.controlOnly 3
          Sample.unwinding).InstrPdr.getScopeSize = 0 ∧
      (Interpreter.afterPasses StackManager.ops id Sample.controlOnly 3
          Sample.unwinding).StackMgr.Entries = [StackEntry.Value (ValVariant.I32 5)] :=
  ⟨((execute_removes_scope_by_tag StackManager.ops id Sample.controlOnly).2.1
      Sample.unwinding _ rfl).1,
    (execute_removes_scope_by_tag StackManager.ops id Sample.controlOnly).2.2.2.1 4
      Sample.unwinding _ rfl,
    rfl⟩

end ScopeEnd

section Construction

open ExpVM

variable {Store Interp CostTable ImportObject : Type}

/-- C27. After `initVM` the cost table of the measure is the table that the
cost table object gives for Ewasm if the configuration enables Ewasm, else for
Wasi if it enables Wasi, else for Wasm.  This holds without the macro
`ONNC_WASM`, and with it when registering an import object leaves the cost
table of the measure alone. -/
theorem initVM_cost_table_priority (ct : CostTableOps CostTable)
    (registerImport : RegisterImport ImportObject Store Interp)
    (WasiModule : ImportObject) (EEIModule : Nat → Nat → ImportObject)
    (ONNCModule : ImportObject) (V : VMInit Store Interp CostTable ImportObject) :
    (VMInit.initVM ct registerImport WasiModule EEIModule ONNCModule false V).Measure.CostTab =
        ct.getCostTable
          (if V.Config VMType.Ewasm then VMType.Ewasm
            else if V.Config VMType.Wasi then VMType.Wasi else VMType.Wasm)
          (VMInit.initVM ct registerImport WasiModule EEIModule ONNCModule false V).CostTab ∧
      ((∀ (Obj : ImportObject) (St : Store) (Me : Measure) (En : Interp),
          (registerImport Obj St Me En).2.2.1.CostTab = Me.CostTab) →
        (VMInit.initVM ct registerImport WasiModule EEIModule ONNCModule true V).Measure.CostTab =
          ct.getCostTable
            (if V.Config VMType.Ewasm then VMType.Ewasm
              else if V.Config VMType.Wasi then VMType.Wasi else VMType.Wasm)
            (VMInit.initVM ct registerImport WasiModule EEIModule ONNCModule true V).CostTab) := by
  constructor
  · unfold VMInit.initVM
    by_cases hW : V.Config VMType.Wasi = true <;>
      by_cases hE : V.Config VMType.Ewasm = true <;>
      simp [VMInit.useCostTable, VMInit.addImportModule, setCostTable, hW, hE]
  · intro hR
    unfold VMInit.initVM
    by_cases hW : V.Config VMType.Wasi = true <;>
      by_cases hE : V.Config VMType.Ewasm = true <;>
      by_cases hO : V.Config VMType.ONNC = true <;>
      simp [VMInit.useCostTable, VMInit.addImportModule, setCostTable, hW, hE, hO, hR]

/-- Witness for C27: Wasi, Ewasm and ONNC enabled gives the Ewasm table, Wasi
and ONNC the Wasi table (cost 2), nothing enabled the Wasm table (cost 1). -/
theorem initVM_cost_table_priority_witness :
    (VMInit.initVM Sample.tables Sample.registerNothing 1 (fun _ _ => 2) 3 true
        (Sample.fresh [VMType.Wasi, VMType.Ewasm, VMType.ONNC])).Measure.CostTab =
      Sample.tables.getCostTable VMType.Ewasm () ∧
    (VMInit.initVM Sample.tables Sample.registerNothing 1 (fun _ _ => 2) 3 true
        (Sample.fresh [VMType.Wasi, VMType.ONNC])).Measure.CostTab OpCode.Nop = 2 ∧
    (VMInit.initVM Sample.tables Sample.registerNothing 1 (fun _ _ => 2) 3 true
        (Sample.fresh [])).Measure.CostTab OpCode.Nop = 1 :=
  ⟨(initVM_cost_table_priority Sample.tables Sample.registerNothing 1 (fun _ _ => 2) 3
      (Sample.fresh [VMType.Wasi, VMType.Ewasm, VMType.ONNC])).2 (fun _ _ _ _ => rfl),
    congrFun ((initVM_cost_table_priority Sample.tables Sample.registerNothing 1
      (fun _ _ => 2) 3 (Sample.fresh [VMType.Wasi, VMType.ONNC])).2 (fun _ _ _ _ => rfl))
      OpCode.Nop,
    congrFun ((initVM_cost_table_priority Sample.tables Sample.registerNothing 1
      (fun _ _ => 2) 3 (Sample.fresh [])).2 (fun _ _ _ _ => rfl)) OpCode.Nop⟩

end Construction

section Balance

variable {Store Instr : Type}

theorem addHead_addHead (A B : Nat) (L : List Nat) : addHead A (addHead B L) = addHead (B + A) L := by
  cases L <;> simp [addHead, Nat.add_assoc]

theorem addHead_zero (L : List Nat) (h : L ≠ []) : addHead 0 L = L := by
  cases L with
  | nil => exact absurd rfl h
  | cons N Ns => simp [addHead]

theorem addHead_ne_nil (K : Nat) (L : List Nat) : addHead K L ≠ [] := by
  cases L <;> simp [addHead]

theorem StackEntry.labelProfile_ne_nil (Es : List (StackEntry Instr)) :
    StackEntry.labelProfile Es ≠ [] := by
  induction Es with
  | nil => simp [StackEntry.labelProfile]
  | cons X Es ih =>
    cases X <;> simp [StackEntry.labelProfile, addHead_ne_nil, ih]

theorem InstrProvider.blockProfile_ne_nil (Is : List (InstrScope Instr)) :
    InstrProvider.blockProfile Is ≠ [] := by
  induction Is with
  | nil => simp [InstrProvider.blockProfile]
  | cons S Is ih =>
    unfold InstrProvider.blockProfile
    split <;> simp [addHead_ne_nil, ih]

theorem StackEntry.countLabels_cons_value (V : ValVariant) (A : List (StackEntry Instr)) :
    StackEntry.countLabels (StackEntry.Value V :: A) = StackEntry.countLabels A := by
  simp [StackEntry.countLabels, StackEntry.isLabel]

theorem StackEntry.countLabels_cons_label (L : SSVM.Label Instr) (A : List (StackEntry Instr)) :
    StackEntry.countLabels (StackEntry.Label L :: A) = StackEntry.countLabels A + 1 := by
  simp [StackEntry.countLabels, StackEntry.isLabel]

theorem StackEntry.labelProfile_append (A B : List (StackEntry Instr))
    (hA : ∀ X ∈ A, X.isFrame = false) :
    StackEntry.labelProfile (A ++ B) =
      addHead (StackEntry.countLabels A) (StackEntry.labelProfile B) := by
  induction A with
  | nil =>
    simp [StackEntry.countLabels, addHead_zero _ (StackEntry.labelProfile_ne_nil B)]
  | cons X A ih =>
    have hA' : ∀ Y ∈ A, Y.isFrame = false := fun Y hY => hA Y (List.mem_cons_of_mem _ hY)
    have hX := hA X (List.mem_cons_self _ _)
    cases X with
    | Value V =>
      rw [List.cons_append, StackEntry.countLabels_cons_value]
      simp only [StackEntry.labelProfile]
      exact ih hA'
    | Label L =>
      rw [List.cons_append, StackEntry.countLabels_cons_label]
      simp only [StackEntry.labelProfile]
      rw [ih hA', addHead_addHead]
    | Frame M Ar C => simp [StackEntry.isFrame] at hX

theorem StackEntry.splitAtLabel_no_frame (Es : List (StackEntry Instr)) :
    ∀ (N : Nat) (A : List (StackEntry Instr)) (L : SSVM.Label Instr)
      (B : List (StackEntry Instr)),
      StackEntry.splitAtLabel N Es = some (A, L, B) →
      N < StackEntry.countLabels (Es.takeWhile (fun X => !X.isFrame)) →
        ∀ X ∈ A, X.isFrame = false := by
  induction Es with
  | nil =>
    intro N A L B h
    simp [StackEntry.splitAtLabel] at h
  | cons Y Es ih =>
    intro N A L B h hN
    cases Y with
    | Value V =>
      simp only [StackEntry.splitAtLabel, Option.map_eq_some'] at h
      obtain ⟨⟨A1, L1, B1⟩, hR, hEq⟩ := h
      simp only [Prod.mk.injEq] at hEq
      obtain ⟨rfl, rfl, rfl⟩ := hEq
      have hN' : N < StackEntry.countLabels (Es.takeWhile (fun X => !X.isFrame)) := by
        simpa [StackEntry.isFrame, StackEntry.countLabels, StackEntry.isLabel] using hN
      intro X hX
      rcases List.mem_cons.mp hX with rfl | hX
      · rfl
      · exact ih N A1 L1 B1 hR hN' X hX
    | Label L0 =>
      cases N with
      | zero =>
        simp only [StackEntry.splitAtLabel, Option.some.injEq, Prod.mk.injEq] at h
        obtain ⟨rfl, -, -⟩ := h
        intro X hX
        simp at hX
      | succ N =>
        simp only [StackEntry.splitAtLabel, Option.map_eq_some'] at h
        obtain ⟨⟨A1, L1, B1⟩, hR, hEq⟩ := h
        simp only [Prod.mk.injEq] at hEq
        obtain ⟨rfl, rfl, rfl⟩ := hEq
        have hN' : N < StackEntry.countLabels (Es.takeWhile (fun X => !X.isFrame)) := by
          simpa [StackEntry.isFrame, StackEntry.countLabels, StackEntry.isLabel] using hN
        intro X hX
        rcases List.mem_cons.mp hX with rfl | hX
        · rfl
        · exact ih N A1 L1 B1 hR hN' X hX
    | Frame M Ar C =>
      simp [StackEntry.isFrame, StackEntry.countLabels] at hN

theorem StackEntry.splitAtFrame_some (Es : List (StackEntry Instr)) :
    ∀ (A : List (StackEntry Instr)) (C : Nat) (B : List (StackEntry Instr)),
      StackEntry.splitAtFrame Es = some (A, C, B) →
        (∃ M Ar, Es = A ++ StackEntry.Frame M Ar C :: B) ∧ (∀ X ∈ A, X.isFrame = false) ∧
          Es.takeWhile (fun X => !X.isFrame) = A := by
  induction Es with
  | nil =>
    intro A C B h
    simp [StackEntry.splitAtFrame] at h
  | cons Y Es ih =>
    intro A C B h
    cases Y with
    | Value V =>
      simp only [StackEntry.splitAtFrame, Option.map_eq_some'] at h
      obtain ⟨⟨A1, C1, B1⟩, hR, hEq⟩ := h
      simp only [Prod.mk.injEq] at hEq
      obtain ⟨rfl, rfl, rfl⟩ := hEq
      obtain ⟨⟨M, Ar, hEs⟩, hA, hT⟩ := ih A1 C1 B1 hR
      refine ⟨⟨M, Ar, by rw [hEs]; rfl⟩, ?_, ?_⟩
      · intro X hX
        rcases List.mem_cons.mp hX with rfl | hX
        · rfl
        · exact hA X hX
      · rw [List.takeWhile_cons_of_pos (by rfl), hT]
    | Label L0 =>
      simp only [StackEntry.splitAtFrame, Option.map_eq_some'] at h
      obtain ⟨⟨A1, C1, B1⟩, hR, hEq⟩ := h
      simp only [Prod.mk.injEq] at hEq
      obtain ⟨rfl, rfl, rfl⟩ := hEq
      obtain ⟨⟨M, Ar, hEs⟩, hA, hT⟩ := ih A1 C1 B1 hR
      refine ⟨⟨M, Ar, by rw [hEs]; rfl⟩, ?_, ?_⟩
      · intro X hX
        rcases List.mem_cons.mp hX with rfl | hX
        · rfl
        · exact hA X hX
      · rw [List.takeWhile_cons_of_pos (by rfl), hT]
    | Frame M Ar C0 =>
      simp only [StackEntry.splitAtFrame, Option.some.injEq, Prod.mk.injEq] at h
      obtain ⟨rfl, rfl, rfl⟩ := h
      exact ⟨⟨M, Ar, rfl⟩, by simp, by simp [StackEntry.isFrame]⟩

theorem InstrProvider.blockProfile_drop (Is : List (InstrScope Instr)) :
    ∀ (N : Nat) (Ns : List Nat) (K : Nat),
      (∀ S ∈ Is, S.Tag ≠ SeqType.Expression) →
      InstrProvider.blockProfile Is = N :: Ns → K ≤ N →
        (∀ S ∈ Is.take K, S.Tag = SeqType.Block) ∧ K ≤ Is.length ∧
          InstrProvider.blockProfile (Is.drop K) = (N - K) :: Ns := by
  induction Is with
  | nil =>
    intro N Ns K _ h hK
    simp only [InstrProvider.blockProfile, List.cons.injEq] at h
    obtain ⟨rfl, rfl⟩ := h
    have : K = 0 := by omega
    subst this
    simp [InstrProvider.blockProfile]
  | cons S Is ih =>
    intro N Ns K hE h hK
    have hE' : ∀ X ∈ Is, X.Tag ≠ SeqType.Expression :=
      fun X hX => hE X (List.mem_cons_of_mem _ hX)
    cases K with
    | zero => simp [h]
    | succ K =>
      cases hT : S.Tag with
      | Expression => exact absurd hT (hE S (List.mem_cons_self _ _))
      | FunctionCall =>
        simp only [InstrProvider.blockProfile, hT, List.cons.injEq] at h
        omega
      | Block =>
        simp only [InstrProvider.blockProfile, hT] at h
        cases hP : InstrProvider.blockProfile Is with
        | nil => exact absurd hP (InstrProvider.blockProfile_ne_nil Is)
        | cons M Ms =>
          rw [hP] at h
          simp only [addHead, List.cons.injEq] at h
          obtain ⟨rfl, rfl⟩ := h
          obtain ⟨h1, h2, h3⟩ := ih M Ms K hE' hP (by omega)
          refine ⟨?_, ?_, ?_⟩
          · intro X hX
            rw [List.take_succ_cons] at hX
            rcases List.mem_cons.mp hX with rfl | hX
            · exact hT
            · exact h1 X hX
          · simp only [List.length_cons]
            omega
          · rw [List.drop_succ_cons, h3]
            congr 1
            omega

theorem InstrProvider.blockProfile_call (Is : List (InstrScope Instr)) (N M : Nat)
    (Ms : List Nat) (hE : ∀ S ∈ Is, S.Tag ≠ SeqType.Expression)
    (h : InstrProvider.blockProfile Is = N :: M :: Ms) :
    (∀ S ∈ Is.take N, S.Tag = SeqType.Block) ∧
      (∃ F Rest, Is.drop N = F :: Rest ∧ F.Tag = SeqType.FunctionCall) ∧
      InstrProvider.blockProfile (Is.drop (N + 1)) = M :: Ms := by
  obtain ⟨h1, h2, h3⟩ := InstrProvider.blockProfile_drop Is N (M :: Ms) N hE h (Nat.le_refl _)
  rw [Nat.sub_self] at h3
  refine ⟨h1, ?_⟩
  cases hJ : Is.drop N with
  | nil =>
    rw [hJ] at h3
    simp [InstrProvider.blockProfile] at h3
  | cons F Rest =>
    rw [hJ] at h3
    have hF : F ∈ Is := List.mem_of_mem_drop (by rw [hJ]; exact List.mem_cons_self _ _)
    cases hT : F.Tag with
    | Expression => exact absurd hT (hE F hF)
    | Block =>
      simp only [InstrProvider.blockProfile, hT] at h3
      cases hP : InstrProvider.blockProfile Rest with
      | nil => exact absurd hP (InstrProvider.blockProfile_ne_nil Rest)
      | cons X Xs =>
        rw [hP] at h3
        simp [addHead] at h3
    | FunctionCall =>
      simp only [InstrProvider.blockProfile, hT, List.cons.injEq, true_and] at h3
      refine ⟨⟨F, Rest, rfl, hT⟩, ?_⟩
      have : Is.drop (N + 1) = Rest := by
        rw [← List.drop_drop, hJ]
        rfl
      rw [this, h3]

theorem StackEntry.countLabels_take_le (A : List (StackEntry Instr)) (K : Nat) :
    StackEntry.countLabels (A.take K) ≤ StackEntry.countLabels A := by
  unfold StackEntry.countLabels
  exact ((List.take_sublist K A).filter _).length_le

theorem StackEntry.labelProfile_head (Es : List (StackEntry Instr)) :
    (StackEntry.labelProfile Es).headD 0 =
      StackEntry.countLabels (Es.takeWhile (fun X => !X.isFrame)) := by
  induction Es with
  | nil => rfl
  | cons X Es ih =>
    cases X with
    | Value V =>
      rw [List.takeWhile_cons_of_pos (by rfl), StackEntry.countLabels_cons_value]
      simpa [StackEntry.labelProfile] using ih
    | Label L =>
      rw [List.takeWhile_cons_of_pos (by rfl), StackEntry.countLabels_cons_label, ← ih]
      simp only [StackEntry.labelProfile]
      cases StackEntry.labelProfile Es <;> simp [addHead]
    | Frame M Ar C =>
      rw [List.takeWhile_cons_of_neg (by simp [StackEntry.isFrame])]
      rfl

theorem InstrProvider.blockProfile_head (P : InstrProvider Instr) :
    (InstrProvider.blockProfile P.Iters).headD 0 = P.blocksAboveCall := by
  unfold InstrProvider.blocksAboveCall InstrProvider.scopeTags
  induction P.Iters with
  | nil => rfl
  | cons S Is ih =>
    cases hT : S.Tag with
    | Expression =>
      simp only [InstrProvider.blockProfile, hT, List.map_cons]
      rw [List.takeWhile_cons_of_pos (by simp)]
      simpa using ih
    | Block =>
      simp only [InstrProvider.blockProfile, hT, List.map_cons]
      rw [List.takeWhile_cons_of_pos (by simp)]
      simp only [decide_True, List.filter_cons_of_pos, List.length_cons, ← ih]
      cases InstrProvider.blockProfile Is <;> simp [addHead]
    | FunctionCall =>
      simp only [InstrProvider.blockProfile, hT, List.map_cons]
      rw [List.takeWhile_cons_of_neg (by simp)]
      rfl

theorem StackEntry.popLabel_profile (Es A B : List (StackEntry Instr)) (N : Nat)
    (L : SSVM.Label Instr) (hS : StackEntry.splitAtLabel N Es = some (A, L, B))
    (hN : N < StackEntry.countLabels (Es.takeWhile (fun X => !X.isFrame)))
    (hV : StackEntry.countLabels (A.take L.Arity) = 0) :
    StackEntry.labelProfile Es = addHead (N + 1) (StackEntry.labelProfile B) ∧
      StackEntry.labelProfile (A.take L.Arity ++ B) = StackEntry.labelProfile B := by
  obtain ⟨hEs, hA⟩ := StackEntry.splitAtLabel_some Es N A L B hS
  have hF := StackEntry.splitAtLabel_no_frame Es N A L B hS hN
  constructor
  · rw [hEs, StackEntry.labelProfile_append _ _ hF, hA]
    simp only [StackEntry.labelProfile]
    rw [addHead_addHead, Nat.add_comm]
  · rw [StackEntry.labelProfile_append _ _ (fun X hX => hF X (List.mem_of_mem_take hX)), hV,
      addHead_zero _ (StackEntry.labelProfile_ne_nil B)]

theorem InstrProvider.blockProfile_pop (Is : List (InstrScope Instr)) (K : Nat)
    (P : List Nat) (hP : P ≠ []) (hE : ∀ S ∈ Is, S.Tag ≠ SeqType.Expression)
    (h : InstrProvider.blockProfile Is = addHead K P) :
    InstrProvider.blockProfile (Is.drop K) = P := by
  cases P with
  | nil => exact absurd rfl hP
  | cons M Ms =>
    simp only [addHead] at h
    obtain ⟨-, -, h3⟩ := InstrProvider.blockProfile_drop Is (M + K) Ms K hE h (by omega)
    rw [h3]
    congr 1
    omega

theorem Interpreter.enterFunction_native_state (FuncType : FType) (ModuleAddr : Nat)
    (Locals : List (Nat × ValType)) (Instrs : List Instr)
    (E : Interpreter (StackManager Instr) Store Instr) :
    (Interpreter.enterFunction StackManager.ops
        (FunctionInstance.Native FuncType ModuleAddr Locals Instrs) E).2 =
      { E with
        StackMgr :=
          { Entries :=
              StackEntry.Label { Arity := FuncType.Returns.length, Target := none } ::
                ((zeroLocals Locals).reverse.map StackEntry.Value ++
                  StackEntry.Frame ModuleAddr FuncType.Params.length FuncType.Returns.length ::
                    E.StackMgr.Entries) }
        InstrPdr :=
          { Iters := { Tag := SeqType.Block, Instrs := Instrs } ::
              { Tag := SeqType.FunctionCall, Instrs := [] } :: E.InstrPdr.Iters } } := by
  simp only [Interpreter.enterFunction, Interpreter.enterBlock,
    Interpreter.pushLocals_eq_foldl]
  have h := StackManager.foldl_push_entries (zeroLocals Locals)
    ((StackManager.ops : StackManagerOps _ Instr).pushFrame ModuleAddr FuncType.Params.length
      FuncType.Returns.length E.StackMgr)
  congr 1
  show StackManager.mk (StackEntry.Label _ :: _) = _
  rw [h]
  rfl

theorem Interpreter.Balanced.enterBlock (Arity : Nat) (Target : Option Instr)
    (Seq : List Instr) (E : Interpreter (StackManager Instr) Store Instr)
    (h : Interpreter.Balanced E) :
    Interpreter.Balanced (Interpreter.enterBlock StackManager.ops Arity Target Seq E).2 := by
  obtain ⟨h1, h2⟩ := h
  constructor
  · intro S hS
    simp only [Interpreter.enterBlock, InstrProvider.pushInstrs, List.mem_cons] at hS
    rcases hS with rfl | hS
    · simp
    · exact h1 S hS
  · show StackEntry.labelProfile (StackEntry.Label _ :: E.StackMgr.Entries) =
      InstrProvider.blockProfile ({ Tag := SeqType.Block, Instrs := Seq } :: E.InstrPdr.Iters)
    simp only [StackEntry.labelProfile, InstrProvider.blockProfile, h2]

theorem Interpreter.Balanced.apply (getResultArity : Instr → Nat)
    (getBody : Instr → List Instr) (Op : Interpreter.ControlOp Instr)
    (E : Interpreter (StackManager Instr) Store Instr) (h : Interpreter.Balanced E)
    (hOp : Op.enabled E = true) :
    Interpreter.Balanced (Op.apply getResultArity getBody E).2 := by
  cases Op with
  | enterFunction FuncType ModuleAddr Locals Instrs =>
    obtain ⟨h1, h2⟩ := h
    simp only [Interpreter.ControlOp.apply, Interpreter.enterFunction_native_state]
    constructor
    · intro S hS
      simp only [List.mem_cons] at hS
      rcases hS with rfl | rfl | hS
      · simp
      · simp
      · exact h1 S hS
    · simp only [StackEntry.labelProfile, InstrProvider.blockProfile]
      rw [StackEntry.labelProfile_append _ _ (by simp [StackEntry.isFrame]),
        StackEntry.countLabels_of_values _ (by simp [StackEntry.isValue])]
      simp only [StackEntry.labelProfile, addHead, h2]
  | enterBlock Arity Target Seq => exact Interpreter.Balanced.enterBlock Arity Target Seq E h
  | push Val =>
    obtain ⟨h1, h2⟩ := h
    exact ⟨h1, by
      show StackEntry.labelProfile (StackEntry.Value Val :: E.StackMgr.Entries) = _
      simp only [StackEntry.labelProfile, h2]
      rfl⟩
  | leaveBlock =>
    obtain ⟨h1, h2⟩ := h
    simp only [Interpreter.ControlOp.enabled, decide_eq_true_eq] at hOp
    have hlt : 0 < StackEntry.countLabels E.StackMgr.Entries :=
      Nat.lt_of_lt_of_le hOp (StackManager.labelsInFrame_le E.StackMgr)
    obtain ⟨⟨A, L, B⟩, hSplit⟩ := StackEntry.splitAtLabel_isSome E.StackMgr.Entries 0 hlt
    obtain ⟨-, hA⟩ := StackEntry.splitAtLabel_some E.StackMgr.Entries 0 A L B hSplit
    have hV : StackEntry.countLabels (A.take L.Arity) = 0 :=
      Nat.eq_zero_of_le_zero (hA ▸ StackEntry.countLabels_take_le A L.Arity)
    obtain ⟨p1, p2⟩ := StackEntry.popLabel_profile _ A B 0 L hSplit hOp hV
    have hPop : (StackManager.ops : StackManagerOps _ Instr).popLabel 1 E.StackMgr =
        { Entries := A.take L.Arity ++ B } := by
      show StackManager.popLabel 1 E.StackMgr = _
      simp [StackManager.popLabel, hSplit]
    simp only [Interpreter.ControlOp.apply, Interpreter.leaveBlock, hPop,
      InstrProvider.popInstrs_snd]
    constructor
    · intro S hS
      exact h1 S (List.mem_of_mem_drop hS)
    · show StackEntry.labelProfile (A.take L.Arity ++ B) = _
      rw [p2]
      exact (InstrProvider.blockProfile_pop _ 1 _ (StackEntry.labelProfile_ne_nil B) h1
        (by rw [← h2, p1])).symm
  | branchToLabel Cnt =>
    obtain ⟨h1, h2⟩ := h
    simp only [Interpreter.ControlOp.enabled, Bool.and_eq_true, decide_eq_true_eq] at hOp
    obtain ⟨hCnt, hVal⟩ := hOp
    cases hSplit : StackEntry.splitAtLabel Cnt E.StackMgr.Entries with
    | none => simp [hSplit] at hVal
    | some R =>
      obtain ⟨A, L, B⟩ := R
      rw [hSplit] at hVal
      simp only [List.all_eq_true] at hVal
      have hV : StackEntry.countLabels (A.take L.Arity) = 0 :=
        StackEntry.countLabels_of_values _ hVal
      obtain ⟨p1, p2⟩ := StackEntry.popLabel_profile _ A B Cnt L hSplit hCnt hV
      have hL : E.StackMgr.getLabelWithCount Cnt = L := by
        simp [StackManager.getLabelWithCount, hSplit]
      have hPop : (StackManager.ops : StackManagerOps _ Instr).popLabel (Cnt + 1) E.StackMgr =
          { Entries := A.take L.Arity ++ B } := by
        show StackManager.popLabel (Cnt + 1) E.StackMgr = _
        simp [StackManager.popLabel, hSplit]
      have hE1 : Interpreter.Balanced
          ({ E with
            StackMgr := { Entries := A.take L.Arity ++ B }
            InstrPdr := { Iters := E.InstrPdr.Iters.drop (Cnt + 1) } } :
            Interpreter (StackManager Instr) Store Instr) := by
        constructor
        · intro S hS
          exact h1 S (List.mem_of_mem_drop hS)
        · show StackEntry.labelProfile (A.take L.Arity ++ B) = _
          rw [p2]
          exact (InstrProvider.blockProfile_pop _ (Cnt + 1) _
            (StackEntry.labelProfile_ne_nil B) h1 (by rw [← h2, p1])).symm
      simp only [Interpreter.ControlOp.apply, Interpreter.branchToLabel, hL, hPop,
        InstrProvider.iterate_popInstrs]
      cases hT : L.Target with
      | none => exact hE1
      | some I => exact Interpreter.Balanced.enterBlock _ _ _ _ hE1
  | leaveFunction =>
    obtain ⟨h1, h2⟩ := h
    simp only [Interpreter.ControlOp.enabled] at hOp
    cases hSplit : StackEntry.splitAtFrame E.StackMgr.Entries with
    | none => simp [hSplit] at hOp
    | some R =>
      obtain ⟨A, C, B⟩ := R
      rw [hSplit] at hOp
      simp only [List.all_eq_true] at hOp
      obtain ⟨⟨M, Ar, hEs⟩, hA, -⟩ := StackEntry.splitAtFrame_some _ A C B hSplit
      have hPop : (StackManager.ops : StackManagerOps _ Instr).popFrame E.StackMgr =
          (StackEntry.countLabels A, { Entries := A.take C ++ B }) := by
        show StackManager.popFrame E.StackMgr = _
        simp [StackManager.popFrame, hSplit]
      have p1 : StackEntry.labelProfile E.StackMgr.Entries =
          StackEntry.countLabels A :: StackEntry.labelProfile B := by
        rw [hEs, StackEntry.labelProfile_append _ _ hA]
        simp [StackEntry.labelProfile, addHead]
      have p2 : StackEntry.labelProfile (A.take C ++ B) = StackEntry.labelProfile B := by
        rw [StackEntry.labelProfile_append _ _ (fun X hX => hA X (List.mem_of_mem_take hX)),
          StackEntry.countLabels_of_values _ hOp,
          addHead_zero _ (StackEntry.labelProfile_ne_nil B)]
      have hI : (Interpreter.leaveFunction StackManager.ops E).2 =
          { E with
            StackMgr := { Entries := A.take C ++ B }
            InstrPdr := { Iters := E.InstrPdr.Iters.drop (StackEntry.countLabels A + 1) } } := by
        unfold Interpreter.leaveFunction
        dsimp only
        rw [hPop]
        dsimp only
        rw [InstrProvider.iterate_popInstrs, InstrProvider.popInstrs_snd]
        simp only [List.drop_drop]
      simp only [Interpreter.ControlOp.apply, hI]
      constructor
      · intro S hS
        exact h1 S (List.mem_of_mem_drop hS)
      · show StackEntry.labelProfile (A.take C ++ B) = _
        rw [p2]
        cases hB : StackEntry.labelProfile B with
        | nil => exact absurd hB (StackEntry.labelProfile_ne_nil B)
        | cons X Xs =>
          obtain ⟨-, -, h3⟩ := InstrProvider.blockProfile_call _ (StackEntry.countLabels A) X Xs
            h1 (by rw [← h2, p1, hB])
          exact h3.symm

theorem Interpreter.Balanced.counts (E : Interpreter (StackManager Instr) Store Instr)
    (h : Interpreter.Balanced E) : E.InstrPdr.blocksAboveCall = E.StackMgr.labelsInFrame := by
  rw [← InstrProvider.blockProfile_head, ← h.2, StackEntry.labelProfile_head]
  rfl

theorem Interpreter.Balanced.run (getResultArity : Instr → Nat)
    (getBody : Instr → List Instr) (Ops : List (Interpreter.ControlOp Instr)) :
    ∀ (E0 E : Interpreter (StackManager Instr) Store Instr), Interpreter.Balanced E0 →
      Interpreter.ControlOp.run getResultArity getBody Ops E0 = some E →
        Interpreter.Balanced E := by
  induction Ops with
  | nil =>
    intro E0 E h hR
    simp only [Interpreter.ControlOp.run, Option.some.injEq] at hR
    exact hR ▸ h
  | cons Op Ops ih =>
    intro E0 E h hR
    simp only [Interpreter.ControlOp.run] at hR
    split at hR
    · rename_i hOp
      exact ih _ E (Interpreter.Balanced.apply getResultArity getBody Op E0 h hOp) hR
    · simp at hR

/-- C30. On the modelled stack manager, with operations made as validated
code makes them (a block is left and a branch is taken inside the current
frame, a function is left when there is a frame, and the entries kept on top
by a branch or a function exit are values): an engine without scopes whose
stack holds values only is balanced; every state reached from a balanced
engine by `enterFunction` (native), `enterBlock`, `leaveBlock`,
`branchToLabel`, `leaveFunction` and pushes of values is balanced, and in it
the number of Block scopes above the topmost FunctionCall scope equals the
number of labels above the topmost frame; and in a balanced engine with a
frame, `popFrame` unwinds exactly the labels of the current frame and
`leaveFunction` pops that many scopes plus one, which are the Block scopes of
the function followed by its FunctionCall scope. -/
theorem scope_label_balance (getResultArity : Instr → Nat) (getBody : Instr → List Instr) :
    (∀ E0 : Interpreter (StackManager Instr) Store Instr,
      E0.InstrPdr.Iters = [] → (∀ X ∈ E0.StackMgr.Entries, X.isValue = true) →
        Interpreter.Balanced E0) ∧
    (∀ (Ops : List (Interpreter.ControlOp Instr))
        (E0 E : Interpreter (StackManager Instr) Store Instr),
      Interpreter.Balanced E0 →
      Interpreter.ControlOp.run getResultArity getBody Ops E0 = some E →
        Interpreter.Balanced E ∧ E.InstrPdr.blocksAboveCall = E.StackMgr.labelsInFrame) ∧
    (∀ (E : Interpreter (StackManager Instr) Store Instr) (A : List (StackEntry Instr))
        (C : Nat) (B : List (StackEntry Instr)),
      Interpreter.Balanced E → StackEntry.splitAtFrame E.StackMgr.Entries = some (A, C, B) →
        (StackManager.popFrame E.StackMgr).1 = E.StackMgr.labelsInFrame ∧
          (Interpreter.leaveFunction StackManager.ops E).2.InstrPdr.Iters =
            E.InstrPdr.Iters.drop (E.StackMgr.labelsInFrame + 1) ∧
          (E.InstrPdr.Iters.take (E.StackMgr.labelsInFrame + 1)).map InstrScope.Tag =
            List.replicate E.StackMgr.labelsInFrame SeqType.Block ++ [SeqType.FunctionCall]) := by
  refine ⟨?_, ?_, ?_⟩
  · intro E0 hI hV
    constructor
    · intro S hS
      rw [hI] at hS
      simp at hS
    · rw [hI]
      have := StackEntry.labelProfile_append E0.StackMgr.Entries []
        (fun X hX => by
          have hv := hV X hX
          cases X <;> simp_all [StackEntry.isValue, StackEntry.isFrame])
      rw [List.append_nil, StackEntry.countLabels_of_values _ hV] at this
      rw [this]
      rfl
  · intro Ops E0 E h hR
    have hB := Interpreter.Balanced.run getResultArity getBody Ops E0 E h hR
    exact ⟨hB, hB.counts⟩
  · intro E A C B h hSplit
    obtain ⟨h1, h2⟩ := h
    obtain ⟨⟨M, Ar, hEs⟩, hA, hT⟩ := StackEntry.splitAtFrame_some _ A C B hSplit
    have hN : E.StackMgr.labelsInFrame = StackEntry.countLabels A := by
      unfold StackManager.labelsInFrame
      rw [hT]
    have hPop : (StackManager.ops : StackManagerOps _ Instr).popFrame E.StackMgr =
        (StackEntry.countLabels A, { Entries := A.take C ++ B }) := by
      show StackManager.popFrame E.StackMgr = _
      simp [StackManager.popFrame, hSplit]
    have p1 : StackEntry.labelProfile E.StackMgr.Entries =
        StackEntry.countLabels A :: StackEntry.labelProfile B := by
      rw [hEs, StackEntry.labelProfile_append _ _ hA]
      simp [StackEntry.labelProfile, addHead]
    rw [hN]
    refine ⟨?_, ?_, ?_⟩
    · show (StackManager.ops.popFrame E.StackMgr).1 = _
      rw [hPop]
    · unfold Interpreter.leaveFunction
      dsimp only
      rw [hPop]
      dsimp only
      rw [InstrProvider.iterate_popInstrs, InstrProvider.popInstrs_snd]
      simp only [List.drop_drop]
    · cases hB : StackEntry.labelProfile B with
      | nil => exact absurd hB (StackEntry.labelProfile_ne_nil B)
      | cons X Xs =>
        have hP : InstrProvider.blockProfile E.InstrPdr.Iters =
            StackEntry.countLabels A :: X :: Xs := by rw [← h2, p1, hB]
        obtain ⟨hBl, ⟨F, Rest, hD, hF⟩, -⟩ :=
          InstrProvider.blockProfile_call _ (StackEntry.countLabels A) X Xs h1 hP
        obtain ⟨-, hLen, -⟩ := InstrProvider.blockProfile_drop _ _ _ (StackEntry.countLabels A)
          h1 hP (Nat.le_refl _)
        rw [List.take_add, List.map_append, hD]
        congr 1
        · rw [List.eq_replicate_iff]
          constructor
          · simp [hLen]
          · intro T hT
            obtain ⟨S, hS, rfl⟩ := List.mem_map.mp hT
            exact hBl S hS
        · simp [hF]

/-- Witness for C30: the idle sample engine is balanced; the sample sequence
of operations ends in an engine with two Block scopes above the FunctionCall
scope and two labels above the frame, and leaving the function there pops all
three scopes. -/
theorem scope_label_balance_witness :
    Interpreter.Balanced Sample.bare ∧
      Sample.afterControlOps.InstrPdr.blocksAboveCall =
        Sample.afterControlOps.StackMgr.labelsInFrame ∧
      Sample.afterControlOps.StackMgr.labelsInFrame = 2 ∧
      (Interpreter.leaveFunction StackManager.ops Sample.afterControlOps).2.InstrPdr.Iters =
        [] :=
  ⟨(scope_label_balance (fun _ => 0) (fun _ => [OpCode.Nop])).1 Sample.bare rfl
      (by simp [Sample.bare]),
    ((scope_label_balance (fun _ => 0) (fun _ => [OpCode.Nop])).2.1 Sample.controlOps
      Sample.bare Sample.afterControlOps
      ((scope_label_balance (fun _ => 0) (fun _ => [OpCode.Nop])).1 Sample.bare rfl
        (by simp [Sample.bare]))
      rfl).2,
    rfl,
    ((scope_label_balance (fun _ => 0) (fun _ => [OpCode.Nop])).2.2 Sample.afterControlOps
      _ _ _
      ((scope_label_balance (fun _ => 0) (fun _ => [OpCode.Nop])).2.1 Sample.controlOps
        Sample.bare Sample.afterControlOps
        ((scope_label_balance (fun _ => 0) (fun _ => [OpCode.Nop])).1 Sample.bare rfl
          (by simp [Sample.bare]))
        rfl).1
      rfl).2.1⟩

end Balance

/-! ## A branch to the function label -/

section FunctionLabel

variable {Store Instr : Type}

theorem StackEntry.splitAtLabel_append (A : List (StackEntry Instr)) (L : SSVM.Label Instr)
    (B : List (StackEntry Instr)) :
    StackEntry.splitAtLabel (StackEntry.countLabels A) (A ++ StackEntry.Label L :: B) =
      some (A, L, B) := by
  induction A with
  | nil => rfl
  | cons X A ih =>
    cases X with
    | Value V =>
      rw [StackEntry.countLabels_cons_value]
      simp only [List.cons_append, StackEntry.splitAtLabel, ih, Option.map_some']
    | Label L0 =>
      rw [StackEntry.countLabels_cons_label]
      show Option.map _ (StackEntry.splitAtLabel _ (A ++ StackEntry.Label L :: B)) = _
      rw [ih]
      rfl
    | Frame M Ar C =>
      have h : StackEntry.countLabels (StackEntry.Frame M Ar C :: A) =
          StackEntry.countLabels A := by
        simp [StackEntry.countLabels, StackEntry.isLabel]
      rw [h]
      simp only [List.cons_append, StackEntry.splitAtLabel, ih, Option.map_some']

theorem StackEntry.splitAtFrame_append (P : List (StackEntry Instr)) (M Ar C : Nat)
    (B : List (StackEntry Instr)) (hP : ∀ X ∈ P, X.isFrame = false) :
    StackEntry.splitAtFrame (P ++ StackEntry.Frame M Ar C :: B) = some (P, C, B) := by
  induction P with
  | nil => rfl
  | cons X P ih =>
    have hP' : ∀ Y ∈ P, Y.isFrame = false := fun Y hY => hP Y (List.mem_cons_of_mem _ hY)
    have hX := hP X (List.mem_cons_self _ _)
    cases X with
    | Value V =>
      show Option.map _ (StackEntry.splitAtFrame (P ++ StackEntry.Frame M Ar C :: B)) = _
      rw [ih hP']
      rfl
    | Label L0 =>
      show Option.map _ (StackEntry.splitAtFrame (P ++ StackEntry.Frame M Ar C :: B)) = _
      rw [ih hP']
      rfl
    | Frame M0 Ar0 C0 => simp [StackEntry.isFrame] at hX

/-- C31. A branch to the label that `enterFunction` pushed for a native
function acts as a return. The engine is inside the function: its stack is
some entries `A` above the stack that `enterFunction` left, and its provider
has one scope per label of `A` above the Block scope of the body and the empty
FunctionCall scope. The branch index of the function label is the number of
labels in `A`; that label has the arity of the results and no target. The
branch succeeds, runs no loop helper and pushes no scope: it leaves the empty
FunctionCall scope on top. The next run-loop step is `leaveFunction`, which
finds no label above the frame, succeeds and pops that one scope, so the
provider is the one of the caller and the results lie on the stack of the
caller. -/
theorem branch_to_function_label_returns
    (runLoopOp : Interpreter.InstrOp (StackManager Instr) Store Instr)
    (getOpCode : Instr → OpCode)
    (dispatchInstruction : Interpreter.Dispatch (StackManager Instr) Store Instr)
    (FuncType : FType) (ModuleAddr : Nat) (Locals : List (Nat × ValType))
    (Instrs Remaining : List Instr) (E0 E : Interpreter (StackManager Instr) Store Instr)
    (A : List (StackEntry Instr)) (Bs : List (InstrScope Instr))
    (hS : E.StackMgr.Entries =
      A ++ (Interpreter.enterFunction StackManager.ops
        (FunctionInstance.Native FuncType ModuleAddr Locals Instrs) E0).2.StackMgr.Entries)
    (hP : E.InstrPdr.Iters =
      Bs ++ { Tag := SeqType.Block, Instrs := Remaining } ::
        { Tag := SeqType.FunctionCall, Instrs := [] } :: E0.InstrPdr.Iters)
    (hBs : Bs.length = StackEntry.countLabels A)
    (hVal : ∀ X ∈ A.take FuncType.Returns.length, X.isValue = true) :
    E.StackMgr.getLabelWithCount (StackEntry.countLabels A) =
        { Arity := FuncType.Returns.length, Target := none } ∧
    ∃ E1 : Interpreter (StackManager Instr) Store Instr,
      Interpreter.branchToLabel StackManager.ops StackManager.getLabelWithCount runLoopOp
          (StackEntry.countLabels A) E = (Except.ok (), E1) ∧
        E1.InstrPdr.Iters =
          { Tag := SeqType.FunctionCall, Instrs := [] } :: E0.InstrPdr.Iters ∧
        E1.StackMgr.Entries =
          A.take FuncType.Returns.length ++
            ((zeroLocals Locals).reverse.map StackEntry.Value ++
              StackEntry.Frame ModuleAddr FuncType.Params.length FuncType.Returns.length ::
                E0.StackMgr.Entries) ∧
        Interpreter.executeStep StackManager.ops getOpCode dispatchInstruction E1 =
          Interpreter.leaveFunction StackManager.ops E1 ∧
        (StackManager.popFrame E1.StackMgr).1 = 0 ∧
        (Interpreter.leaveFunction StackManager.ops E1).1 = Except.ok () ∧
        (Interpreter.leaveFunction StackManager.ops E1).2.InstrPdr.Iters = E0.InstrPdr.Iters ∧
        (FuncType.Returns.length ≤ A.length →
          (Interpreter.leaveFunction StackManager.ops E1).2.StackMgr.Entries =
            A.take FuncType.Returns.length ++ E0.StackMgr.Entries) := by
  rw [Interpreter.enterFunction_native_state] at hS
  dsimp only at hS
  have hSplit := StackEntry.splitAtLabel_append A
    ({ Arity := FuncType.Returns.length, Target := none } : SSVM.Label Instr)
    ((zeroLocals Locals).reverse.map StackEntry.Value ++
      StackEntry.Frame ModuleAddr FuncType.Params.length FuncType.Returns.length ::
        E0.StackMgr.Entries)
  rw [← hS] at hSplit
  have hL : E.StackMgr.getLabelWithCount (StackEntry.countLabels A) =
      { Arity := FuncType.Returns.length, Target := none } := by
    simp [StackManager.getLabelWithCount, hSplit]
  have hPop : (StackManager.ops : StackManagerOps _ Instr).popLabel
      (StackEntry.countLabels A + 1) E.StackMgr =
      { Entries := A.take FuncType.Returns.length ++
          ((zeroLocals Locals).reverse.map StackEntry.Value ++
            StackEntry.Frame ModuleAddr FuncType.Params.length FuncType.Returns.length ::
              E0.StackMgr.Entries) } := by
    show StackManager.popLabel (StackEntry.countLabels A + 1) E.StackMgr = _
    simp [StackManager.popLabel, hSplit]
  have hDrop : E.InstrPdr.Iters.drop (StackEntry.countLabels A + 1) =
      { Tag := SeqType.FunctionCall, Instrs := [] } :: E0.InstrPdr.Iters := by
    rw [hP, ← hBs, List.drop_append_eq_append_drop]
    simp
  have hPre : ∀ X ∈ A.take FuncType.Returns.length ++
      (zeroLocals Locals).reverse.map StackEntry.Value, X.isValue = true := by
    intro X hX
    rcases List.mem_append.mp hX with h | h
    · exact hVal X h
    · obtain ⟨V, -, rfl⟩ := List.mem_map.mp h
      rfl
  have hPreF : ∀ X ∈ A.take FuncType.Returns.length ++
      (zeroLocals Locals).reverse.map StackEntry.Value, X.isFrame = false := by
    intro X hX
    have := hPre X hX
    cases X <;> simp_all [StackEntry.isValue, StackEntry.isFrame]
  have hFrame := StackEntry.splitAtFrame_append _ ModuleAddr FuncType.Params.length
    FuncType.Returns.length E0.StackMgr.Entries hPreF
  rw [List.append_assoc] at hFrame
  have hPF : (StackManager.ops : StackManagerOps _ Instr).popFrame
      { Entries := A.take FuncType.Returns.length ++
          ((zeroLocals Locals).reverse.map StackEntry.Value ++
            StackEntry.Frame ModuleAddr FuncType.Params.length FuncType.Returns.length ::
              E0.StackMgr.Entries) } =
      (0, { Entries :=
        (A.take FuncType.Returns.length ++
          (zeroLocals Locals).reverse.map StackEntry.Value).take FuncType.Returns.length ++
          E0.StackMgr.Entries }) := by
    show StackManager.popFrame _ = _
    simp only [StackManager.popFrame, hFrame, StackEntry.countLabels_of_values _ hPre]
  refine ⟨hL, { E with
      StackMgr := { Entries := A.take FuncType.Returns.length ++
          ((zeroLocals Locals).reverse.map StackEntry.Value ++
            StackEntry.Frame ModuleAddr FuncType.Params.length FuncType.Returns.length ::
              E0.StackMgr.Entries) }
      InstrPdr := { Iters := { Tag := SeqType.FunctionCall, Instrs := [] } ::
          E0.InstrPdr.Iters } }, ?_, rfl, rfl, ?_, ?_, rfl, ?_, ?_⟩
  · simp only [Interpreter.branchToLabel, hL, hPop, InstrProvider.iterate_popInstrs, hDrop]
  · simp [Interpreter.executeStep, InstrProvider.getNextInstr, InstrProvider.getTopScopeType]
  · show (StackManager.ops.popFrame _).1 = 0
    rw [hPF]
  · unfold Interpreter.leaveFunction
    dsimp only
    rw [hPF]
    dsimp only
    rw [Function.iterate_zero, id_eq, InstrProvider.popInstrs_snd]
    rfl
  · intro hLen
    unfold Interpreter.leaveFunction
    dsimp only
    rw [hPF]
    dsimp only
    rw [List.take_append_of_le_length (by simp [hLen]), List.take_take, Nat.min_self]

/-- Witness for C31: in the sample engine, inside a function with one result
and below one block, the branch with index 1 succeeds and the next
`leaveFunction` leaves the value 5 alone on the stack of the caller. -/
theorem branch_to_function_label_returns_witness :
    (Interpreter.branchToLabel StackManager.ops StackManager.getLabelWithCount
        (fun _ E => (Except.ok (), E)) 1 Sample.inFunction).1 = Except.ok () ∧
    (Interpreter.leaveFunction StackManager.ops
        (Interpreter.branchToLabel StackManager.ops StackManager.getLabelWithCount
          (fun _ E => (Except.ok (), E)) 1 Sample.inFunction).2).2.StackMgr.Entries =
      [StackEntry.Value (ValVariant.I32 5)] := by
  obtain ⟨-, E1, hBr, -, -, -, -, -, -, hFin⟩ :=
    branch_to_function_label_returns (fun _ E => (Except.ok (), E)) id
      (fun _ _ E => (Except.ok (), E))
      { Params := [], Returns := [ValType.I32] } 0 [(1, ValType.I32)] [OpCode.Nop]
      [OpCode.Nop] Sample.bare Sample.inFunction
      [StackEntry.Value (ValVariant.I32 5), StackEntry.Label { Arity := 0, Target := none }]
      [{ Tag := SeqType.Block, Instrs := [] }] rfl rfl rfl (by decide)
  have hBr1 : Interpreter.branchToLabel StackManager.ops StackManager.getLabelWithCount
      (fun _ E => (Except.ok (), E)) 1 Sample.inFunction = (Except.ok (), E1) := hBr
  rw [hBr1]
  exact ⟨rfl, hFin (by decide)⟩

end FunctionLabel

/-! ## Parametric instructions -/

section Parametric

variable {Store Instr : Type}

/-- C32. On a stack whose top entries are the values `V1`, `V2` and the i32
condition `C` (on top), `select` succeeds and leaves `V1` when `C` is not zero
and `V2` when it is zero above the unchanged rest, so the height falls by 2;
`drop` succeeds and removes the value on top. -/
theorem select_and_drop (V1 V2 V : ValVariant) (C : Nat) (Rest : List (StackEntry Instr))
    (E : Interpreter (StackManager Instr) Store Instr) :
    Interpreter.executeParametric StackManager.ops StackManager.pop OpCode.Select
        { E with
          StackMgr :=
            { Entries := StackEntry.Value (ValVariant.I32 C) :: StackEntry.Value V2 ::
                StackEntry.Value V1 :: Rest } } =
      some (Except.ok (),
        { E with
          StackMgr := { Entries := StackEntry.Value (if C = 0 then V2 else V1) :: Rest } }) ∧
    (StackEntry.Value (if C = 0 then V2 else V1) :: Rest).length + 2 =
      (StackEntry.Value (ValVariant.I32 C) :: StackEntry.Value V2 ::
        StackEntry.Value V1 :: Rest).length ∧
    Interpreter.executeParametric StackManager.ops StackManager.pop OpCode.Drop
        { E with StackMgr := { Entries := StackEntry.Value V :: Rest } } =
      some (Except.ok (), { E with StackMgr := { Entries := Rest } }) := by
  refine ⟨?_, by simp, rfl⟩
  by_cases hC : C = 0
  · subst hC
    rfl
  · simp only [Interpreter.executeParametric, StackManager.pop, CType.ofVariant, hC, if_false]
    rfl

end Parametric

/-! ## EEI: 256-bit values in memory -/

section Words

open Executor Executor.EEI Executor.Instance

theorem Executor.EEI.take_eq_zeros (Src : List Byte) (N : Nat) (hN : N ≤ Src.length)
    (hZ : ∀ I, I < N → Src.getD I 0 = 0) : Src.take N = List.replicate N 0 := by
  rw [List.eq_replicate_iff]
  refine ⟨by simp [hN], ?_⟩
  intro B hB
  obtain ⟨I, hI, rfl⟩ := List.getElem_of_mem hB
  have hI' : I < N := by
    simp only [List.length_take] at hI
    omega
  have := hZ I hI'
  rw [List.getD_eq_getElem _ _ (by omega)] at this
  rw [List.getElem_take]
  exact this

/-- C33. With the byte count clamped to 32 and a source of 32 bytes,
`storeUInt` reports `ExecutionFailed` exactly when one of the leading bytes of
the source is not zero, and then the memory is unchanged. When the leading
bytes are zero and the range is inside the memory, it succeeds and writes the
low bytes in reversed order, and `loadUInt` at the same offset and count then
succeeds with the source and leaves the memory as it is. -/
theorem storeUInt_loadUInt_round_trip (Src : List Byte) (Off Bytes : Nat)
    (M : MemoryInstance) (hLen : Src.length = 32) :
    ((storeUInt MemoryInstance.ops Src Off Bytes M).1 = ErrCode.ExecutionFailed ↔
      ∃ I, I < 32 - min Bytes 32 ∧ Src.getD I 0 ≠ 0) ∧
    ((∃ I, I < 32 - min Bytes 32 ∧ Src.getD I 0 ≠ 0) →
      (storeUInt MemoryInstance.ops Src Off Bytes M).2 = M) ∧
    ((∀ I, I < 32 - min Bytes 32 → Src.getD I 0 = 0) →
      Off + min Bytes 32 ≤ M.Data.length →
        storeUInt MemoryInstance.ops Src Off Bytes M =
            (ErrCode.Success,
              { Data :=
                  M.Data.take Off ++ (Src.drop (32 - min Bytes 32)).reverse ++
                    M.Data.drop (Off + min Bytes 32) }) ∧
          loadUInt MemoryInstance.getArray Off Bytes
              (storeUInt MemoryInstance.ops Src Off Bytes M).2 =
            (ErrCode.Success, Src, (storeUInt MemoryInstance.ops Src Off Bytes M).2)) := by
  have hB : (if 32 < Bytes then 32 else Bytes) = min Bytes 32 := by
    split <;> omega
  generalize hBd : min Bytes 32 = B at hB
  have hB32 : B ≤ 32 := by omega
  have hAny : ((List.range (32 - B)).any (fun I => decide (Src.getD I 0 ≠ 0)) = true) ↔
      ∃ I, I < 32 - B ∧ Src.getD I 0 ≠ 0 := by
    simp only [List.any_eq_true, List.mem_range, decide_eq_true_eq]
  have hStore : storeUInt MemoryInstance.ops Src Off Bytes M =
      if (List.range (32 - B)).any (fun I => decide (Src.getD I 0 ≠ 0)) then
        (ErrCode.ExecutionFailed, M)
      else MemoryInstance.setArray (Src.drop (32 - B)) Off B true M := by
    unfold storeUInt
    simp only [hB]
    rfl
  refine ⟨?_, ?_, ?_⟩
  · rw [hStore, ← hAny]
    constructor
    · intro h
      by_contra hc
      rw [if_neg hc] at h
      unfold MemoryInstance.setArray at h
      split at h <;> simp at h
    · intro h
      rw [if_pos h]
  · intro h
    rw [hStore, if_pos (hAny.mpr h)]
  · intro hZ hIn
    have hc : ¬ ((List.range (32 - B)).any (fun I => decide (Src.getD I 0 ≠ 0)) = true) := by
      rw [hAny]
      push_neg
      exact hZ
    have hS : storeUInt MemoryInstance.ops Src Off Bytes M =
        (ErrCode.Success,
          { Data := M.Data.take Off ++ (Src.drop (32 - B)).reverse ++ M.Data.drop (Off + B) }) := by
      rw [hStore, if_neg hc]
      unfold MemoryInstance.setArray
      rw [if_pos hIn]
      have hT : (Src.drop (32 - B)).take B = Src.drop (32 - B) := by
        apply List.take_of_length_le
        simp only [List.length_drop]
        omega
      simp [hT]
    refine ⟨hS, ?_⟩
    rw [hS]
    unfold loadUInt
    simp only [hB]
    have hDl : (Src.drop (32 - B)).length = B := by
      simp only [List.length_drop]
      omega
    have hG : MemoryInstance.getArray Off B true
        { Data := M.Data.take Off ++ (Src.drop (32 - B)).reverse ++ M.Data.drop (Off + B) } =
        (ErrCode.Success, Src.drop (32 - B),
          { Data := M.Data.take Off ++ (Src.drop (32 - B)).reverse ++
              M.Data.drop (Off + B) }) := by
      unfold MemoryInstance.getArray
      have hl : Off + B ≤ (M.Data.take Off ++ (Src.drop (32 - B)).reverse ++
          M.Data.drop (Off + B)).length := by
        simp only [List.length_append, List.length_take, List.length_reverse, hDl,
          List.length_drop]
        omega
      rw [if_pos hl]
      have hOff : (M.Data.take Off).length = Off := by
        simp only [List.length_take]
        omega
      have hd : (M.Data.take Off ++ (Src.drop (32 - B)).reverse ++
          M.Data.drop (Off + B)).drop Off =
          (Src.drop (32 - B)).reverse ++ M.Data.drop (Off + B) := by
        rw [List.append_assoc, List.drop_append_of_le_length (by omega),
          List.drop_of_length_le (by omega), List.nil_append]
      rw [hd, List.take_append_of_le_length (by simp [hDl]),
        List.take_of_length_le (by simp [hDl])]
      simp
    rw [hG]
    simp only [List.take_of_length_le (Nat.le_of_eq hDl), hDl, Nat.sub_self,
      List.replicate_zero, List.append_nil]
    congr 1
    congr 1
    rw [← take_eq_zeros Src (32 - B) (by omega) hZ]
    exact List.take_append_drop _ _

/-- Witness for C33: storing two bytes of the sample value 258 at offset 3 of
the sample memory writes 2 and 1 there and loading them gives 258 again;
storing one byte of it fails. -/
theorem storeUInt_loadUInt_round_trip_witness :
    Sample.word258.length = 32 ∧
    storeUInt MemoryInstance.ops Sample.word258 3 2 Sample.memory =
      (ErrCode.Success, { Data := [9, 9, 9, 2, 1, 9, 9, 9] }) ∧
    loadUInt MemoryInstance.getArray 3 2
        (storeUInt MemoryInstance.ops Sample.word258 3 2 Sample.memory).2 =
      (ErrCode.Success, Sample.word258,
        (storeUInt MemoryInstance.ops Sample.word258 3 2 Sample.memory).2) ∧
    (storeUInt MemoryInstance.ops Sample.word258 3 1 Sample.memory).1 =
      ErrCode.ExecutionFailed :=
  ⟨by decide,
    ((storeUInt_loadUInt_round_trip Sample.word258 3 2 Sample.memory (by decide)).2.2
      (by decide) (by decide)).1,
    ((storeUInt_loadUInt_round_trip Sample.word258 3 2 Sample.memory (by decide)).2.2
      (by decide) (by decide)).2,
    (storeUInt_loadUInt_round_trip Sample.word258 3 1 Sample.memory (by decide)).1.mpr
      ⟨30, by decide, by decide⟩⟩

end Words

/-! ## EEI: narrowing to 128 bits -/

section Conv

open Executor Executor.EEI

theorem Executor.EEI.shift_or_byte (D : Nat) (B : Byte) :
    ((D <<< 8) % 2 ^ 128) ||| B.val = (D * 256 + B.val) % 2 ^ 128 := by
  have hB : B.val < 2 ^ 8 := B.isLt
  have h1 : (D <<< 8) % 2 ^ 128 = 2 ^ 8 * (D % 2 ^ 120) := by
    rw [Nat.shiftLeft_eq]
    omega
  rw [h1, ← Nat.mul_add_lt_is_or hB]
  omega

theorem Executor.EEI.foldl_shift_or (F : Nat → Byte) (Is : List Nat) (D : Nat) :
    (Is.foldl (fun A I => ((A <<< 8) % 2 ^ 128) ||| (F I).val) D) % 2 ^ 128 =
      (D * 256 ^ Is.length + Is.foldl (fun A I => A * 256 + (F I).val) 0) % 2 ^ 128 := by
  have hg : (fun (A I : Nat) => ((A <<< 8) % 2 ^ 128) ||| (F I).val) =
      fun A I => (A * 256 + (F I).val) % 2 ^ 128 := by
    funext A I
    exact shift_or_byte A (F I)
  rw [hg]
  induction Is using List.reverseRecOn with
  | nil => simp
  | append_singleton Js I ih =>
    rw [List.foldl_append, List.foldl_append, List.length_append]
    simp only [List.foldl_cons, List.foldl_nil, List.length_singleton]
    have hp : 256 ^ (Js.length + 1) = 256 ^ Js.length * 256 := pow_succ _ _
    rw [hp, ← Nat.mul_assoc]
    generalize D * 256 ^ Js.length = P at ih ⊢
    generalize List.foldl (fun A I => A * 256 + (F I).val) 0 Js = Q at ih ⊢
    generalize List.foldl (fun A I => (A * 256 + (F I).val) % 2 ^ 128) D Js = R at ih ⊢
    omega

theorem Executor.EEI.foldl_shift_or_lt (F : Nat → Byte) (Js : List Nat) (I D : Nat) :
    (Js ++ [I]).foldl (fun A I => ((A <<< 8) % 2 ^ 128) ||| (F I).val) D < 2 ^ 128 := by
  rw [List.foldl_append]
  simp only [List.foldl_cons, List.foldl_nil, shift_or_byte]
  exact Nat.mod_lt _ (by norm_num)

theorem Executor.EEI.lowHalfValue_eq (Src : List Byte) :
    lowHalfValue Src =
        [16, 17, 18, 19, 20, 21, 22, 23, 24, 25, 26, 27, 28, 29, 30, 31].foldl
          (fun A I => A * 256 + (Src.getD I 0).val) 0 ∧
      lowHalfValue Src < 2 ^ 128 := by
  have hR : List.range 16 = [0, 1, 2, 3, 4, 5, 6, 7, 8, 9, 10, 11, 12, 13, 14, 15] := by
    decide
  unfold lowHalfValue
  rw [hR]
  simp only [List.map_cons, List.map_nil, List.sum_cons, List.sum_nil, List.foldl_cons,
    List.foldl_nil, Nat.reduceAdd, Nat.reduceSub, Nat.reducePow]
  have b0 := (Src.getD 16 0).isLt
  have b1 := (Src.getD 17 0).isLt
  have b2 := (Src.getD 18 0).isLt
  have b3 := (Src.getD 19 0).isLt
  have b4 := (Src.getD 20 0).isLt
  have b5 := (Src.getD 21 0).isLt
  have b6 := (Src.getD 22 0).isLt
  have b7 := (Src.getD 23 0).isLt
  have b8 := (Src.getD 24 0).isLt
  have b9 := (Src.getD 25 0).isLt
  have b10 := (Src.getD 26 0).isLt
  have b11 := (Src.getD 27 0).isLt
  have b12 := (Src.getD 28 0).isLt
  have b13 := (Src.getD 29 0).isLt
  have b14 := (Src.getD 30 0).isLt
  have b15 := (Src.getD 31 0).isLt
  constructor <;> omega

/-- C34. When one of the bytes 0..15 of the source is not zero,
`convToUInt128` reports `ExecutionFailed` and leaves the destination. When
all of them are zero it succeeds and the destination is the big-endian number
of the bytes 16..31, which is below `2 ^ 128` and does not depend on what the
destination held. -/
theorem convToUInt128_value (Src : List Byte) (Dst : Nat) :
    ((∃ I, I < 16 ∧ Src.getD I 0 ≠ 0) →
      convToUInt128 Src Dst = (ErrCode.ExecutionFailed, Dst)) ∧
    ((∀ I, I < 16 → Src.getD I 0 = 0) →
      convToUInt128 Src Dst = (ErrCode.Success, lowHalfValue Src) ∧
        lowHalfValue Src < 2 ^ 128) := by
  constructor
  · intro ⟨I, hI, hne⟩
    have hc : (List.range 16).any (fun I => decide (Src.getD I 0 ≠ 0)) = true := by
      simp only [List.any_eq_true, List.mem_range, decide_eq_true_eq]
      exact ⟨I, hI, hne⟩
    simp only [convToUInt128, hc, if_true]
  · intro hZ
    obtain ⟨hE, hV⟩ := lowHalfValue_eq Src
    refine ⟨?_, hV⟩
    have hc : (List.range 16).any (fun I => decide (Src.getD I 0 ≠ 0)) = false := by
      rw [Bool.eq_false_iff]
      simp only [ne_eq, List.any_eq_true, List.mem_range, decide_eq_true_eq, not_exists,
        not_and, not_not]
      exact hZ
    have hL : List.range' 16 16 =
        [16, 17, 18, 19, 20, 21, 22, 23, 24, 25, 26, 27, 28, 29, 30] ++ [31] := by decide
    have hlt := foldl_shift_or_lt (fun I => Src.getD I 0)
      [16, 17, 18, 19, 20, 21, 22, 23, 24, 25, 26, 27, 28, 29, 30] 31 Dst
    have hmod := foldl_shift_or (fun I => Src.getD I 0)
      ([16, 17, 18, 19, 20, 21, 22, 23, 24, 25, 26, 27, 28, 29, 30] ++ [31]) Dst
    rw [Nat.mod_eq_of_lt hlt] at hmod
    have h256 : (256 : Nat) ^
        ([16, 17, 18, 19, 20, 21, 22, 23, 24, 25, 26, 27, 28, 29, 30] ++ [31]).length =
          2 ^ 128 := by norm_num
    rw [h256, Nat.add_comm, Nat.add_mul_mod_self_right, Nat.mod_eq_of_lt] at hmod
    · simp only [convToUInt128, hc, hL]
      rw [hmod, hE]
      rfl
    · show List.foldl (fun A I => A * 256 + (Src.getD I 0).val) 0
        [16, 17, 18, 19, 20, 21, 22, 23, 24, 25, 26, 27, 28, 29, 30, 31] < 2 ^ 128
      rw [← hE]
      exact hV

/-- Witness for C34: a source whose first byte is set fails and leaves the
destination 77; the sample value 258 gives 258 whatever the destination
held. -/
theorem convToUInt128_value_witness :
    convToUInt128 Sample.highWord 77 = (ErrCode.ExecutionFailed, 77) ∧
    convToUInt128 Sample.word258 (2 ^ 127 + 5) = (ErrCode.Success, 258) :=
  ⟨(convToUInt128_value Sample.highWord 77).1 ⟨0, by decide, by decide⟩,
    ((convToUInt128_value Sample.word258 (2 ^ 127 + 5)).2 (by decide)).1⟩

end Conv

/-! ## EEI: the outcome of `callContract` -/

section CallResult

open Executor Executor.EEI

variable {Mgr Mem Cxt : Type}

/-- C35. In `callContract` below depth 1024 with readable input data: when
the static flag is set and the message is a CREATE, or a CALL with a value that
is not zero, the function returns `ExecutionFailed` in the state that reading
the input left, which has the cost manager and the environment (return data,
host context) of the start. When the flag is clear no violation is found and
the function goes on to the additional gas. -/
theorem callContract_static_rejection (ops : EnvironmentManagerOps Mgr)
    (mem : MemoryInstanceOps Mem) (H : evmc_host_interface Cxt)
    (DataOffset DataLength CreateResOffset : Nat) (S S1 : CallState Mgr Mem Cxt)
    (hDepth : S.Env.Depth < 1024)
    (hInput : setupInputData mem DataOffset DataLength S = (none, S1)) :
    (S.Env.Flag &&& EVMC_STATIC ≠ 0 →
      (S.Msg.kind = evmc_call_kind.EVMC_CREATE ∨
        (S.Msg.kind = evmc_call_kind.EVMC_CALL ∧ is_zero S.Msg.value = false)) →
      callContract ops mem H DataOffset DataLength CreateResOffset S =
          (ErrCode.ExecutionFailed, S1) ∧
        S1.EnvMgr = S.EnvMgr ∧ S1.Env = S.Env) ∧
    (S.Env.Flag &&& EVMC_STATIC = 0 →
      staticViolation S = false ∧
        callContractSetup ops mem H DataOffset DataLength S =
          match takeAdditionalGas ops H S1 with
          | (some Code, S2) => (some Code, S2)
          | (none, S2) => balanceAndGas ops H S2) := by
  obtain ⟨e1, e2, -, e4, -, e6, -, -⟩ := setupInputData_none mem _ _ S S1 hInput
  have hD : ¬ 1024 ≤ S.Env.Depth := by omega
  have hSV : staticViolation S1 = staticViolation S := by
    simp [staticViolation, e2, e4, e6]
  constructor
  · intro hF hK
    refine ⟨?_, e1, e2⟩
    have hV : staticViolation S = true := by
      simp only [staticViolation, decide_eq_true_eq]
      refine ⟨?_, hF⟩
      rcases hK with h | ⟨h, hz⟩
      · exact Or.inl h
      · exact Or.inr ⟨h, by simp [hz]⟩
    unfold callContract callContractSetup
    rw [if_neg hD]
    unfold callContractPrepare
    rw [hInput]
    simp [hSV, hV]
  · intro hF
    have hV : staticViolation S = false := by
      simp [staticViolation, hF]
    refine ⟨hV, ?_⟩
    unfold callContractSetup
    rw [if_neg hD]
    unfold callContractPrepare
    rw [hInput]
    simp only [hSV, hV]
    rfl

theorem Executor.EEI.assignGas_fields (ops : EnvironmentManagerOps Mgr)
    (S : CallState Mgr Mem Cxt) :
    (assignGas ops S).Msg.kind = S.Msg.kind ∧ (assignGas ops S).MemInst = S.MemInst ∧
      (assignGas ops S).Env = S.Env ∧ (assignGas ops S).Ret = S.Ret := by
  unfold assignGas
  dsimp only
  split <;> simp

theorem Executor.EEI.returnStatus_mem (CallRes : evmc_result) :
    returnStatus CallRes = 0 ∨ returnStatus CallRes = 1 ∨ returnStatus CallRes = 2 := by
  unfold returnStatus
  split
  · exact Or.inl rfl
  · split
    · exact Or.inr (Or.inr rfl)
    · exact Or.inr (Or.inl rfl)

theorem Executor.EEI.returnData_some (mem : MemoryInstanceOps Mem) (CreateResOffset : Nat)
    (CallRes : evmc_result) (S S2 : CallState Mgr Mem Cxt) (Code : ErrCode)
    (h : returnData mem CreateResOffset CallRes S = (some Code, S2)) :
    Code ≠ ErrCode.Success ∧
      (S.Msg.kind = evmc_call_kind.EVMC_CREATE ∧ CallRes.status_code = EVMC_SUCCESS) ∧
      (storeAddress mem CallRes.create_address CreateResOffset S.MemInst).1 = Code := by
  unfold returnData at h
  split at h
  · rename_i hK
    dsimp only at h
    split at h
    · rename_i hne
      simp only [Prod.mk.injEq, Option.some.injEq] at h
      exact ⟨h.1 ▸ hne, hK, h.1⟩
    · simp at h
  · cases hO : CallRes.output_data <;> rw [hO] at h <;> simp at h

theorem Executor.EEI.callContractFinish_success (ops : EnvironmentManagerOps Mgr)
    (mem : MemoryInstanceOps Mem) (CreateResOffset : Nat) (CallRes : evmc_result)
    (S : CallState Mgr Mem Cxt)
    (h : (callContractFinish ops mem CreateResOffset CallRes S).1 = ErrCode.Success) :
    (callContractFinish ops mem CreateResOffset CallRes S).2.Ret = returnStatus CallRes := by
  unfold callContractFinish at h ⊢
  split at h
  · simp at h
  · rename_i hG
    rw [if_neg hG]
    dsimp only at h ⊢
    cases hR : returnData mem CreateResOffset CallRes
        { S with EnvMgr := ops.subCost (toUInt64 CallRes.gas_left) S.EnvMgr } with
    | mk O S2 =>
      rw [hR] at h
      cases O with
      | none => rfl
      | some Code =>
        dsimp only at h
        exact absurd h (returnData_some mem _ _ _ _ _ hR).1

theorem Executor.EEI.callContractSetup_success (ops : EnvironmentManagerOps Mgr)
    (mem : MemoryInstanceOps Mem) (H : evmc_host_interface Cxt)
    (DataOffset DataLength : Nat) (S : CallState Mgr Mem Cxt)
    (h : (callContractSetup ops mem H DataOffset DataLength S).1 = some ErrCode.Success) :
    (callContractSetup ops mem H DataOffset DataLength S).2.Ret = 1 := by
  unfold callContractSetup at h ⊢
  split
  · rfl
  · rename_i hD
    rw [if_neg hD] at h
    unfold callContractPrepare at h ⊢
    cases hIn : setupInputData mem DataOffset DataLength S with
    | mk O1 S1 =>
      rw [hIn] at h
      cases O1 with
      | some C =>
        exfalso
        simp only [Option.some.injEq] at h
        subst h
        unfold setupInputData at hIn
        split at hIn
        · dsimp only at hIn
          split at hIn
          · rename_i hne
            simp only [Prod.mk.injEq, Option.some.injEq] at hIn
            exact hne hIn.1
          · simp at hIn
        · simp at hIn
      | none =>
        dsimp only at h ⊢
        split
        · rename_i hF
          rw [if_pos hF] at h
          simp at h
        · rename_i hF
          rw [if_neg hF] at h
          cases hG : takeAdditionalGas ops H S1 with
          | mk O2 S2 =>
            rw [hG] at h
            cases O2 with
            | some C =>
              exfalso
              simp only [Option.some.injEq] at h
              subst h
              unfold takeAdditionalGas at hG
              split at hG
              · dsimp only at hG
                split at hG
                · simp at hG
                · split at hG
                  · split at hG <;> simp at hG
                  · simp at hG
              · simp at hG
            | none =>
              dsimp only at h ⊢
              unfold balanceAndGas at h ⊢
              cases hB : checkBalance H S2 with
              | mk O3 S3 =>
                rw [hB] at h
                cases O3 with
                | none => simp at h
                | some C =>
                  simp only [Option.some.injEq] at h
                  subst h
                  dsimp only
                  unfold checkBalance at hB
                  split at hB
                  · dsimp only at hB
                    split at hB
                    · simp at hB
                    · split at hB
                      · simp at hB
                      · split at hB
                        · simp only [Prod.mk.injEq, true_and] at hB
                          rw [← hB]
                        · simp at hB
                  · simp at hB

theorem Executor.EEI.callContractSetup_kind (ops : EnvironmentManagerOps Mgr)
    (mem : MemoryInstanceOps Mem) (H : evmc_host_interface Cxt)
    (DataOffset DataLength : Nat) (S S1 : CallState Mgr Mem Cxt)
    (h : callContractSetup ops mem H DataOffset DataLength S = (none, S1)) :
    S1.Msg.kind = S.Msg.kind := by
  obtain ⟨S0, hIn, hS⟩ := callContractSetup_none ops mem H DataOffset DataLength S
    (by rw [h])
  rw [h] at hS
  dsimp only at hS
  obtain ⟨-, -, -, e4, -, -, -, -⟩ := setupInputData_none mem _ _ S S0 hIn
  rw [hS, (assignGas_fields ops _).1]
  exact e4

/-- C36. When `callContract` reaches the host call: a negative `gas_left`
gives `ExecutionFailed`; otherwise, when storing the created address succeeds
for a successful CREATE, the function returns `Success` with `Ret` 0 for
`EVMC_SUCCESS`, 2 for `EVMC_REVERT` and 1 for any other status. Every return of
`Success` has `Ret` 0, 1 or 2. -/
theorem callContract_result_code (ops : EnvironmentManagerOps Mgr)
    (mem : MemoryInstanceOps Mem) (H : evmc_host_interface Cxt)
    (DataOffset DataLength CreateResOffset : Nat) (S : CallState Mgr Mem Cxt) :
    (∀ (S1 : CallState Mgr Mem Cxt) (CallRes : evmc_result) (Cxt1 : Cxt),
      callContractSetup ops mem H DataOffset DataLength S = (none, S1) →
      H.call S1.Env.EVMCContext S1.Msg = (CallRes, Cxt1) →
        (CallRes.gas_left < 0 →
          callContract ops mem H DataOffset DataLength CreateResOffset S =
            (ErrCode.ExecutionFailed,
              { S1 with Env := { S1.Env with EVMCContext := Cxt1 } })) ∧
        (0 ≤ CallRes.gas_left →
          (S.Msg.kind = evmc_call_kind.EVMC_CREATE → CallRes.status_code = EVMC_SUCCESS →
            (storeAddress mem CallRes.create_address CreateResOffset S1.MemInst).1 =
              ErrCode.Success) →
          (callContract ops mem H DataOffset DataLength CreateResOffset S).1 =
              ErrCode.Success ∧
            (callContract ops mem H DataOffset DataLength CreateResOffset S).2.Ret =
              (if CallRes.status_code = EVMC_SUCCESS then 0
                else if CallRes.status_code = EVMC_REVERT then 2 else 1))) ∧
    ((callContract ops mem H DataOffset DataLength CreateResOffset S).1 = ErrCode.Success →
      (callContract ops mem H DataOffset DataLength CreateResOffset S).2.Ret = 0 ∨
        (callContract ops mem H DataOffset DataLength CreateResOffset S).2.Ret = 1 ∨
        (callContract ops mem H DataOffset DataLength CreateResOffset S).2.Ret = 2) := by
  constructor
  · intro S1 CallRes Cxt1 hReach hCall
    have hK := callContractSetup_kind ops mem H _ _ S S1 hReach
    have hC : callContract ops mem H DataOffset DataLength CreateResOffset S =
        callContractFinish ops mem CreateResOffset CallRes
          { S1 with Env := { S1.Env with EVMCContext := Cxt1 } } := by
      unfold callContract
      rw [hReach]
      dsimp only
      rw [hCall]
    constructor
    · intro hG
      rw [hC]
      unfold callContractFinish
      rw [if_pos hG]
    · intro hG hStore
      have hS : (callContractFinish ops mem CreateResOffset CallRes
          { S1 with Env := { S1.Env with EVMCContext := Cxt1 } }).1 = ErrCode.Success := by
        unfold callContractFinish
        rw [if_neg (by omega)]
        dsimp only
        cases hR : returnData mem CreateResOffset CallRes
            { S1 with
              EnvMgr := ops.subCost (toUInt64 CallRes.gas_left) S1.EnvMgr
              Env := { S1.Env with EVMCContext := Cxt1 } } with
        | mk O S2 =>
          cases O with
          | none => rfl
          | some Code =>
            exfalso
            obtain ⟨hne, ⟨k1, k2⟩, hSt⟩ := returnData_some mem _ _ _ _ _ hR
            dsimp only at k1 hSt
            exact hne (hSt ▸ hStore (hK ▸ k1) k2)
      rw [hC]
      refine ⟨hS, ?_⟩
      rw [callContractFinish_success ops mem _ _ _ hS]
      rfl
  · intro h
    unfold callContract at h ⊢
    cases hSet : callContractSetup ops mem H DataOffset DataLength S with
    | mk O S1 =>
      rw [hSet] at h
      cases O with
      | some Code =>
        dsimp only at h ⊢
        have := callContractSetup_success ops mem H DataOffset DataLength S
          (by rw [hSet, h])
        rw [hSet] at this
        exact Or.inr (Or.inl this)
      | none =>
        dsimp only at h ⊢
        rw [callContractFinish_success ops mem _ _ _ h]
        exact returnStatus_mem _

/-- Witness for C35: with the static flag, the sample CALL with value 1 is
rejected with the cost sum, the return data and the record of host calls of
the start; without the flag the sample CREATE is no violation. -/
theorem callContract_static_rejection_witness :
    ((callContract Sample.budget Sample.flatMemory (Sample.recordingHost true) 0 2 0
        (Sample.staticState (Sample.message evmc_call_kind.EVMC_CALL 1))).1 =
        ErrCode.ExecutionFailed ∧
      (callContract Sample.budget Sample.flatMemory (Sample.recordingHost true) 0 2 0
        (Sample.staticState (Sample.message evmc_call_kind.EVMC_CALL 1))).2.EnvMgr =
        (100000, 0) ∧
      (callContract Sample.budget Sample.flatMemory (Sample.recordingHost true) 0 2 0
        (Sample.staticState (Sample.message evmc_call_kind.EVMC_CALL 1))).2.Env =
        { Depth := 0, Flag := 1, ReturnData := [9], EVMCContext := [] }) ∧
    staticViolation (Sample.callState 100000 0 (Sample.message evmc_call_kind.EVMC_CREATE 1)) =
      false := by
  obtain ⟨h, hM, hE⟩ :=
    (callContract_static_rejection Sample.budget Sample.flatMemory (Sample.recordingHost true)
      0 2 0 (Sample.staticState (Sample.message evmc_call_kind.EVMC_CALL 1)) _
      (by decide) rfl).1 (by decide) (Or.inr ⟨rfl, by decide⟩)
  rw [h]
  exact ⟨⟨rfl, hM, hE⟩,
    ((callContract_static_rejection Sample.budget Sample.flatMemory
      (Sample.recordingHost true) 0 2 0
      (Sample.callState 100000 0 (Sample.message evmc_call_kind.EVMC_CREATE 1)) _
      (by decide) rfl).2 (by decide)).1⟩

/-- Witness for C36: when the sample call reaches a host that reports
`EVMC_REVERT` with 7 gas left, the result is `Success` with `Ret` 2; with a
host that reports -1 gas left it is `ExecutionFailed`. -/
theorem callContract_result_code_witness :
    ((callContract Sample.budget Sample.flatMemory (Sample.hostWith (Sample.callResult 2 7))
        0 2 0 (Sample.callState 100000 0 (Sample.message evmc_call_kind.EVMC_CALL 1))).1 =
        ErrCode.Success ∧
      (callContract Sample.budget Sample.flatMemory (Sample.hostWith (Sample.callResult 2 7))
        0 2 0 (Sample.callState 100000 0 (Sample.message evmc_call_kind.EVMC_CALL 1))).2.Ret =
        2) ∧
    (callContract Sample.budget Sample.flatMemory
        (Sample.hostWith (Sample.callResult 0 (-1))) 0 2 0
        (Sample.callState 100000 0 (Sample.message evmc_call_kind.EVMC_CALL 1))).1 =
      ErrCode.ExecutionFailed := by
  obtain ⟨hNeg, -⟩ := (callContract_result_code Sample.budget Sample.flatMemory
    (Sample.hostWith (Sample.callResult 0 (-1))) 0 2 0
    (Sample.callState 100000 0 (Sample.message evmc_call_kind.EVMC_CALL 1))).1
    (callContractSetup Sample.budget Sample.flatMemory
      (Sample.hostWith (Sample.callResult 0 (-1))) 0 2
      (Sample.callState 100000 0 (Sample.message evmc_call_kind.EVMC_CALL 1))).2
    (Sample.callResult 0 (-1)) _ rfl rfl
  rw [hNeg (by decide)]
  exact ⟨((callContract_result_code Sample.budget Sample.flatMemory
    (Sample.hostWith (Sample.callResult 2 7)) 0 2 0
    (Sample.callState 100000 0 (Sample.message evmc_call_kind.EVMC_CALL 1))).1
    (callContractSetup Sample.budget Sample.flatMemory
      (Sample.hostWith (Sample.callResult 2 7)) 0 2
      (Sample.callState 100000 0 (Sample.message evmc_call_kind.EVMC_CALL 1))).2
    (Sample.callResult 2 7) _ rfl rfl).2 (by decide) (fun h => absurd h (by decide)), rfl⟩

end CallResult

end SSVM
